import Mathlib

/-!
Verification of the walkabout traversal engine (package `engine`).

The Go engine walks an object graph described by a registry of type
descriptors (`TypeMap`).  Values live in raw memory and are addressed by
`unsafe.Pointer`s; struct fields are interior pointers (base + offset),
slices are a header pointing at a backing array, and interface values are
a (type-tag, payload) pair.  We embed that memory model shallowly:

* an allocation base is a natural number index into a list of cells;
* an address (`Addr`) is a base plus a path of child indexes, standing in
  for the byte offset of a field inside the allocation (the i-th
  traversable field of a struct is at path suffix `[i]`, the i-th element
  of a backing array likewise);
* the content of an allocation is a `MemVal`: a pointer cell, an
  interface cell (tag + payload), a slice header (backing base + length),
  an inline struct value (one `MemVal` per traversable field), or a
  backing array of elements.

Copying a `MemVal` duplicates the inline struct contents while sharing
pointer targets, slice backing arrays and interface payloads, which is
exactly what Go's shallow (`*dst = *src`) copies do.

The engine itself (`Engine.Execute`) is embedded as a small-step machine
over an explicit state, mirroring the `enter` / `unwind` / `nextSlot`
labels of the Go source.  Crucially, the Go code holds `*frame` and
`*Action` pointers (`curFrame`, `curSlot`, `parentSlot`, `returning`)
into the backing array of the `stack` slice while that slice can be
reallocated by the geometric-growth step; we therefore model the stack as
a store of backing arrays plus references `(backing, index)`, so that a
pointer taken before a growth keeps designating the old backing array,
exactly as in Go.

User visitors (`FacadeFn`) and injected calls (`ActionFn`) are opaque
values to the engine; we model them as indexes into caller-supplied
tables, so that machine states stay plain data.  The facade of a type
applies the user function to the slot's type id, address and the current
memory, which is the information the generated type-safe facades forward.
-/

namespace Walkabout

/-- `TypeId` of the Go source: a dense, non-zero identifier; 0 is
reserved for "none/untyped". -/
abbrev TypeID := Nat

/-- Traversal kind of a visitable type (`Kind` in types.go).  `zero` is
the Go zero value of the `Kind` int, carried by absent descriptors. -/
inductive Kind where
  | zero
  | interface
  | pointer
  | slice
  | struct
deriving DecidableEq, Repr

/-- A raw address: an allocation base plus the path of child indexes
inside the allocation (standing in for byte offsets). -/
structure Addr where
  base : Nat
  path : List Nat
deriving DecidableEq, Repr

/-- Content of (part of) an allocation, see the module comment. -/
inductive MemVal where
  | ptrV (target : Option Addr)
  | intfV (tag : TypeID) (payload : Option Addr)
  | sliceV (dat : Nat) (len : Nat)
  | structV (fields : List MemVal)
  | arrV (elems : List MemVal)

/-- Select the sub-value of a `MemVal` at a path of child indexes. -/
def MemVal.sub (v : MemVal) : List Nat → Option MemVal
  | [] => some v
  | k :: rest =>
    match v with
    | .structV fs => match fs.get? k with
      | some c => c.sub rest
      | none => none
    | .arrV es => match es.get? k with
      | some c => c.sub rest
      | none => none
    | _ => none

/-- Replace the sub-value of a `MemVal` at a path, failing if the path
does not designate an existing sub-value. -/
def MemVal.setSub (v : MemVal) : List Nat → MemVal → Option MemVal
  | [], w => some w
  | k :: rest, w =>
    match v with
    | .structV fs => match fs.get? k with
      | some c => match c.setSub rest w with
        | some c2 => some (.structV (fs.set k c2))
        | none => none
      | none => none
    | .arrV es => match es.get? k with
      | some c => match c.setSub rest w with
        | some c2 => some (.arrV (es.set k c2))
        | none => none
      | none => none
    | _ => none

/-- The user heap: a list of allocations, addressed by base index.
Allocation appends, so every address present before an allocation stays
valid and unchanged. -/
structure Mem where
  cells : List MemVal

/-- Read the value at an address. -/
def Mem.read (m : Mem) (a : Addr) : Option MemVal :=
  match m.cells.get? a.base with
  | some v => v.sub a.path
  | none => none

/-- Write a value at an address (a typed `*dest = v`). -/
def Mem.write (m : Mem) (a : Addr) (v : MemVal) : Option Mem :=
  match m.cells.get? a.base with
  | some old => match old.setSub a.path v with
    | some nv => some ⟨m.cells.set a.base nv⟩
    | none => none
  | none => none

/-- Allocate a fresh cell, returning the new memory and the fresh base. -/
def Mem.alloc (m : Mem) (v : MemVal) : Mem × Nat :=
  (⟨m.cells ++ [v]⟩, m.cells.length)

/-- Number of allocations. -/
def Mem.size (m : Mem) : Nat := m.cells.length

/-- `FieldInfo` of types.go: one traversable struct field.  The byte
`Offset` of the Go source is represented positionally: the i-th entry of
`fields` lives at path suffix `[i]` of the struct's address.  The
`targetData` pointer installed by `Engine.New` always equals the registry
entry at index `Target`, so we keep the id and look the descriptor up. -/
structure FieldInfo where
  name : String
  target : TypeID
deriving DecidableEq, Repr

/-- `TypeData` of types.go.  The generated closures are represented as
follows: `Copy` is a memory read + write of the `MemVal` (a typed
shallow copy); `NewStruct` / `NewSlice` allocate fresh cells;
`IntfType` reads the tag of an interface cell and maps it through
`intfMembers` (the set of type ids the generated switch knows, i.e. the
members of the polymorphic family), returning 0 for foreign tags;
`IntfWrap` allocates an interface cell when given a member id and
returns nil otherwise; `Facade` applies the user function to the slot's
type id, address and memory.  `SizeOf` is subsumed by positional
addressing, and the `elemData` / `targetData` links installed by `New`
are registry lookups by id. -/
structure TypeData where
  elem : TypeID := 0
  fields : List FieldInfo := []
  intfMembers : List TypeID := []
  kind : Kind := .zero
  name : String := ""
  typeID : TypeID := 0
deriving DecidableEq, Repr

/-- `TypeMap`: the registry, indexed densely by `TypeID` (entry 0 and any
gap hold the zero descriptor, recognizable by `typeID = 0`). -/
abbrev TypeMap := List TypeData

/-- An `Engine` holds the registry (`New` copies the caller's map, so the
engine's map equals the list it was built from). -/
structure Engine where
  typeMap : TypeMap
deriving DecidableEq, Repr

/-- `Engine.typeData`: `&e.typeMap[id]`.  `none` models the index-out-of-
range panic. -/
def Engine.typeData (e : Engine) (id : TypeID) : Option TypeData :=
  e.typeMap.get? id

/-- One linking check of `New` for an element reference: panics (as an
error string) when `td.Elem` is nonzero and does not resolve to a
present descriptor.  An out-of-range id is the Go runtime's bounds panic;
a zero-`TypeID` entry is the explicit "bad codegen" panic. -/
def linkElemCheck (m : TypeMap) (td : TypeData) : Except String Unit :=
  if td.elem = 0 then .ok ()
  else match m.get? td.elem with
    | none => .error "runtime error: index out of range"
    | some found =>
      if found.typeID = 0 then
        .error ("bad codegen: missing " ++ toString td.typeID ++ ".Elem "
          ++ toString td.elem)
      else .ok ()

/-- The linking check of `New` for the field list of one descriptor. -/
def linkFieldsCheck (m : TypeMap) (td : TypeData) :
    List FieldInfo → Except String Unit
  | [] => .ok ()
  | f :: rest =>
    match m.get? f.target with
    | none => .error "runtime error: index out of range"
    | some found =>
      if found.typeID = 0 then
        .error ("bad codegen: missing " ++ toString td.typeID ++ "."
          ++ f.name ++ ".Target " ++ toString f.target)
      else linkFieldsCheck m td rest

/-- The linking pass of `New` over a suffix of the registry. -/
def linkPass (m : TypeMap) : List TypeData → Except String Unit
  | [] => .ok ()
  | td :: rest => do
    linkElemCheck m td
    linkFieldsCheck m td td.fields
    linkPass m rest

/-- `New` (engine.go): copies the `TypeMap` and links every `Elem` and
field `Target` reference, panicking on a dangling one.  The `Except`
error is the panic. -/
def New (m : TypeMap) : Except String Engine := do
  linkPass m m
  return ⟨m⟩

/-- The registry is closed: every nonzero `Elem` reference and every
field `Target` reference of every descriptor resolves to a present
(nonzero-id) descriptor. -/
def RegistryClosed (m : TypeMap) : Prop :=
  ∀ td ∈ m,
    (td.elem ≠ 0 → ∃ found, m.get? td.elem = some found ∧ found.typeID ≠ 0) ∧
    (∀ f ∈ td.fields, ∃ found, m.get? f.target = some found ∧ found.typeID ≠ 0)

/-- `Engine.Stringify` (engine.go), with explicit recursion fuel standing
in for the unbounded Go loop (the loop walks `elemData` links, which is
finite for any registry produced by the code generator; we always call it
with fuel exceeding the registry size). -/
def stringifyLoop (e : Engine) (fuel : Nat) (acc : String) (id : TypeID) :
    String :=
  match fuel with
  | 0 => "<LOOP>"
  | fuel + 1 =>
    match e.typeData id with
    | none => "<PANIC>"
    | some td =>
      match td.kind with
      | .interface => acc ++ td.name
      | .struct => acc ++ td.name
      | .pointer => stringifyLoop e fuel (acc ++ "*") td.elem
      | .slice => stringifyLoop e fuel (acc ++ "[]") td.elem
      | .zero => "<PANIC>"

/-- `Engine.Stringify`. -/
def Engine.Stringify (e : Engine) (id : TypeID) : String :=
  if id = 0 then "<NIL>"
  else stringifyLoop e (e.typeMap.length + 1) "" id

/-- `IntfWrap` succeeds exactly on the members of the polymorphic family
(the generated switch returns nil for every other id). -/
def TypeData.intfCanWrap (td : TypeData) (id : TypeID) : Bool :=
  td.intfMembers.contains id

/-- `Action` (types.go): one pending child visitation or injected call.
`call` and `post` are indexes into the caller's tables of `ActionFn`s
and `FacadeFn`s; `typeData` is the installed descriptor pointer,
represented by the registry id it points at (`none` models the nil
pointer before `SetSlot` resolves it). -/
structure Action where
  call : Option Nat := none
  dirty : Bool := false
  post : Option Nat := none
  typeData : Option TypeID := none
  value : Option Addr := none
  valueType : TypeID := 0
deriving DecidableEq, Repr

/-- `Decision` (types.go): the value a visitor returns.  `intercept` and
`post` are facade-table indexes; `actions = some l` is a non-nil Go
slice (the engine distinguishes nil from empty). -/
structure Decision where
  actions : Option (List Action) := none
  error : Option String := none
  halt : Bool := false
  intercept : Option Nat := none
  post : Option Nat := none
  replacement : Option Addr := none
  replacementType : TypeID := 0
  skip : Bool := false
deriving DecidableEq, Repr

/-- `Context.Continue`: the zero decision. -/
def Context.Continue : Decision := {}

/-- `Context.Error`. -/
def Context.Error (err : String) : Decision := { error := some err }

/-- `Context.Halt`. -/
def Context.Halt : Decision := { halt := true }

/-- `Context.Skip`. -/
def Context.Skip : Decision := { skip := true }

/-- `Context.Actions`. -/
def Context.Actions (actions : List Action) : Decision :=
  { actions := some actions }

/-- `Context.ActionCall`. -/
def Context.ActionCall (fn : Nat) : Action := { call := some fn }

/-- `Context.ActionVisit`: visit `value` with the given descriptor. -/
def Context.ActionVisit (td : TypeData) (value : Option Addr) : Action :=
  { typeData := some td.typeID, value := value, valueType := td.typeID }

/-- `Context.ActionVisitTypeID`: descriptor left for `SetSlot` to
resolve. -/
def Context.ActionVisitTypeID (id : TypeID) (value : Option Addr) :
    Action :=
  { value := value, valueType := id }

/-- `Decision.Replace`. -/
def Decision.Replace (d : Decision) (id : TypeID) (x : Addr) : Decision :=
  { d with replacement := some x, replacementType := id }

/-- `Decision.Post`. -/
def Decision.Post (d : Decision) (fn : Nat) : Decision :=
  { d with post := some fn }

/-- `Decision.Intercept`. -/
def Decision.Intercept (d : Decision) (fn : Nat) : Decision :=
  { d with intercept := some fn }

/-- `Action.apply` (types.go): incorporate a decision into the slot.
Replacement is validated against the slot this value may be assigned
into: `Execute` passes the enclosing (parent) slot's descriptor — the
bootstrap sentinel's descriptor for the root — which is the
`assignableTo` descriptor of the source (stored on the `Action` by
`ActionVisitReplace` in the types.go revision, passed as the third
`apply` argument at every engine.go call site; both forms receive the
same descriptor, and `none` models the nil case of the former).  An
`Except.error` is the error returned to `Execute`. -/
def Action.apply (a : Action) (e : Engine) (d : Decision)
    (assignableTo : Option TypeID) : Except String Action := do
  if let some err := d.error then
    throw err
  let a := match d.post with
    | some p => { a with post := some p }
    | none => a
  match d.replacement with
  | none => return a
  | some repl =>
    match assignableTo with
    | none => throw "this value cannot be replaced"
    | some atId =>
      match a.typeData with
      | none => throw "runtime error: invalid memory address"
      | some aTid =>
        if aTid ≠ d.replacementType then
          match e.typeData atId with
          | none => throw "runtime error: index out of range"
          | some atTd =>
            if atTd.kind = .interface then
              if atTd.intfCanWrap d.replacementType then
                return { a with
                  typeData := some d.replacementType
                  dirty := true
                  value := some repl }
              else
                throw ("type " ++ e.Stringify d.replacementType
                  ++ " is unknown or not assignable to "
                  ++ e.Stringify atTd.typeID)
            else
              throw ("cannot change type of " ++ e.Stringify atTd.typeID
                ++ " to " ++ e.Stringify d.replacementType)
        else
          return { a with dirty := true, value := some repl }

/-- `Abstract` (abstract.go): a (descriptor, value) pair exposing a node
as a generic labeled tree. -/
structure Abstract where
  typeData : TypeID
  value : Option Addr
deriving DecidableEq, Repr

/-- `Engine.Abstract` (engine.go): nil in, nil out. -/
def Engine.Abstract (e : Engine) (typeId : TypeID) (x : Option Addr) :
    Option Abstract :=
  match x with
  | none => none
  | some a => some ⟨typeId, some a⟩

/-- `Abstract.NumChildren` (abstract.go).  The `Except.error` is the
panic raised on kinds other than struct and slice; reading a slice
header of a value whose memory does not hold one is the crash of the
unchecked `(*reflect.SliceHeader)` cast. -/
def Abstract.NumChildren (e : Engine) (m : Mem) (a : Abstract) :
    Except String Nat := do
  match a.value with
  | none => return 0
  | some v =>
    match e.typeData a.typeData with
    | none => throw "runtime error: index out of range"
    | some td =>
      match td.kind with
      | .struct => return td.fields.length
      | .slice =>
        match m.read v with
        | some (.sliceV _ len) => return len
        | _ => throw "runtime error: invalid memory address"
      | _ => throw ("unimplemented: " ++ toString (reprStr td.kind))

/-- The chase loop of `Abstract.ChildAt`: dereference pointers and
resolve interfaces until a struct or slice (wrapped) or an empty
reference (nil) is reached.  `fuel` stands in for the unbounded Go
`for` loop. -/
def chaseLoop (e : Engine) (m : Mem) (fuel : Nat) (chaseType : TypeID)
    (chaseValue : Option Addr) : Except String (Option Abstract) := do
  match fuel with
  | 0 => throw "<LOOP>"
  | fuel + 1 =>
    match chaseValue with
    | none => return none
    | some v =>
      match e.typeData chaseType with
      | none => throw "runtime error: index out of range"
      | some td =>
        match td.kind with
        | .slice =>
          match m.read v with
          | some (.sliceV _ len) =>
            if len = 0 then return none
            else return some ⟨chaseType, some v⟩
          | _ => throw "runtime error: invalid memory address"
        | .struct => return some ⟨chaseType, some v⟩
        | .pointer =>
          match m.read v with
          | some (.ptrV t) => chaseLoop e m fuel td.elem t
          | _ => throw "runtime error: invalid memory address"
        | .interface =>
          match m.read v with
          | some (.intfV tag payload) =>
            if (if td.intfMembers.contains tag then tag else 0) = 0 then
              return none
            else
              chaseLoop e m fuel
                (if td.intfMembers.contains tag then tag else 0) payload
          | _ => throw "runtime error: invalid memory address"
        | .zero => throw ("unimplemented: " ++ toString (reprStr td.kind))

/-- `Abstract.ChildAt` (abstract.go).  The index is an `Int` because the
Go parameter is a signed int and the slice case checks for negative
indexes explicitly; the struct case hits Go's runtime bounds check,
modeled by the same panic class.  The `Except.error` carries the panic
message. -/
def Abstract.ChildAt (e : Engine) (m : Mem) (a : Abstract) (index : Int) :
    Except String (Option Abstract) := do
  match e.typeData a.typeData with
  | none => throw "runtime error: index out of range"
  | some td =>
    match td.kind with
    | .struct =>
      match a.value with
      | none => throw "runtime error: invalid memory address"
      | some v =>
        if h : 0 ≤ index ∧ index.toNat < td.fields.length then
          let f := td.fields.get ⟨index.toNat, h.2⟩
          chaseLoop e m (e.typeMap.length + 1) f.target
            (some ⟨v.base, v.path ++ [index.toNat]⟩)
        else throw "runtime error: index out of range"
    | .slice =>
      match a.value with
      | none => throw "runtime error: invalid memory address"
      | some v =>
        match m.read v with
        | some (.sliceV dat len) =>
          if index < 0 ∨ (len : Int) ≤ index then
            throw ("index out of range: " ++ toString index)
          else
            chaseLoop e m (e.typeMap.length + 1) td.elem
              (some ⟨dat, [index.toNat]⟩)
        | _ => throw "runtime error: invalid memory address"
    | _ => throw ("unimplemented: " ++ toString (reprStr td.kind))

/-! ## The `Execute` stack machine (engine.go)

`Execute` is a goto-structured loop with labels `enter`, `unwind` and
`nextSlot`; each label becomes one step of a small-step machine.  The
local pointer variables of the Go function (`curFrame`, `curSlot`,
`parentSlot`, `returning`, `entering`) are pointers into the backing
array of the `stack` slice (or into a frame's `Overflow` slice); because
the growth step `stack = temp` reallocates that backing array while
those pointers keep referring to the old one, the model keeps every
backing array ever allocated in `stackStore` and represents a `*frame`
as a (backing, index) pair and an `*Action` as a `SlotRef`.  All reads
of `stack[...]` in the source go through the current backing
(`stackB`); reads and writes through the saved pointers go through the
pair they were created with. -/

/-- `defaultStackDepth` (engine.go). -/
def defaultStackDepth : Nat := 8

/-- `fixedSlotCount` (engine.go). -/
def fixedSlotCount : Nat := 16

/-- A frame (engine.go).  `Slots` is the fixed-size inline array,
copied by value when the stack's backing array is copied; `Overflow` is
a Go slice, so the frame stores a reference (an index into `overStore`)
that is shared by such copies. -/
structure Frame where
  Count : Nat := 0
  Idx : Nat := 0
  Intercept : Option Nat := none
  Slots : List Action := List.replicate fixedSlotCount {}
  Overflow : Option Nat := none
deriving DecidableEq, Repr

/-- A `*frame`: backing array index into `stackStore`, frame index. -/
abbrev FrameRef := Nat × Nat

/-- An `*Action`: either `&f.Slots[j]` inside a frame of a backing
array, or `&overflowArray[j]` inside a shared overflow allocation. -/
inductive SlotRef where
  | fixed (b : Nat) (fi : Nat) (j : Nat)
  | over (oid : Nat) (j : Nat)
deriving DecidableEq, Repr

/-- Observable events of one execution: each facade or injected-call
invocation, in order. -/
inductive Event where
  | visit (t : TypeID) (a : Option Addr)
  | intercept (t : TypeID) (a : Option Addr)
  | post (t : TypeID) (a : Option Addr)
  | call (i : Nat)
deriving DecidableEq, Repr

/-- Which label of `Execute` runs next. -/
inductive Phase where
  | enter
  | unwind
  | nextSlot
deriving DecidableEq, Repr

/-- The return value of `Execute`:
`(retType TypeId, ret Ptr, changed bool, err error)`. -/
structure ExecResult where
  retType : TypeID
  ret : Option Addr
  changed : Bool
  error : Option String
deriving DecidableEq, Repr

/-- The machine state: the local variables of `Execute` plus the heap
and the stack/overflow backing stores. -/
structure ExecState where
  mem : Mem
  stackStore : List (List Frame)
  overStore : List (List Action)
  stackB : Nat
  stackIdx : Nat
  curFrame : FrameRef
  curSlot : SlotRef
  parentSlot : SlotRef
  returning : Option FrameRef
  halting : Bool
  trace : List Event
  phase : Phase

/-- A table of user `FacadeFn`s: index ↦ visitor.  The generated facade
hands the user function the node (type id, address) and we additionally
pass the current memory so visitors can inspect values. -/
abbrev VisTable := Nat → TypeID → Option Addr → Mem → Decision

/-- A table of user `ActionFn`s (the zero-argument fallible callbacks of
`ActionCall`). -/
abbrev CallTable := Nat → Except String Unit

/-- Machine panics (nil dereference, out-of-range index, unknown kind)
are threaded as `Except.error`; they are distinct from visitor errors,
which produce a normal `.ret` with the `error` field set. -/
abbrev EM := Except String

/-- Lift a partial lookup, turning `none` into the given panic. -/
def liftO (msg : String) : Option α → EM α
  | some a => .ok a
  | none => .error msg

/-- One step either continues in a new state or returns from
`Execute`. -/
inductive Flow where
  | next (s : ExecState)
  | ret (r : ExecResult) (s : ExecState)

/-- Read a frame through a `*frame`. -/
def ExecState.getFrame (s : ExecState) (r : FrameRef) : Option Frame :=
  match s.stackStore.get? r.1 with
  | some backing => backing.get? r.2
  | none => none

/-- Write a frame through a `*frame`. -/
def ExecState.setFrame (s : ExecState) (r : FrameRef) (f : Frame) :
    Option ExecState :=
  match s.stackStore.get? r.1 with
  | some backing =>
    if r.2 < backing.length then
      some { s with
        stackStore := s.stackStore.set r.1 (backing.set r.2 f) }
    else none
  | none => none

/-- Read an `Action` through an `*Action`. -/
def ExecState.getSlot (s : ExecState) : SlotRef → Option Action
  | .fixed b fi j =>
    match s.getFrame (b, fi) with
    | some f => f.Slots.get? j
    | none => none
  | .over oid j =>
    match s.overStore.get? oid with
    | some arr => arr.get? j
    | none => none

/-- Write an `Action` through an `*Action`. -/
def ExecState.setSlot (s : ExecState) (r : SlotRef) (a : Action) :
    Option ExecState :=
  match r with
  | .fixed b fi j =>
    match s.getFrame (b, fi) with
    | some f =>
      if j < f.Slots.length then
        s.setFrame (b, fi) { f with Slots := f.Slots.set j a }
      else none
    | none => none
  | .over oid j =>
    match s.overStore.get? oid with
    | some arr =>
      if j < arr.length then
        some { s with overStore := s.overStore.set oid (arr.set j a) }
      else none
    | none => none

/-- `frame.Slot(idx)` as a pointer: `&f.Slots[idx]` for an inline slot,
`&f.Overflow[idx-fixedSlotCount]` otherwise (panicking, like Go, when
`Overflow` is nil). -/
def ExecState.slotPtr (s : ExecState) (r : FrameRef) (j : Nat) :
    Option SlotRef :=
  if j < fixedSlotCount then some (.fixed r.1 r.2 j)
  else
    match s.getFrame r with
    | some f =>
      match f.Overflow with
      | some oid => some (.over oid (j - fixedSlotCount))
      | none => none
    | none => none

/-- `frame.Active()` as a pointer: `f.Slot(f.Idx)`. -/
def ExecState.activePtr (s : ExecState) (r : FrameRef) : Option SlotRef :=
  match s.getFrame r with
  | some f => s.slotPtr r f.Idx
  | none => none

/-- `frame.SetSlot`: store the action, resolving a nil `typeData` from
`valueType` (`e.typeData` panics on an out-of-range id, like the Go
index expression). -/
def ExecState.setSlotResolved (s : ExecState) (e : Engine) (r : FrameRef)
    (j : Nat) (a : Action) : EM ExecState := do
  let ptr ← liftO "runtime error: invalid memory address" (s.slotPtr r j)
  let a ← match a.typeData with
    | some _ => pure a
    | none =>
      match e.typeData a.valueType with
      | some _ => pure { a with typeData := some a.valueType }
      | none => throw "runtime error: index out of range"
  liftO "runtime error: index out of range" (s.setSlot ptr a)

/-- Append an event to the trace. -/
def ExecState.push (s : ExecState) (ev : Event) : ExecState :=
  { s with trace := s.trace ++ [ev] }

/-- `enter(intercept, slotCount)` (engine.go): configure the frame at
`stack[stackIdx+1]` in the current backing, allocating an overflow
array when the inline capacity is exceeded (the stale `Overflow`
reference of a recycled frame is kept otherwise, as in Go). -/
def ExecState.enterConfig (s : ExecState) (intercept : Option Nat)
    (slotCount : Nat) : EM ExecState := do
  let r : FrameRef := (s.stackB, s.stackIdx + 1)
  let f ← liftO "runtime error: index out of range" (s.getFrame r)
  if slotCount > fixedSlotCount then
    let oid := s.overStore.length
    let f := { f with
      Count := slotCount
      Intercept := intercept
      Idx := 0
      Overflow := some oid }
    let s := { s with
      overStore :=
        s.overStore ++
          [List.replicate (slotCount - fixedSlotCount) ({} : Action)] }
    liftO "runtime error: index out of range" (s.setFrame r f)
  else
    let f := { f with Count := slotCount, Intercept := intercept, Idx := 0 }
    liftO "runtime error: index out of range" (s.setFrame r f)

/-- Store the actions of an explicit action list into the entering
frame, in order, starting at slot `i` (the loop body of the
`d.actions` case). -/
def ExecState.setEnterSlots (s : ExecState) (e : Engine) (i : Nat) :
    List Action → EM ExecState
  | [] => .ok s
  | a :: rest => do
    let s ← s.setSlotResolved e (s.stackB, s.stackIdx + 1) i a
    s.setEnterSlots e (i + 1) rest

/-- The push tail shared by every `case` of the enter switch
(engine.go:296-310): advance `stackIdx`, grow the frame array
geometrically if exhausted (allocating a new backing array and copying
the frames into it — the current backing becomes the new one while the
saved `*frame`/`*Action` pointers keep designating the old one), then
make the entering frame current. -/
def ExecState.pushTail (s : ExecState) : EM ExecState := do
  let enteringRef : FrameRef := (s.stackB, s.stackIdx + 1)
  let s := { s with stackIdx := s.stackIdx + 1 }
  let backing ← liftO "runtime error: index out of range"
    (s.stackStore.get? s.stackB)
  let s ←
    if s.stackIdx = backing.length - 1 then
      let grown := backing ++
        List.replicate (3 * backing.length / 2 + 1 - backing.length)
          ({} : Frame)
      pure { s with
        stackStore := s.stackStore ++ [grown]
        stackB := s.stackStore.length }
    else
      pure s
  return { s with
    parentSlot := s.curSlot
    curFrame := enteringRef
    curSlot := .fixed enteringRef.1 enteringRef.2 0 }

/-- The cycle-breaking linear scan (engine.go:187-192): does any frame
below `stackIdx` in the current backing have an active slot with the
same raw value and the same concrete type id? -/
def ExecState.onStackScan (s : ExecState) (value : Option Addr)
    (tid : TypeID) : Nat → EM Bool
  | 0 => .ok false
  | l + 1 => do
    let hit ← s.onStackScan value tid l
    if hit then
      return true
    else
      let ptr ← liftO "runtime error: index out of range"
        (s.activePtr (s.stackB, l))
      let onStack ← liftO "runtime error: index out of range"
        (s.getSlot ptr)
      let onTid ← liftO "runtime error: invalid memory address"
        onStack.typeData
      return onStack.value = value ∧ onTid = tid

/-- Build the field-visit actions of the default struct descent
(engine.go:259-263): one `ActionVisit` per declared field, in order,
addressed at the field's offset inside the struct. -/
def fieldActions (e : Engine) (v : Addr) (i : Nat) :
    List FieldInfo → EM (List Action)
  | [] => .ok []
  | f :: rest => do
    let ftd ← liftO "runtime error: index out of range" (e.typeData f.target)
    let acts ← fieldActions e v (i + 1) rest
    return Context.ActionVisit ftd (some ⟨v.base, v.path ++ [i]⟩) :: acts

/-- Build the element-visit actions of the slice descent
(engine.go:273-277): one `ActionVisit` per element of the backing
array. -/
def elemActions (eltTd : TypeData) (dat : Nat) (i : Nat) :
    Nat → List Action
  | 0 => []
  | n + 1 =>
    Context.ActionVisit eltTd (some ⟨dat, [i]⟩)
      :: elemActions eltTd dat (i + 1) n

/-- The main struct visit and descent setup (engine.go:226-264), run
after the optional intercept: invoke the facade, apply the decision
(validated against the parent slot's descriptor), honor halt/skip,
then push either the explicit action list or one slot per field. -/
def structVisit (e : Engine) (vt : VisTable) (fn : Nat) (s : ExecState) :
    EM Flow := do
  let a ← liftO "runtime error: invalid memory address"
    (s.getSlot s.curSlot)
  let tid ← liftO "runtime error: invalid memory address" a.typeData
  let d := vt fn tid a.value s.mem
  let s := s.push (.visit tid a.value)
  let psl ← liftO "runtime error: invalid memory address"
    (s.getSlot s.parentSlot)
  match a.apply e d psl.typeData with
  | .error err => return .ret ⟨0, none, false, some err⟩ s
  | .ok a2 => do
    let s ← liftO "runtime error: index out of range"
      (s.setSlot s.curSlot a2)
    let s := if d.halt then { s with halting := true } else s
    let a3 ← liftO "runtime error: invalid memory address"
      (s.getSlot s.curSlot)
    let tid3 ← liftO "runtime error: invalid memory address" a3.typeData
    let td3 ← liftO "runtime error: index out of range" (e.typeData tid3)
    let fieldCount := td3.fields.length
    if s.halting ∨ d.skip then
      return .next { s with phase := .unwind }
    else
      match d.actions with
      | some acts =>
        if acts.length = 0 then
          return .next { s with phase := .unwind }
        else do
          let s ← s.enterConfig d.intercept acts.length
          let s ← s.setEnterSlots e 0 acts
          let s ← s.pushTail
          return .next { s with phase := .enter }
      | none =>
        if fieldCount = 0 then
          return .next { s with phase := .unwind }
        else do
          let av ← liftO "runtime error: invalid memory address" a3.value
          let acts ← fieldActions e av 0 td3.fields
          let s ← s.enterConfig d.intercept fieldCount
          let s ← s.setEnterSlots e 0 acts
          let s ← s.pushTail
          return .next { s with phase := .enter }

/-- The `enter` label (engine.go:171-310): injected calls, the
cycle-breaking scan, and the per-kind descent switch. -/
def stepEnter (e : Engine) (vt : VisTable) (ct : CallTable) (fn : Nat)
    (s : ExecState) : EM Flow := do
  let a ← liftO "runtime error: invalid memory address"
    (s.getSlot s.curSlot)
  match a.call with
  | some ci =>
    let s := s.push (.call ci)
    match ct ci with
    | .error err => return .ret ⟨0, none, false, some err⟩ s
    | .ok _ => return .next { s with phase := .unwind }
  | none => do
    let curTid ← liftO "runtime error: invalid memory address" a.typeData
    let hit ← s.onStackScan a.value curTid s.stackIdx
    if hit then
      return .next { s with phase := .nextSlot }
    else do
      let td ← liftO "runtime error: index out of range"
        (e.typeData curTid)
      match td.kind with
      | .pointer => do
        let av ← liftO "runtime error: invalid memory address" a.value
        match s.mem.read av with
        | some (.ptrV t) =>
          match t with
          | none => return .next { s with phase := .unwind }
          | some p => do
            let cf ← liftO "runtime error: index out of range"
              (s.getFrame s.curFrame)
            let eltTd ← liftO "runtime error: index out of range"
              (e.typeData td.elem)
            let s ← s.enterConfig cf.Intercept 1
            let s ← s.setEnterSlots e 0 [Context.ActionVisit eltTd (some p)]
            let s ← s.pushTail
            return .next { s with phase := .enter }
        | _ => throw "machine: pointer cell expected"
      | .slice => do
        let av ← liftO "runtime error: invalid memory address" a.value
        match s.mem.read av with
        | some (.sliceV dat len) =>
          if len = 0 then
            return .next { s with phase := .unwind }
          else do
            let cf ← liftO "runtime error: index out of range"
              (s.getFrame s.curFrame)
            let eltTd ← liftO "runtime error: index out of range"
              (e.typeData td.elem)
            let s ← s.enterConfig cf.Intercept len
            let s ← s.setEnterSlots e 0 (elemActions eltTd dat 0 len)
            let s ← s.pushTail
            return .next { s with phase := .enter }
        | _ => throw "machine: slice header expected"
      | .interface => do
        let av ← liftO "runtime error: invalid memory address" a.value
        match s.mem.read av with
        | some (.intfV tag payload) =>
          let elem := if td.intfMembers.contains tag then tag else 0
          if elem = 0 ∨ payload = none then
            return .next { s with phase := .unwind }
          else do
            let p ← liftO "runtime error: invalid memory address" payload
            let cf ← liftO "runtime error: index out of range"
              (s.getFrame s.curFrame)
            let etd ← liftO "runtime error: index out of range"
              (e.typeData elem)
            let s ← s.enterConfig cf.Intercept 1
            let s ← s.setEnterSlots e 0 [Context.ActionVisit etd (some p)]
            let s ← s.pushTail
            return .next { s with phase := .enter }
        | _ => throw "machine: interface cell expected"
      | .struct => do
        let cf ← liftO "runtime error: index out of range"
          (s.getFrame s.curFrame)
        match cf.Intercept with
        | some iv => do
          let d := vt iv curTid a.value s.mem
          let s := s.push (.intercept curTid a.value)
          let psl ← liftO "runtime error: invalid memory address"
            (s.getSlot s.parentSlot)
          match a.apply e d psl.typeData with
          | .error err => return .ret ⟨0, none, false, some err⟩ s
          | .ok a2 => do
            let s ← liftO "runtime error: index out of range"
              (s.setSlot s.curSlot a2)
            let s := if d.halt then { s with halting := true } else s
            let s ←
              match d.intercept with
              | some ni => do
                let cf2 ← liftO "runtime error: index out of range"
                  (s.getFrame s.curFrame)
                liftO "runtime error: index out of range"
                  (s.setFrame s.curFrame { cf2 with Intercept := some ni })
              | none => pure s
            structVisit e vt fn s
        | none => structVisit e vt fn s
      | .zero => throw "unexpected kind: 0"

/-- The dirty-propagation and reconstruction half of the `unwind` label
(engine.go:327-372), shared by the post and no-post paths. -/
def copyFieldsBack (s : ExecState) (rret : Option FrameRef) (nb : Nat)
    (i : Nat) : List FieldInfo → EM ExecState
  | [] => .ok s
  | _f :: rest => do
    let rref ← liftO "runtime error: invalid memory address" rret
    let ptr ← liftO "runtime error: invalid memory address"
      (s.slotPtr rref i)
    let sl ← liftO "runtime error: invalid memory address" (s.getSlot ptr)
    let src ← liftO "runtime error: invalid memory address" sl.value
    let v ← liftO "runtime error: invalid memory address" (s.mem.read src)
    let m ← liftO "runtime error: invalid memory address"
      (s.mem.write ⟨nb, [i]⟩ v)
    copyFieldsBack { s with mem := m } rret nb (i + 1) rest

/-- Copy the slice elements out of the returning frame into the fresh
backing array (engine.go:357-361). -/
def copyElemsBack (s : ExecState) (rref : FrameRef) (db : Nat) (i : Nat) :
    Nat → EM ExecState
  | 0 => .ok s
  | n + 1 => do
    let ptr ← liftO "runtime error: invalid memory address"
      (s.slotPtr rref i)
    let sl ← liftO "runtime error: invalid memory address" (s.getSlot ptr)
    let src ← liftO "runtime error: invalid memory address" sl.value
    let v ← liftO "runtime error: invalid memory address" (s.mem.read src)
    let m ← liftO "runtime error: invalid memory address"
      (s.mem.write ⟨db, [i]⟩ v)
    copyElemsBack { s with mem := m } rref db (i + 1) n

/-- The dirty check and reconstruction of the `unwind` label. -/
def unwindDirty (e : Engine) (s : ExecState) : EM Flow := do
  let a ← liftO "runtime error: invalid memory address"
    (s.getSlot s.curSlot)
  if a.dirty then do
    let psl ← liftO "runtime error: invalid memory address"
      (s.getSlot s.parentSlot)
    let s ← liftO "runtime error: index out of range"
      (s.setSlot s.parentSlot { psl with dirty := true })
    let tid ← liftO "runtime error: invalid memory address" a.typeData
    let td ← liftO "runtime error: index out of range" (e.typeData tid)
    match td.kind with
    | .struct => do
      let (m1, nb) := s.mem.alloc (.structV [])
      let av ← liftO "runtime error: invalid memory address" a.value
      let v ← liftO "runtime error: invalid memory address" (m1.read av)
      let m2 ← liftO "runtime error: invalid memory address"
        (m1.write ⟨nb, []⟩ v)
      let s ← copyFieldsBack { s with mem := m2 } s.returning nb 0 td.fields
      let a4 ← liftO "runtime error: invalid memory address"
        (s.getSlot s.curSlot)
      let s ← liftO "runtime error: index out of range"
        (s.setSlot s.curSlot { a4 with value := some ⟨nb, []⟩ })
      return .next { s with phase := .nextSlot }
    | .pointer => do
      let rref ← liftO "runtime error: invalid memory address" s.returning
      let z ← liftO "runtime error: invalid memory address"
        (s.getSlot (.fixed rref.1 rref.2 0))
      let (m1, nb) := s.mem.alloc (.ptrV z.value)
      let a4 ← liftO "runtime error: invalid memory address"
        (s.getSlot s.curSlot)
      let s ← liftO "runtime error: index out of range"
        (s.setSlot s.curSlot { a4 with value := some ⟨nb, []⟩ })
      return .next { { s with mem := m1 } with phase := .nextSlot }
    | .slice => do
      let rref ← liftO "runtime error: invalid memory address" s.returning
      let rf ← liftO "runtime error: index out of range" (s.getFrame rref)
      let cnt := rf.Count
      let (m1, db) := s.mem.alloc (.arrV (List.replicate cnt (.structV [])))
      let (m2, hb) := m1.alloc (.sliceV db cnt)
      let s ← copyElemsBack { s with mem := m2 } rref db 0 cnt
      let a4 ← liftO "runtime error: invalid memory address"
        (s.getSlot s.curSlot)
      let s ← liftO "runtime error: index out of range"
        (s.setSlot s.curSlot { a4 with value := some ⟨hb, []⟩ })
      return .next { s with phase := .nextSlot }
    | .interface => do
      let rref ← liftO "runtime error: invalid memory address" s.returning
      let z ← liftO "runtime error: invalid memory address"
        (s.getSlot (.fixed rref.1 rref.2 0))
      let zTid ← liftO "runtime error: invalid memory address" z.typeData
      let a4 ← liftO "runtime error: invalid memory address"
        (s.getSlot s.curSlot)
      if td.intfCanWrap zTid then do
        let (m1, nb) := s.mem.alloc (.intfV zTid z.value)
        let s ← liftO "runtime error: index out of range"
          (s.setSlot s.curSlot { a4 with value := some ⟨nb, []⟩ })
        return .next { { s with mem := m1 } with phase := .nextSlot }
      else do
        let s ← liftO "runtime error: index out of range"
          (s.setSlot s.curSlot { a4 with value := none })
        return .next { s with phase := .nextSlot }
    | .zero => throw "unimplemented: 0"
  else
    return .next { s with phase := .nextSlot }

/-- The `unwind` label (engine.go:312-372): run the post callback, then
propagate dirtiness and rebuild the slot's value. -/
def stepUnwind (e : Engine) (vt : VisTable) (s : ExecState) : EM Flow := do
  let a ← liftO "runtime error: invalid memory address"
    (s.getSlot s.curSlot)
  match a.post with
  | some pi => do
    let tid ← liftO "runtime error: invalid memory address" a.typeData
    let d := vt pi tid a.value s.mem
    let s := s.push (.post tid a.value)
    let psl ← liftO "runtime error: invalid memory address"
      (s.getSlot s.parentSlot)
    match a.apply e d psl.typeData with
    | .error err => return .ret ⟨0, none, false, some err⟩ s
    | .ok a2 => do
      let s ← liftO "runtime error: index out of range"
        (s.setSlot s.curSlot a2)
      let s := if d.halt then { s with halting := true } else s
      unwindDirty e s
  | none => unwindDirty e s

/-- The `nextSlot` label (engine.go:374-403): advance the slot index;
pop (or return from the top frame) when the frame is exhausted or a
halt is pending. -/
def stepNext (s : ExecState) : EM Flow := do
  let cf ← liftO "runtime error: index out of range"
    (s.getFrame s.curFrame)
  let cf := { cf with Idx := cf.Idx + 1 }
  let s ← liftO "runtime error: index out of range"
    (s.setFrame s.curFrame cf)
  if cf.Idx = cf.Count ∨ s.halting then
    if s.stackIdx = 1 then do
      let z ← liftO "runtime error: invalid memory address"
        (s.getSlot (.fixed s.curFrame.1 s.curFrame.2 0))
      let tid ← liftO "runtime error: invalid memory address" z.typeData
      return .ret ⟨tid, z.value, z.dirty, none⟩ s
    else do
      let s := { s with
        returning := some s.curFrame
        stackIdx := s.stackIdx - 1 }
      let newCur : FrameRef := (s.stackB, s.stackIdx)
      let cs ← liftO "runtime error: index out of range"
        (s.activePtr newCur)
      let ps ← liftO "runtime error: index out of range"
        (s.activePtr (s.stackB, s.stackIdx - 1))
      return .next { s with
        curFrame := newCur
        curSlot := cs
        parentSlot := ps
        phase := .unwind }
  else do
    let cs ← liftO "runtime error: index out of range"
      (s.activePtr s.curFrame)
    return .next { s with curSlot := cs, phase := .enter }

/-- One step of the `Execute` machine. -/
def step (e : Engine) (vt : VisTable) (ct : CallTable) (fn : Nat)
    (s : ExecState) : EM Flow :=
  match s.phase with
  | .enter => stepEnter e vt ct fn s
  | .unwind => stepUnwind e vt s
  | .nextSlot => stepNext s

/-- The outcome of running the machine with a given amount of fuel. -/
inductive RunRes where
  | done (r : ExecResult) (final : ExecState)
  | panicked (msg : String) (final : ExecState)
  | fuelOut (final : ExecState)

/-- Run the machine. -/
def run (e : Engine) (vt : VisTable) (ct : CallTable) (fn : Nat) :
    Nat → ExecState → RunRes
  | 0, s => .fuelOut s
  | n + 1, s =>
    match step e vt ct fn s with
    | .error msg => .panicked msg s
    | .ok (.ret r s') => .done r s'
    | .ok (.next s') => run e vt ct fn n s'

/-- The bootstrap of `Execute` (engine.go:131-169): the sentinel frame
holding the assignability descriptor, and the one-slot top frame holding
the root. -/
def initState (e : Engine) (t : TypeID) (x : Option Addr)
    (assignableTo : TypeID) (m : Mem) : EM ExecState := do
  let s0 : ExecState := {
    mem := m
    stackStore := [List.replicate defaultStackDepth ({} : Frame)]
    overStore := []
    stackB := 0
    stackIdx := 1
    curFrame := (0, 1)
    curSlot := .fixed 0 1 0
    parentSlot := .fixed 0 0 0
    returning := none
    halting := false
    trace := []
    phase := .enter }
  let atd ← liftO "runtime error: index out of range"
    (e.typeData assignableTo)
  let s1 ← s0.setSlotResolved e (0, 0) 0 (Context.ActionVisit atd none)
  let f1 ← liftO "runtime error: index out of range" (s1.getFrame (0, 1))
  let s2 ← liftO "runtime error: index out of range"
    (s1.setFrame (0, 1) { f1 with Count := 1 })
  let ttd ← liftO "runtime error: index out of range" (e.typeData t)
  s2.setSlotResolved e (0, 1) 0 (Context.ActionVisit ttd x)

/-- `Engine.Execute`, fuel-indexed: bootstrap then run the machine. -/
def Engine.Execute (e : Engine) (vt : VisTable) (ct : CallTable) (fn : Nat)
    (t : TypeID) (x : Option Addr) (assignableTo : TypeID) (m : Mem)
    (fuel : Nat) : RunRes :=
  match initState e t x assignableTo m with
  | .error msg => .panicked msg {
      mem := m
      stackStore := []
      overStore := []
      stackB := 0
      stackIdx := 0
      curFrame := (0, 0)
      curSlot := .fixed 0 0 0
      parentSlot := .fixed 0 0 0
      returning := none
      halting := false
      trace := []
      phase := .enter }
  | .ok s => run e vt ct fn fuel s

/-- Project the returned quadruple of a finished run. -/
def RunRes.result : RunRes → Option ExecResult
  | .done r _ => some r
  | _ => none

/-- Project the final trace of a run. -/
def RunRes.events : RunRes → List Event
  | .done _ s => s.trace
  | .panicked _ s => s.trace
  | .fuelOut s => s.trace

/-- Project the final memory of a run. -/
def RunRes.finalMem : RunRes → Mem
  | .done _ s => s.mem
  | .panicked _ s => s.mem
  | .fuelOut s => s.mem

/-- Whether a run ended in a Go panic. -/
def RunRes.isPanic : RunRes → Bool
  | .panicked _ _ => true
  | _ => false

/-! ## Registry linking (`New`) -/

theorem linkElemCheck_ok_iff (m : TypeMap) (td : TypeData) :
    linkElemCheck m td = .ok () ↔
      (td.elem ≠ 0 → ∃ found, m.get? td.elem = some found ∧
        found.typeID ≠ 0) := by
  unfold linkElemCheck
  split
  · simp_all
  · constructor
    · intro h
      split at h
      · simp_all
      · next found heq =>
        split at h
        · simp_all
        · exact fun _ => ⟨found, heq, by simp_all⟩
    · intro h
      obtain ⟨found, heq, hne⟩ := h (by assumption)
      rw [heq]
      simp [hne]

theorem linkFieldsCheck_ok_iff (m : TypeMap) (td : TypeData)
    (l : List FieldInfo) :
    linkFieldsCheck m td l = .ok () ↔
      (∀ f ∈ l, ∃ found, m.get? f.target = some found ∧
        found.typeID ≠ 0) := by
  induction l with
  | nil => simp [linkFieldsCheck]
  | cons f rest ih =>
    unfold linkFieldsCheck
    constructor
    · intro h
      split at h
      · simp_all
      · next found heq =>
        split at h
        · simp_all
        · intro g hg
          rcases List.mem_cons.mp hg with hg | hg
          · exact hg ▸ ⟨found, heq, by simp_all⟩
          · exact (ih.mp h) g hg
    · intro h
      obtain ⟨found, heq, hne⟩ := h f (List.mem_cons_self f rest)
      rw [heq]
      show (if found.typeID = 0 then _ else _) = _
      rw [if_neg hne]
      exact ih.mpr fun g hg => h g (List.mem_cons_of_mem f hg)

theorem linkPass_ok_iff (m : TypeMap) (l : List TypeData) :
    linkPass m l = .ok () ↔
      ∀ td ∈ l,
        (td.elem ≠ 0 → ∃ found, m.get? td.elem = some found ∧
          found.typeID ≠ 0) ∧
        (∀ f ∈ td.fields, ∃ found, m.get? f.target = some found ∧
          found.typeID ≠ 0) := by
  induction l with
  | nil => simp [linkPass]
  | cons td rest ih =>
    unfold linkPass
    constructor
    · intro h
      simp only [bind, Except.bind] at h
      split at h
      · simp_all
      · next u helem =>
        split at h
        · simp_all
        · next u2 hfields =>
          intro td2 htd2
          rcases List.mem_cons.mp htd2 with htd2 | htd2
          · subst htd2
            refine ⟨(linkElemCheck_ok_iff m td2).mp ?_,
              (linkFieldsCheck_ok_iff m td2 td2.fields).mp ?_⟩
            · cases u; exact helem
            · cases u2; exact hfields
          · exact (ih.mp h) td2 htd2
    · intro h
      obtain ⟨h1, h2⟩ := h td (List.mem_cons_self td rest)
      simp only [bind, Except.bind]
      rw [(linkElemCheck_ok_iff m td).mpr h1]
      rw [(linkFieldsCheck_ok_iff m td td.fields).mpr h2]
      exact ih.mpr fun td2 htd2 => h td2 (List.mem_cons_of_mem td htd2)

/-- C7: `New` panics — the `Except.error` branch, not a recoverable
error value — exactly when some descriptor's `Elem` or field `Target`
reference fails to resolve to a present descriptor; when it returns
normally the registry is closed and the engine's registry is exactly the
(copied) input map, which no operation of the engine ever mutates (every
function of this development takes the `Engine` as an immutable value).
-/
theorem new_panics_iff_dangling (m : TypeMap) :
    ((∃ msg, New m = .error msg) ↔ ¬ RegistryClosed m) ∧
      (RegistryClosed m → New m = .ok ⟨m⟩) := by
  have hok : New m = .ok ⟨m⟩ ↔ RegistryClosed m := by
    unfold New RegistryClosed
    simp only [bind, Except.bind]
    constructor
    · intro h
      split at h
      · simp_all
      · next u hpass =>
        have : linkPass m m = .ok () := by cases u; exact hpass
        exact (linkPass_ok_iff m m).mp this
    · intro h
      rw [(linkPass_ok_iff m m).mpr h]
      rfl
  constructor
  · constructor
    · rintro ⟨msg, hmsg⟩ hclosed
      rw [hok.mpr hclosed] at hmsg
      exact Except.noConfusion hmsg
    · intro hnc
      match h : New m with
      | .error msg => exact ⟨msg, rfl⟩
      | .ok e =>
        exfalso
        apply hnc
        unfold New at h
        simp only [bind, Except.bind] at h
        split at h
        · exact Except.noConfusion h
        · next u hpass =>
          have : linkPass m m = .ok () := by cases u; exact hpass
          exact (linkPass_ok_iff m m).mp this
  · exact hok.mpr

/-- Does the registry hold a present descriptor at `id`? -/
def presentB (m : TypeMap) (id : TypeID) : Bool :=
  match m.get? id with
  | some f => f.typeID ≠ 0
  | none => false

/-- Executable form of `RegistryClosed`. -/
def registryClosedB (m : TypeMap) : Bool :=
  m.all fun td =>
    (td.elem = 0 || presentB m td.elem) &&
      td.fields.all fun f => presentB m f.target

theorem presentB_iff (m : TypeMap) (id : TypeID) :
    presentB m id = true ↔
      ∃ found, m.get? id = some found ∧ found.typeID ≠ 0 := by
  constructor
  · intro h
    unfold presentB at h
    split at h
    · next f heq => exact ⟨f, heq, by simpa using h⟩
    · exact absurd h (by simp)
  · rintro ⟨g, hg, hne⟩
    unfold presentB
    rw [hg]
    simpa using hne

theorem registryClosedB_iff (m : TypeMap) :
    registryClosedB m = true ↔ RegistryClosed m := by
  unfold registryClosedB RegistryClosed
  rw [List.all_eq_true]
  constructor
  · intro h td htd
    have := h td htd
    simp only [Bool.and_eq_true, Bool.or_eq_true, List.all_eq_true,
      decide_eq_true_eq] at this
    refine ⟨fun hne => ?_, fun f hf => ?_⟩
    · rcases this.1 with h0 | hp
      · exact absurd h0 hne
      · exact (presentB_iff m td.elem).mp hp
    · exact (presentB_iff m f.target).mp (this.2 f hf)
  · intro h td htd
    obtain ⟨h1, h2⟩ := h td htd
    simp only [Bool.and_eq_true, Bool.or_eq_true, List.all_eq_true,
      decide_eq_true_eq]
    refine ⟨?_, fun f hf => (presentB_iff m f.target).mpr (h2 f hf)⟩
    by_cases h0 : td.elem = 0
    · exact Or.inl (by simp [h0])
    · exact Or.inr ((presentB_iff m td.elem).mpr (h1 h0))

/-- Witness for C7: a concrete closed registry links successfully, and a
concrete registry with a dangling field target panics. -/
theorem new_panics_iff_dangling_witness :
    New [({} : TypeData),
        { fields := [⟨"F", 2⟩], kind := .struct, name := "T", typeID := 1 },
        { elem := 1, kind := .pointer, typeID := 2 }] =
      .ok ⟨[({} : TypeData),
        { fields := [⟨"F", 2⟩], kind := .struct, name := "T", typeID := 1 },
        { elem := 1, kind := .pointer, typeID := 2 }]⟩ ∧
    (∃ msg, New [({} : TypeData),
        { fields := [⟨"F", 7⟩], kind := .struct, name := "T", typeID := 1 }]
      = .error msg) := by
  constructor
  · exact (new_panics_iff_dangling _).2
      ((registryClosedB_iff _).mp (by decide))
  · exact ((new_panics_iff_dangling _).1).mpr
      (fun h => absurd ((registryClosedB_iff _).mpr h) (by decide))

/-! ## The abstract accessor -/

/-- C10: `Engine.Abstract` returns nil whenever the raw reference is
nil, for every type id; and `NumChildren` on an accessor whose value is
nil returns 0 (for every engine and memory) instead of dereferencing
it. -/
theorem abstract_nil_value (e : Engine) (t : TypeID) (m : Mem)
    (a : Abstract) (h : a.value = none) :
    e.Abstract t none = none ∧ a.NumChildren e m = .ok 0 := by
  refine ⟨rfl, ?_⟩
  unfold Abstract.NumChildren
  rw [h]
  rfl

/-- Witness for C10 at a concrete engine, type id and accessor. -/
theorem abstract_nil_value_witness :
    (Engine.Abstract ⟨[{}]⟩ 3 none = none) ∧
      (Abstract.NumChildren ⟨[{}]⟩ ⟨[]⟩ ⟨3, none⟩ = .ok 0) :=
  abstract_nil_value ⟨[{}]⟩ 3 ⟨[]⟩ ⟨3, none⟩ rfl

/-- C9: `ChildAt` on a sequence accessor with an index that is negative
or not below the length panics with the explicit "index out of range"
error rather than returning nil or an arbitrary accessor (so an `.ok`
result — in particular an `.ok none` — can never arise from an
out-of-range index). -/
theorem childAt_slice_oob (e : Engine) (m : Mem) (a : Abstract)
    (td : TypeData) (v : Addr) (dat len : Nat) (index : Int)
    (h1 : e.typeData a.typeData = some td) (h2 : td.kind = .slice)
    (h3 : a.value = some v) (h4 : m.read v = some (.sliceV dat len))
    (h5 : index < 0 ∨ (len : Int) ≤ index) :
    a.ChildAt e m index =
      .error ("index out of range: " ++ toString index) := by
  simp only [Abstract.ChildAt, h1, h2, h3, h4]
  rw [if_pos h5]
  rfl

/-- A small registry for accessor examples: a leaf record, a sequence of
leaves, an indirection to a leaf, and a record with one indirection
field. -/
def accMap : TypeMap :=
  [{}, { kind := .struct, name := "L", typeID := 1 },
    { elem := 1, kind := .slice, typeID := 2 },
    { elem := 1, kind := .pointer, typeID := 3 },
    { fields := [⟨"P", 3⟩], kind := .struct, name := "R", typeID := 4 }]

/-- Engine over `accMap`. -/
def accEng : Engine := ⟨accMap⟩

/-- Heap for the accessor examples: a two-element sequence at base 0
(backing at base 1), a record at base 2 whose indirection field is nil,
and a record at base 3 whose indirection field points at a leaf at
base 4. -/
def accMem : Mem :=
  ⟨[.sliceV 1 2, .arrV [.structV [], .structV []],
    .structV [.ptrV none], .structV [.ptrV (some ⟨4, []⟩)],
    .structV []]⟩

/-- Witness for C9: index 5 (and index -1) on the two-element sequence
accessor panic with the explicit message. -/
theorem childAt_slice_oob_witness :
    Abstract.ChildAt accEng accMem ⟨2, some ⟨0, []⟩⟩ 5 =
        .error ("index out of range: " ++ toString (5 : Int)) ∧
      Abstract.ChildAt accEng accMem ⟨2, some ⟨0, []⟩⟩ (-1) =
        .error ("index out of range: " ++ toString (-1 : Int)) :=
  ⟨childAt_slice_oob accEng accMem ⟨2, some ⟨0, []⟩⟩ _ ⟨0, []⟩ 1 2 5
      rfl rfl rfl rfl (by decide),
    childAt_slice_oob accEng accMem ⟨2, some ⟨0, []⟩⟩ _ ⟨0, []⟩ 1 2 (-1)
      rfl rfl rfl rfl (by decide)⟩

/-- The claim's "reaches a terminal empty reference" condition for the
chase of `ChildAt`: starting from a child of the given type id and raw
address, following indirections and resolving polymorphic layers ends at
a nil indirection target, an empty ("none"-tagged or foreign-tagged)
polymorphic value, or an empty sequence. -/
inductive ChaseEmpty (e : Engine) (m : Mem) : TypeID → Option Addr → Prop where
  | nilRef (t : TypeID) : ChaseEmpty e m t none
  | emptySeq (t : TypeID) (v : Addr) (td : TypeData) (dat : Nat)
      (h1 : e.typeData t = some td) (h2 : td.kind = .slice)
      (h3 : m.read v = some (.sliceV dat 0)) : ChaseEmpty e m t (some v)
  | noneTag (t : TypeID) (v : Addr) (td : TypeData) (tag : TypeID)
      (p : Option Addr)
      (h1 : e.typeData t = some td) (h2 : td.kind = .interface)
      (h3 : m.read v = some (.intfV tag p))
      (h4 : (if td.intfMembers.contains tag then tag else 0) = 0) :
      ChaseEmpty e m t (some v)
  | stepPtr (t : TypeID) (v : Addr) (td : TypeData) (tgt : Option Addr)
      (h1 : e.typeData t = some td) (h2 : td.kind = .pointer)
      (h3 : m.read v = some (.ptrV tgt))
      (h5 : ChaseEmpty e m td.elem tgt) : ChaseEmpty e m t (some v)
  | stepIntf (t : TypeID) (v : Addr) (td : TypeData) (tag : TypeID)
      (p : Option Addr)
      (h1 : e.typeData t = some td) (h2 : td.kind = .interface)
      (h3 : m.read v = some (.intfV tag p))
      (h4 : (if td.intfMembers.contains tag then tag else 0) ≠ 0)
      (h5 : ChaseEmpty e m (if td.intfMembers.contains tag then tag else 0) p) :
      ChaseEmpty e m t (some v)

/-- The claim's "non-nil accessor wrapping a Record or non-empty
Sequence" condition. -/
def WrapsNode (e : Engine) (m : Mem) (ab : Abstract) : Prop :=
  ∃ td v, e.typeData ab.typeData = some td ∧ ab.value = some v ∧
    (td.kind = .struct ∨
      (td.kind = .slice ∧
        ∃ dat len, m.read v = some (.sliceV dat len) ∧ len ≠ 0))

theorem chaseEmpty_sound (e : Engine) (m : Mem) {t : TypeID}
    {v : Option Addr} (hc : ChaseEmpty e m t v) :
    ∀ (fuel : Nat) (r : Option Abstract),
      chaseLoop e m fuel t v = .ok r → r = none := by
  induction hc with
  | nilRef t =>
    intro fuel r h
    match fuel with
    | 0 => exact absurd h (by simp [chaseLoop, throw, throwThe,
        MonadExceptOf.throw])
    | fuel + 1 =>
      unfold chaseLoop at h
      simp only [pure, Except.pure, Except.ok.injEq] at h
      exact h.symm
  | emptySeq t v td dat h1 h2 h3 =>
    intro fuel r h
    match fuel with
    | 0 => exact absurd h (by simp [chaseLoop, throw, throwThe,
        MonadExceptOf.throw])
    | fuel + 1 =>
      unfold chaseLoop at h
      simp only [h1, h2, h3, pure, Except.pure] at h
      split at h
      · injection h with h
        exact h.symm
      · next hcond => simp at hcond
  | noneTag t v td tag p h1 h2 h3 h4 =>
    intro fuel r h
    match fuel with
    | 0 => exact absurd h (by simp [chaseLoop, throw, throwThe,
        MonadExceptOf.throw])
    | fuel + 1 =>
      unfold chaseLoop at h
      simp only [h1, h2, h3, pure, Except.pure] at h
      rw [if_pos h4] at h
      injection h with h
      exact h.symm
  | stepPtr t v td tgt h1 h2 h3 _h5 ih =>
    intro fuel r h
    match fuel with
    | 0 => exact absurd h (by simp [chaseLoop, throw, throwThe,
        MonadExceptOf.throw])
    | fuel + 1 =>
      unfold chaseLoop at h
      simp only [h1, h2, h3] at h
      exact ih fuel r h
  | stepIntf t v td tag p h1 h2 h3 h4 _h5 ih =>
    intro fuel r h
    match fuel with
    | 0 => exact absurd h (by simp [chaseLoop, throw, throwThe,
        MonadExceptOf.throw])
    | fuel + 1 =>
      unfold chaseLoop at h
      simp only [h1, h2, h3] at h
      rw [if_neg h4] at h
      exact ih fuel r h

theorem chaseLoop_none_complete (e : Engine) (m : Mem) :
    ∀ (fuel : Nat) (t : TypeID) (v : Option Addr),
      chaseLoop e m fuel t v = .ok none → ChaseEmpty e m t v := by
  intro fuel
  induction fuel with
  | zero =>
    intro t v h
    exact absurd h (by simp [chaseLoop, throw, throwThe,
      MonadExceptOf.throw])
  | succ fuel ih =>
    intro t v h
    unfold chaseLoop at h
    split at h
    · exact .nilRef t
    · next va =>
      split at h
      · exact absurd h (by simp [throw, throwThe, MonadExceptOf.throw])
      · next td htd =>
        split at h
        · -- slice
          next hk =>
          split at h
          · next dat len hrd =>
            split at h
            · next hl =>
              exact .emptySeq t va td dat htd hk (by rw [hrd, hl])
            · simp only [pure, Except.pure, Except.ok.injEq] at h
              exact absurd h.symm (by simp)
          · exact absurd h (by simp [throw, throwThe, MonadExceptOf.throw])
        · -- struct
          simp only [pure, Except.pure, Except.ok.injEq] at h
          exact absurd h.symm (by simp)
        · -- pointer
          next hk =>
          split at h
          · next tgt hrd =>
            exact .stepPtr t va td tgt htd hk hrd (ih td.elem tgt h)
          · exact absurd h (by simp [throw, throwThe, MonadExceptOf.throw])
        · -- interface
          next hk =>
          split at h
          · next tag p hrd =>
            split at h
            · next hct =>
              split at h
              · next htag =>
                exact .noneTag t va td tag p htd hk hrd
                  (by rw [if_pos hct]; exact htag)
              · next htag =>
                refine .stepIntf t va td tag p htd hk hrd
                  (by rw [if_pos hct]; exact htag) ?_
                rw [if_pos hct]
                exact ih tag p h
            · next hct =>
              exact .noneTag t va td tag p htd hk hrd (by rw [if_neg hct])
          · exact absurd h (by simp [throw, throwThe, MonadExceptOf.throw])
        · -- zero
          exact absurd h (by simp [throw, throwThe, MonadExceptOf.throw])

theorem chaseLoop_good (e : Engine) (m : Mem) :
    ∀ (fuel : Nat) (t : TypeID) (v : Option Addr) (ab : Abstract),
      chaseLoop e m fuel t v = .ok (some ab) → WrapsNode e m ab := by
  intro fuel
  induction fuel with
  | zero =>
    intro t v ab h
    exact absurd h (by simp [chaseLoop, throw, throwThe,
      MonadExceptOf.throw])
  | succ fuel ih =>
    intro t v ab h
    unfold chaseLoop at h
    split at h
    · simp only [pure, Except.pure, Except.ok.injEq] at h
      exact absurd h (by simp)
    · next va =>
      split at h
      · exact absurd h (by simp [throw, throwThe, MonadExceptOf.throw])
      · next td htd =>
        split at h
        · -- slice
          next hk =>
          split at h
          · next dat len hrd =>
            split at h
            · simp only [pure, Except.pure, Except.ok.injEq] at h
              exact absurd h (by simp)
            · next hl =>
              simp only [pure, Except.pure, Except.ok.injEq,
                Option.some.injEq] at h
              subst h
              exact ⟨td, va, htd, rfl, Or.inr ⟨hk, dat, len, hrd, hl⟩⟩
          · exact absurd h (by simp [throw, throwThe, MonadExceptOf.throw])
        · -- struct
          next hk =>
          simp only [pure, Except.pure, Except.ok.injEq,
            Option.some.injEq] at h
          subst h
          exact ⟨td, va, htd, rfl, Or.inl hk⟩
        · -- pointer
          next hk =>
          split at h
          · exact ih td.elem _ ab h
          · exact absurd h (by simp [throw, throwThe, MonadExceptOf.throw])
        · -- interface
          next hk =>
          split at h
          · next tag p hrd =>
            split at h
            · next hct =>
              split at h
              · simp only [pure, Except.pure, Except.ok.injEq] at h
                exact absurd h (by simp)
              · exact ih tag p ab h
            · next hct =>
              simp at h
              exact absurd h (by simp [pure, Except.pure])
          · exact absurd h (by simp [throw, throwThe, MonadExceptOf.throw])
        · -- zero
          exact absurd h (by simp [throw, throwThe, MonadExceptOf.throw])

theorem childAt_struct_eq (e : Engine) (m : Mem) (a : Abstract)
    (td : TypeData) (v : Addr) (i : Nat)
    (h1 : e.typeData a.typeData = some td) (h2 : td.kind = .struct)
    (h3 : a.value = some v) (hi : i < td.fields.length) :
    a.ChildAt e m (i : Int) =
      chaseLoop e m (e.typeMap.length + 1) (td.fields.get ⟨i, hi⟩).target
        (some ⟨v.base, v.path ++ [i]⟩) := by
  simp only [Abstract.ChildAt, h1, h2, h3]
  rw [dif_pos (show 0 ≤ (i : Int) ∧ ((i : Int)).toNat < td.fields.length
    from ⟨Int.natCast_nonneg i, by simpa using hi⟩)]
  simp

theorem childAt_slice_eq (e : Engine) (m : Mem) (a : Abstract)
    (td : TypeData) (v : Addr) (dat len i : Nat)
    (h1 : e.typeData a.typeData = some td) (h2 : td.kind = .slice)
    (h3 : a.value = some v) (h4 : m.read v = some (.sliceV dat len))
    (hi : i < len) :
    a.ChildAt e m (i : Int) =
      chaseLoop e m (e.typeMap.length + 1) td.elem (some ⟨dat, [i]⟩) := by
  simp only [Abstract.ChildAt, h1, h2, h3, h4]
  rw [if_neg (show ¬((i : Int) < 0 ∨ (len : Int) ≤ (i : Int)) by
    push_neg
    exact ⟨Int.natCast_nonneg i, by exact_mod_cast hi⟩)]
  simp

/-- C8: for an accessor over a record, `NumChildren` is the declared
field count; over a sequence it is the length; over any other kind it
panics.  `ChildAt` at a valid index selects the raw child (field offset
or element address) and chases indirection/polymorphic layers: whenever
it returns (without panicking), the nil result arises exactly when the
chase reached a terminal empty reference (nil indirection, empty-tagged
polymorphic value, or empty sequence), and a non-nil result always wraps
a record or a non-empty sequence. -/
theorem abstract_accessor_spec (e : Engine) (m : Mem) (a : Abstract)
    (td : TypeData) (v : Addr)
    (h1 : e.typeData a.typeData = some td) (h3 : a.value = some v) :
    (td.kind = .struct → a.NumChildren e m = .ok td.fields.length) ∧
    (∀ dat len, td.kind = .slice → m.read v = some (.sliceV dat len) →
      a.NumChildren e m = .ok len) ∧
    (td.kind = .pointer ∨ td.kind = .interface ∨ td.kind = .zero →
      ∃ msg, a.NumChildren e m = .error msg) ∧
    (∀ (i : Nat) (hi : i < td.fields.length) (r : Option Abstract),
      td.kind = .struct →
      a.ChildAt e m (i : Int) = .ok r →
      ((r = none ↔ ChaseEmpty e m (td.fields.get ⟨i, hi⟩).target
          (some ⟨v.base, v.path ++ [i]⟩)) ∧
        ∀ ab, r = some ab → WrapsNode e m ab)) ∧
    (∀ (dat len i : Nat) (r : Option Abstract), td.kind = .slice →
      m.read v = some (.sliceV dat len) → i < len →
      a.ChildAt e m (i : Int) = .ok r →
      ((r = none ↔ ChaseEmpty e m td.elem (some ⟨dat, [i]⟩)) ∧
        ∀ ab, r = some ab → WrapsNode e m ab)) := by
  refine ⟨?_, ?_, ?_, ?_, ?_⟩
  · intro hk
    simp only [Abstract.NumChildren, h1, h3, hk]
    rfl
  · intro dat len hk h4
    simp only [Abstract.NumChildren, h1, h3, hk, h4]
    rfl
  · intro hk
    rcases hk with hk | hk | hk <;>
      exact ⟨_, by simp only [Abstract.NumChildren, h1, h3, hk]; rfl⟩
  · intro i hi r hk h
    rw [childAt_struct_eq e m a td v i h1 hk h3 hi] at h
    constructor
    · constructor
      · intro hr
        exact chaseLoop_none_complete e m _ _ _ (hr ▸ h)
      · intro hc
        exact chaseEmpty_sound e m hc _ r h
    · intro ab hab
      exact chaseLoop_good e m _ _ _ ab (hab ▸ h)
  · intro dat len i r hk h4 hi h
    rw [childAt_slice_eq e m a td v dat len i h1 hk h3 h4 hi] at h
    constructor
    · constructor
      · intro hr
        exact chaseLoop_none_complete e m _ _ _ (hr ▸ h)
      · intro hc
        exact chaseEmpty_sound e m hc _ r h
    · intro ab hab
      exact chaseLoop_good e m _ _ _ ab (hab ▸ h)

/-- Witness for C8, on the `accMap` fixtures: the record accessor over
base 2 has one child and its nil-indirection child chases to nil; the
sequence accessor over base 0 has two children; a pointer-kind accessor
panics in `NumChildren`; the record accessor over base 3 has a non-nil
child wrapping a record. -/
theorem abstract_accessor_spec_witness :
    (Abstract.NumChildren accEng accMem ⟨4, some ⟨2, []⟩⟩ = .ok 1) ∧
    (Abstract.NumChildren accEng accMem ⟨2, some ⟨0, []⟩⟩ = .ok 2) ∧
    (∃ msg, Abstract.NumChildren accEng accMem ⟨3, some ⟨2, [0]⟩⟩ =
      .error msg) ∧
    (Abstract.ChildAt accEng accMem ⟨4, some ⟨2, []⟩⟩ ((0 : Nat) : Int) =
        .ok none ∧
      ChaseEmpty accEng accMem 3 (some ⟨2, [0]⟩)) ∧
    (∀ ab, Abstract.ChildAt accEng accMem ⟨4, some ⟨3, []⟩⟩
        ((0 : Nat) : Int) = .ok (some ab) →
      WrapsNode accEng accMem ab) := by
  have h2 := abstract_accessor_spec accEng accMem ⟨4, some ⟨2, []⟩⟩ _
    ⟨2, []⟩ rfl rfl
  have h0 := abstract_accessor_spec accEng accMem ⟨2, some ⟨0, []⟩⟩ _
    ⟨0, []⟩ rfl rfl
  have hp := abstract_accessor_spec accEng accMem ⟨3, some ⟨2, [0]⟩⟩ _
    ⟨2, [0]⟩ rfl rfl
  have h3 := abstract_accessor_spec accEng accMem ⟨4, some ⟨3, []⟩⟩ _
    ⟨3, []⟩ rfl rfl
  have hca2 : Abstract.ChildAt accEng accMem ⟨4, some ⟨2, []⟩⟩
      ((0 : Nat) : Int) = .ok none := rfl
  refine ⟨h2.1 rfl, h0.2.1 1 2 rfl rfl, hp.2.2.1 (Or.inl rfl),
    ⟨hca2, ?_⟩, ?_⟩
  · exact (h2.2.2.2.1 0 (by decide) none rfl hca2).1.mp rfl
  · intro ab hab
    exact (h3.2.2.2.1 0 (by decide) (some ab) rfl hab).2 ab rfl

/-! ## Replacement typing (`Action.apply`) -/

/-- A call table with no registered calls. -/
def noCalls : CallTable := fun _ => .ok ()

/-- Registry for the polymorphic-replacement examples: an interface
`Target` whose members are the records `A` and `B`, a record `Cont`
with one `Target` field, and a record `D` outside the family. -/
def tIntf : TypeData :=
  { intfMembers := [2, 3], kind := .interface, name := "Target", typeID := 1 }

/-- Record `A`, a member of `Target`. -/
def tA : TypeData := { kind := .struct, name := "A", typeID := 2 }

/-- Record `B`, a member of `Target`. -/
def tB : TypeData := { kind := .struct, name := "B", typeID := 3 }

/-- Record `Cont` with one polymorphic field. -/
def tCont : TypeData :=
  { fields := [⟨"I", 1⟩], kind := .struct, name := "Cont", typeID := 4 }

/-- Record `D`, not a member of `Target`. -/
def tD : TypeData :=
  { fields := [⟨"X", 2⟩], kind := .struct, name := "D", typeID := 5 }

/-- The interface-example registry. -/
def iMap : TypeMap := [{}, tIntf, tA, tB, tCont, tD]

/-- Engine over `iMap`. -/
def iEng : Engine := ⟨iMap⟩

/-- Heap holding an `A` record at base 0 and a prebuilt `B` replacement
at base 1. -/
def iMem2 : Mem := ⟨[.structV [], .structV []]⟩

/-- Visitor 0 replaces the root `A` with the `B` at base 1. -/
def replAB2 : VisTable := fun _ tid a _ =>
  if tid = 2 ∧ a = some ⟨0, []⟩ then Context.Continue.Replace 3 ⟨1, []⟩
  else Context.Continue

/-- C4: how `Action.apply` validates a `Replace` decision against the
slot's assignable-to descriptor (the parent slot's descriptor, supplied
by every `Execute` call site).  A type-changing replacement against a
non-polymorphic descriptor fails with the descriptive error naming both
types; against a polymorphic descriptor it succeeds exactly for the
members of the family — retyping the slot to the new concrete type, so
that the `resultTypeID` returned by `Execute` reflects it, as the final
concrete conjunct shows on a root-level replacement of an `A` by a `B`
through the `Target` family — and fails with the same error class
naming both types for a non-member.  A same-type replacement always
succeeds. -/
theorem apply_replacement_typing (e : Engine) (a : Action) (d : Decision)
    (atId : TypeID) (atTd : TypeData) (aTid : TypeID) (repl : Addr)
    (hrep : d.replacement = some repl) (herr : d.error = none)
    (htd : a.typeData = some aTid)
    (hat : e.typeData atId = some atTd) :
    (atTd.kind ≠ .interface → aTid ≠ d.replacementType →
      a.apply e d (some atId) = .error ("cannot change type of "
        ++ e.Stringify atTd.typeID ++ " to "
        ++ e.Stringify d.replacementType)) ∧
    (atTd.kind = .interface → aTid ≠ d.replacementType →
      atTd.intfCanWrap d.replacementType = true →
      ∃ a', a.apply e d (some atId) = .ok a' ∧
        a'.typeData = some d.replacementType ∧ a'.dirty = true ∧
        a'.value = some repl) ∧
    (atTd.kind = .interface → atTd.intfCanWrap d.replacementType = false →
      aTid ≠ d.replacementType →
      a.apply e d (some atId) = .error ("type "
        ++ e.Stringify d.replacementType
        ++ " is unknown or not assignable to "
        ++ e.Stringify atTd.typeID)) ∧
    (aTid = d.replacementType →
      ∃ a', a.apply e d (some atId) = .ok a' ∧
        a'.dirty = true ∧ a'.value = some repl) ∧
    ((Engine.Execute iEng replAB2 noCalls 0 2 (some ⟨0, []⟩) 1 iMem2
        1000).result = some ⟨3, some ⟨2, []⟩, true, none⟩) := by
  refine ⟨?_, ?_, ?_, ?_, by decide⟩
  · intro hki hne
    cases hdp : d.post <;>
      · simp only [Action.apply, herr, hrep, htd, hat, hdp]
        rw [if_pos hne, if_neg hki]
        rfl
  · intro hki hne hcw
    cases hdp : d.post <;>
      · simp only [Action.apply, herr, hrep, htd, hat, hdp]
        rw [if_pos hne, if_pos hki, if_pos hcw]
        exact ⟨_, rfl, rfl, rfl, rfl⟩
  · intro hki hcw hne
    cases hdp : d.post <;>
      · simp only [Action.apply, herr, hrep, htd, hat, hdp]
        rw [if_pos hne, if_pos hki, if_neg (by simp [hcw])]
        rfl
  · intro heq
    cases hdp : d.post <;>
      · simp only [Action.apply, herr, hrep, htd, hat, hdp]
        rw [if_neg (by simp [heq])]
        exact ⟨_, rfl, rfl, rfl⟩

/-- Witness for C4: replacing an `A` by a `B` against the
non-polymorphic descriptor `A` fails naming both types; against the
polymorphic `Target` it succeeds and retypes the slot to `B`; replacing
by the non-member `D` fails with the same error class naming both
types. -/
theorem apply_replacement_typing_witness :
    (Action.apply (Context.ActionVisit tA (some ⟨0, []⟩)) iEng
        (Context.Continue.Replace 3 ⟨1, []⟩) (some 2) =
      .error "cannot change type of A to B") ∧
    (∃ a', Action.apply (Context.ActionVisit tA (some ⟨0, []⟩)) iEng
        (Context.Continue.Replace 3 ⟨1, []⟩) (some 1) = .ok a' ∧
      a'.typeData = some 3 ∧ a'.dirty = true ∧
      a'.value = some ⟨1, []⟩) ∧
    (Action.apply (Context.ActionVisit tA (some ⟨0, []⟩)) iEng
        (Context.Continue.Replace 5 ⟨1, []⟩) (some 1) =
      .error "type D is unknown or not assignable to Target") := by
  refine ⟨?_, ?_, ?_⟩
  · have h := (apply_replacement_typing iEng
      (Context.ActionVisit tA (some ⟨0, []⟩))
      (Context.Continue.Replace 3 ⟨1, []⟩) 2 tA 2 ⟨1, []⟩
      rfl rfl rfl rfl).1 (by decide) (by decide)
    rw [h]
    rfl
  · obtain ⟨a', ha, h1, h2, h3⟩ := (apply_replacement_typing iEng
      (Context.ActionVisit tA (some ⟨0, []⟩))
      (Context.Continue.Replace 3 ⟨1, []⟩) 1 tIntf 2 ⟨1, []⟩
      rfl rfl rfl rfl).2.1 rfl (by decide) (by decide)
    exact ⟨a', ha, h1, h2, h3⟩
  · have h := (apply_replacement_typing iEng
      (Context.ActionVisit tA (some ⟨0, []⟩))
      (Context.Continue.Replace 5 ⟨1, []⟩) 1 tIntf 2 ⟨1, []⟩
      rfl rfl rfl rfl).2.2.1 rfl (by decide) (by decide)
    rw [h]
    rfl

/-! ## Replacement propagation across the stack-growth boundary -/

/-- Record `T` with one field of indirection type. -/
def tT : TypeData :=
  { fields := [⟨"F", 2⟩], kind := .struct, name := "T", typeID := 1 }

/-- Indirection to `T`. -/
def tPT : TypeData := { elem := 1, kind := .pointer, typeID := 2 }

/-- The chain registry. -/
def chainMap : TypeMap := [{}, tT, tPT]

/-- Engine over `chainMap`. -/
def chainEng : Engine := ⟨chainMap⟩

/-- A chain of `n` records `T0 → T1 → … → T(n-1)` linked through the
indirection field (the last one nil), plus one prebuilt replacement
record at base `n`. -/
def chainMem (n : Nat) : Mem :=
  ⟨(List.range n).map (fun i =>
      if i + 1 < n then MemVal.structV [MemVal.ptrV (some ⟨i + 1, []⟩)]
      else MemVal.structV [MemVal.ptrV none])
    ++ [MemVal.structV [MemVal.ptrV none]]⟩

/-- Visitor 0 replaces the record at base `tgt` with the (same-typed)
record at base `repl`, and continues everywhere else. -/
def replVis (tgt : Nat) (repl : Nat) : VisTable := fun _i _tid a _m =>
  if a = some ⟨tgt, []⟩ then Context.Continue.Replace 1 ⟨repl, []⟩
  else Context.Continue

/-- C1 (failing input): the spec requires replacement of a leaf at any
nesting depth — "including depths … which force the frame array to be
grown geometrically mid-traversal" — to propagate, returning
`changed = true` and freshly reconstructed ancestors.  Replacing `T1` of
a four-record chain (first conjunct) indeed returns `changed = true`
with a freshly allocated root (base 7, beyond the 5 input cells).  But
replacing `T3` — whose frame lands at index `len(stack)-1 = 7`, the
index at which `Execute` grows the frame array — silently loses the
replacement: `Execute` returns `changed = false` and the ORIGINAL root
(second conjunct), even though the visitor was invoked on `T3` and did
request the replacement (third and fourth conjuncts).  The cause is in
engine.go:296-310: after `stack = temp`, the saved `curFrame = entering`
and `parentSlot` pointers still reference the old backing array, so the
dirty flag and replaced value written through them never reach the
frames the pop path reads back. -/
theorem execute_growth_loses_replacement :
    ((chainEng.Execute (replVis 1 4) noCalls 0 1 (some ⟨0, []⟩) 1
        (chainMem 4) 1000).result = some ⟨1, some ⟨7, []⟩, true, none⟩) ∧
    ((chainEng.Execute (replVis 3 4) noCalls 0 1 (some ⟨0, []⟩) 1
        (chainMem 4) 1000).result = some ⟨1, some ⟨0, []⟩, false, none⟩) ∧
    ((chainEng.Execute (replVis 3 4) noCalls 0 1 (some ⟨0, []⟩) 1
        (chainMem 4) 1000).events =
      [.visit 1 (some ⟨0, []⟩), .visit 1 (some ⟨1, []⟩),
        .visit 1 (some ⟨2, []⟩), .visit 1 (some ⟨3, []⟩)]) ∧
    ((replVis 3 4) 0 1 (some ⟨3, []⟩) (chainMem 4)).replacement =
      some ⟨4, []⟩ := by
  refine ⟨by decide, by decide, by decide, by decide⟩

/-! ## Error short-circuit -/

/-- Every `return` statement of `Execute` that carries an error returns
the zero type id, the nil value and `changed = false`; the only `return`
with data carries a nil error.  Hence one machine step can only end the
execution in one of those two shapes. -/
theorem step_ret_shape (e : Engine) (vt : VisTable) (ct : CallTable)
    (fn : Nat) (s : ExecState) (r : ExecResult) (s' : ExecState)
    (h : step e vt ct fn s = .ok (.ret r s')) :
    r.error = none ∨
      (r.retType = 0 ∧ r.ret = none ∧ r.changed = false) := by
  unfold step at h
  split at h <;>
    · simp only [stepEnter, structVisit, stepUnwind, unwindDirty,
        stepNext, bind, Except.bind, pure, Except.pure] at h
      repeat' split at h
      all_goals try simp only [throw, throwThe, MonadExceptOf.throw] at h
      all_goals try exact Except.noConfusion h
      all_goals simp only [Except.ok.injEq] at h
      all_goals try exact Flow.noConfusion h
      all_goals simp only [Flow.ret.injEq] at h
      all_goals obtain ⟨h1, h2⟩ := h
      all_goals subst h1
      all_goals simp

/-- Lifted to whole runs: a finished run whose result carries an error
carries the zero type id, the nil value and `changed = false`. -/
theorem run_done_error_shape (e : Engine) (vt : VisTable) (ct : CallTable)
    (fn : Nat) :
    ∀ (fuel : Nat) (s : ExecState) (r : ExecResult) (s' : ExecState),
      run e vt ct fn fuel s = .done r s' → r.error ≠ none →
      r.retType = 0 ∧ r.ret = none ∧ r.changed = false := by
  intro fuel
  induction fuel with
  | zero =>
    intro s r s' h
    exact absurd h (by simp [run])
  | succ fuel ih =>
    intro s r s' h he
    unfold run at h
    split at h
    · exact absurd h (by simp)
    · next r2 s2 hstep =>
      injection h with h1 h2
      subst h1
      rcases step_ret_shape e vt ct fn s r2 s2 hstep with h0 | h0
      · exact absurd h0 he
      · exact h0
    · next s2 hstep =>
      exact ih s2 r s' h he

/-- Record `Leaf` with no fields. -/
def tLeaf : TypeData := { kind := .struct, name := "Leaf", typeID := 2 }

/-- Record `R3` with three `Leaf` fields. -/
def t3 : TypeData :=
  { fields := [⟨"A", 2⟩, ⟨"B", 2⟩, ⟨"C", 2⟩], kind := .struct,
    name := "R3", typeID := 1 }

/-- Registry for the error-short-circuit example. -/
def eMap : TypeMap := [{}, t3, tLeaf]

/-- Engine over `eMap`. -/
def eEng : Engine := ⟨eMap⟩

/-- An `R3` with its three leaves inline at base 0. -/
def eMem : Mem :=
  ⟨[.structV [.structV [], .structV [], .structV []]]⟩

/-- Visitor 0 registers a post on the root, errors on the second leaf
and continues elsewhere; visitor 1 is the post callback. -/
def errVis : VisTable := fun i tid a _ =>
  if i = 1 then Context.Continue
  else if tid = 1 then Context.Continue.Post 1
  else if a = some ⟨0, [1]⟩ then Context.Error "X"
  else Context.Continue

/-- C3: whenever a visitor invocation reports an error, `Execute`
returns exactly `(0, nil, false, err)` — no partial reconstruction (the
general conjunct, over every engine, visitor, input and fuel) — and no
further post-visit callbacks run after the error: in the spec's
three-leaf scenario, with a post registered on the root and the error
reported on the second leaf, the trace ends at the erroring visit and
contains no post event at all. -/
theorem visitor_error_aborts :
    (∀ (e : Engine) (vt : VisTable) (ct : CallTable)
      (fn t at0 : TypeID) (x : Option Addr) (m : Mem) (fuel : Nat)
      (r : ExecResult) (err : String),
      (Engine.Execute e vt ct fn t x at0 m fuel).result = some r →
      r.error = some err →
      r.retType = 0 ∧ r.ret = none ∧ r.changed = false) ∧
    ((Engine.Execute eEng errVis noCalls 0 1 (some ⟨0, []⟩) 1 eMem
        1000).result = some ⟨0, none, false, some "X"⟩) ∧
    ((Engine.Execute eEng errVis noCalls 0 1 (some ⟨0, []⟩) 1 eMem
        1000).events =
      [.visit 1 (some ⟨0, []⟩), .visit 2 (some ⟨0, [0]⟩),
        .visit 2 (some ⟨0, [1]⟩)]) := by
  refine ⟨?_, by decide, by decide⟩
  intro e vt ct fn t at0 x m fuel r err hres herr
  unfold Engine.Execute at hres
  split at hres
  · exact absurd hres (by simp [RunRes.result])
  · next s hinit =>
    unfold RunRes.result at hres
    split at hres
    · next r2 s' hrun =>
      injection hres with hres
      subst hres
      exact run_done_error_shape e vt ct fn fuel s r2 s' hrun
        (by simp [herr])
    all_goals exact absurd hres (by simp)

/-- Witness for C3's general conjunct, applied to the concrete
three-leaf run. -/
theorem visitor_error_aborts_witness :
    (0 : TypeID) = 0 ∧ (none : Option Addr) = none ∧ false = false :=
  visitor_error_aborts.1 eEng errVis noCalls 0 1 1 (some ⟨0, []⟩) eMem
    1000 ⟨0, none, false, some "X"⟩ "X" (by decide) rfl

/-! ## The halting unwind cascade -/

/-- A benign facade-table entry: whatever node it is shown, its
decision reports no error and registers no replacement (it may install
further posts, halt again, etc.). -/
def BenignEntry (vt : VisTable) (pi : Nat) : Prop :=
  ∀ t a m, (vt pi t a m).error = none ∧ (vt pi t a m).replacement = none

/-- The post event that the unwind of level `l`'s active slot will emit
(empty if no post is registered there). -/
def activePostEvent (s : ExecState) (l : Nat) : List Event :=
  match s.getFrame (s.stackB, l) with
  | some f =>
    match f.Slots.get? f.Idx with
    | some a =>
      match a.post, a.typeData with
      | some _, some tid => [.post tid a.value]
      | _, _ => []
    | none => []
  | none => []

/-- The events of a halting unwind cascade: the pending posts of the
active slots from the top of the stack down to the root frame —
innermost to outermost. -/
def cascadeEvents (s : ExecState) : List Event :=
  ((List.range s.stackIdx).reverse.map
    fun l => activePostEvent s (l + 1)).flatten

/-- Level `l` of the stack is in good shape for the cascade: the frame
exists, its index is within the inline slots, and the active slot has a
resolved descriptor. -/
def levelOK (s : ExecState) (l : Nat) : Prop :=
  ∃ f, s.getFrame (s.stackB, l) = some f ∧ f.Idx < fixedSlotCount ∧
    ∃ a, f.Slots.get? f.Idx = some a ∧ a.typeData ≠ none

theorem levelOK_activePtr (s : ExecState) (l : Nat) (h : levelOK s l) :
    ∃ f, s.getFrame (s.stackB, l) = some f ∧
      s.activePtr (s.stackB, l) = some (.fixed s.stackB l f.Idx) ∧
      ∃ a, s.getSlot (.fixed s.stackB l f.Idx) = some a ∧
        a.typeData ≠ none := by
  obtain ⟨f, hf, hidx, a, ha, htd⟩ := h
  refine ⟨f, hf, ?_, a, ?_, htd⟩
  · unfold ExecState.activePtr ExecState.slotPtr
    rw [hf]
    simp [hidx]
  · unfold ExecState.getSlot
    simp [hf]
    rw [← List.get?_eq_getElem?]
    exact ha

theorem setFrame_shape (s : ExecState) (r : FrameRef) (f : Frame)
    (s' : ExecState) (h : s.setFrame r f = some s') :
    ∃ st, s' = { s with stackStore := st } := by
  unfold ExecState.setFrame at h
  split at h
  · split at h
    · injection h with h
      exact ⟨_, h.symm⟩
    · exact absurd h (by simp)
  · exact absurd h (by simp)

theorem setFrame_getFrame_self (s : ExecState) (r : FrameRef) (f : Frame)
    (s' : ExecState) (h : s.setFrame r f = some s') :
    s'.getFrame r = some f := by
  unfold ExecState.setFrame at h
  split at h
  · next backing hb =>
    split at h
    · next hlt =>
      injection h with h
      subst h
      unfold ExecState.getFrame
      simp only [List.get?_eq_getElem?] at hb ⊢
      have hlen : r.1 < s.stackStore.length :=
        (List.getElem?_eq_some_iff.mp hb).1
      rw [List.getElem?_set_self hlen]
      simp [List.getElem?_set_self hlt]
    · exact absurd h (by simp)
  · exact absurd h (by simp)

theorem setFrame_getFrame_ne (s : ExecState) (r : FrameRef) (f : Frame)
    (s' : ExecState) (h : s.setFrame r f = some s') (r' : FrameRef)
    (hne : r' ≠ r) : s'.getFrame r' = s.getFrame r' := by
  unfold ExecState.setFrame at h
  split at h
  · next backing hb =>
    split at h
    · injection h with h
      subst h
      unfold ExecState.getFrame
      simp only [List.get?_eq_getElem?] at hb ⊢
      by_cases hb' : r'.1 = r.1
      · have hlen : r.1 < s.stackStore.length :=
          (List.getElem?_eq_some_iff.mp hb).1
        have hj : r'.2 ≠ r.2 := fun hj => hne (Prod.ext hb' hj)
        rw [hb', List.getElem?_set_self hlen]
        simp [hb, List.getElem?_set_ne (Ne.symm hj)]
      · rw [List.getElem?_set_ne (fun hc => hb' hc.symm)]
    · exact absurd h (by simp)
  · exact absurd h (by simp)

theorem setFrame_some (s : ExecState) (r : FrameRef) (f0 f : Frame)
    (h : s.getFrame r = some f0) : ∃ s', s.setFrame r f = some s' := by
  unfold ExecState.getFrame at h
  unfold ExecState.setFrame
  split at h
  · next backing hb =>
    try rw [hb]
    simp only [List.get?_eq_getElem?] at h
    exact ⟨_, by rw [if_pos (List.getElem?_eq_some_iff.mp h).1]⟩
  · exact absurd h (by simp)

theorem setSlot_fixed_eq (s : ExecState) (b fi j : Nat) (a : Action)
    (s' : ExecState) (h : s.setSlot (.fixed b fi j) a = some s') :
    ∃ f, s.getFrame (b, fi) = some f ∧ j < f.Slots.length ∧
      s.setFrame (b, fi) { f with Slots := f.Slots.set j a } = some s' := by
  simp only [ExecState.setSlot] at h
  split at h
  · next f hf =>
    split at h
    · next hj => exact ⟨f, hf, hj, h⟩
    · exact absurd h (by simp)
  · exact absurd h (by simp)

theorem setSlot_fixed_some (s : ExecState) (b fi j : Nat) (a0 : Action)
    (h : s.getSlot (.fixed b fi j) = some a0) (a : Action) :
    ∃ s', s.setSlot (.fixed b fi j) a = some s' := by
  simp only [ExecState.getSlot] at h
  simp only [ExecState.setSlot]
  split at h
  · next f hf =>
    simp only [List.get?_eq_getElem?] at h
    have hj : j < f.Slots.length := (List.getElem?_eq_some_iff.mp h).1
    rw [if_pos hj]
    exact setFrame_some s (b, fi) f _ hf
  · exact absurd h (by simp)

theorem setSlot_fixed_getFrame_ne (s : ExecState) (b fi j : Nat)
    (a : Action) (s' : ExecState)
    (h : s.setSlot (.fixed b fi j) a = some s') (r' : FrameRef)
    (hne : r' ≠ (b, fi)) : s'.getFrame r' = s.getFrame r' := by
  obtain ⟨f, hf, hj, hsf⟩ := setSlot_fixed_eq s b fi j a s' h
  exact setFrame_getFrame_ne s (b, fi) _ s' hsf r' hne

theorem setSlot_fixed_getFrame_self (s : ExecState) (b fi j : Nat)
    (a : Action) (s' : ExecState)
    (h : s.setSlot (.fixed b fi j) a = some s') :
    ∃ f, s.getFrame (b, fi) = some f ∧
      s'.getFrame (b, fi) = some { f with Slots := f.Slots.set j a } := by
  obtain ⟨f, hf, hj, hsf⟩ := setSlot_fixed_eq s b fi j a s' h
  exact ⟨f, hf, setFrame_getFrame_self s (b, fi) _ s' hsf⟩

theorem setSlot_fixed_shape (s : ExecState) (b fi j : Nat) (a : Action)
    (s' : ExecState) (h : s.setSlot (.fixed b fi j) a = some s') :
    ∃ st, s' = { s with stackStore := st } := by
  obtain ⟨f, hf, hj, hsf⟩ := setSlot_fixed_eq s b fi j a s' h
  exact setFrame_shape s (b, fi) _ s' hsf

/-- `Action.apply` with a decision that reports no error and registers
no replacement only (possibly) installs the post callback. -/
theorem apply_benign (e : Engine) (a : Action) (d : Decision)
    (at0 : Option TypeID) (herr : d.error = none)
    (hrep : d.replacement = none) :
    a.apply e d at0 = .ok (match d.post with
      | some p => { a with post := some p }
      | none => a) := by
  cases hdp : d.post <;> simp only [Action.apply, herr, hrep, hdp] <;> rfl

theorem liftO_some (msg : String) (a : α) :
    liftO msg (some a) = .ok a := rfl

theorem run_step_next (e : Engine) (vt : VisTable) (ct : CallTable)
    (fn : Nat) (s s2 : ExecState) (k : Nat)
    (h : step e vt ct fn s = .ok (.next s2)) :
    run e vt ct fn (k + 1) s = run e vt ct fn k s2 := by
  conv_lhs => rw [run, h]

theorem run_step_ret (e : Engine) (vt : VisTable) (ct : CallTable)
    (fn : Nat) (s s2 : ExecState) (r : ExecResult) (k : Nat)
    (h : step e vt ct fn s = .ok (.ret r s2)) :
    run e vt ct fn (k + 1) s = .done r s2 := by
  conv_lhs => rw [run, h]

theorem levelOK_transfer (s s' : ExecState) (l : Nat)
    (hsb : s'.stackB = s.stackB)
    (hf : s'.getFrame (s.stackB, l) = s.getFrame (s.stackB, l))
    (h : levelOK s l) : levelOK s' l := by
  unfold levelOK
  rw [hsb, hf]
  exact h

theorem activePostEvent_transfer (s s' : ExecState) (l : Nat)
    (hsb : s'.stackB = s.stackB)
    (hf : s'.getFrame (s.stackB, l) = s.getFrame (s.stackB, l)) :
    activePostEvent s' l = activePostEvent s l := by
  unfold activePostEvent
  rw [hsb, hf]

theorem cascadeEvents_succ (s : ExecState) (n : Nat)
    (h : s.stackIdx = n + 1) :
    cascadeEvents s = activePostEvent s (n + 1) ++
      ((List.range n).reverse.map fun l => activePostEvent s (l + 1)).flatten := by
  unfold cascadeEvents
  rw [h, List.range_succ]
  simp

theorem setSlot_fixed_getSlot_self (s : ExecState) (b fi j : Nat)
    (a : Action) (s' : ExecState)
    (h : s.setSlot (.fixed b fi j) a = some s') :
    s'.getSlot (.fixed b fi j) = some a := by
  obtain ⟨f, hf, hj, hsf⟩ := setSlot_fixed_eq s b fi j a s' h
  have hff := setFrame_getFrame_self s (b, fi) _ s' hsf
  simp only [ExecState.getSlot, hff]
  simp only [List.get?_eq_getElem?]
  rw [List.getElem?_set_self (by simpa using hj)]

theorem setSlot_fixed_getSlot_other (s : ExecState) (b fi j : Nat)
    (a : Action) (s' : ExecState)
    (h : s.setSlot (.fixed b fi j) a = some s') (b' fi' j' : Nat)
    (hne : ¬(b' = b ∧ fi' = fi ∧ j' = j)) :
    s'.getSlot (.fixed b' fi' j') = s.getSlot (.fixed b' fi' j') := by
  by_cases hfr : ((b', fi') : FrameRef) = (b, fi)
  · obtain ⟨f, hf, hj, hsf⟩ := setSlot_fixed_eq s b fi j a s' h
    have hff := setFrame_getFrame_self s (b, fi) _ s' hsf
    have hb' : b' = b := congrArg Prod.fst hfr
    have hfi' : fi' = fi := congrArg Prod.snd hfr
    subst hb'
    subst hfi'
    have hj' : j' ≠ j := fun hjj => hne ⟨rfl, rfl, hjj⟩
    simp only [ExecState.getSlot, hff, hf]
    simp only [List.get?_eq_getElem?]
    rw [List.getElem?_set_ne (Ne.symm hj')]
  · have hfrm := setSlot_fixed_getFrame_ne s b fi j a s' h (b', fi') hfr
    simp only [ExecState.getSlot, hfrm]

theorem setFrame_getSlot_slots_eq (s : ExecState) (r : FrameRef)
    (f0 f : Frame) (s' : ExecState) (hget : s.getFrame r = some f0)
    (h : s.setFrame r f = some s') (hslots : f.Slots = f0.Slots)
    (r' : SlotRef) : s'.getSlot r' = s.getSlot r' := by
  obtain ⟨st, hst⟩ := setFrame_shape s r f s' h
  cases r' with
  | fixed b fi j =>
    by_cases hfr : ((b, fi) : FrameRef) = r
    · subst hfr
      have hff := setFrame_getFrame_self s (b, fi) f s' h
      simp only [ExecState.getSlot, hff, hget, hslots]
    · have hfrm := setFrame_getFrame_ne s r f s' h (b, fi) hfr
      simp only [ExecState.getSlot, hfrm]
  | over oid j =>
    subst hst
    simp only [ExecState.getSlot]

theorem setSlot_over_eq (s : ExecState) (oid j : Nat) (a : Action)
    (s' : ExecState) (h : s.setSlot (.over oid j) a = some s') :
    ∃ arr, s.overStore.get? oid = some arr ∧ j < arr.length ∧
      s' = { s with overStore := s.overStore.set oid (arr.set j a) } := by
  simp only [ExecState.setSlot] at h
  split at h
  · next arr harr =>
    split at h
    · next hj =>
      injection h with h
      exact ⟨arr, harr, hj, h.symm⟩
    · exact absurd h (by simp)
  · exact absurd h (by simp)

theorem setSlot_shape (s : ExecState) (r : SlotRef) (a : Action)
    (s' : ExecState) (h : s.setSlot r a = some s') :
    ∃ st ov, s' = { s with stackStore := st, overStore := ov } := by
  cases r with
  | fixed b fi j =>
    obtain ⟨st, hst⟩ := setSlot_fixed_shape s b fi j a s' h
    exact ⟨st, s.overStore, by rw [hst]⟩
  | over oid j =>
    obtain ⟨arr, _, _, hs⟩ := setSlot_over_eq s oid j a s' h
    exact ⟨s.stackStore, _, by rw [hs]⟩

theorem setSlot_getSlot_cases (s : ExecState) (r : SlotRef) (a : Action)
    (s' : ExecState) (h : s.setSlot r a = some s') (r' : SlotRef)
    (a' : Action) (h' : s'.getSlot r' = some a') :
    a' = a ∨ s.getSlot r' = some a' := by
  cases r with
  | fixed b fi j =>
    obtain ⟨st, hst⟩ := setSlot_fixed_shape s b fi j a s' h
    cases r' with
    | fixed b' fi' j' =>
      by_cases hc : b' = b ∧ fi' = fi ∧ j' = j
      · obtain ⟨e1, e2, e3⟩ := hc
        subst e1; subst e2; subst e3
        left
        have hself := setSlot_fixed_getSlot_self s b' fi' j' a s' h
        exact Option.some.inj (h'.symm.trans hself)
      · right
        rw [← setSlot_fixed_getSlot_other s b fi j a s' h b' fi' j' hc]
        exact h'
    | over oid' j' =>
      right
      rw [hst] at h'
      exact h'
  | over oid j =>
    obtain ⟨arr, harr, hj, hs⟩ := setSlot_over_eq s oid j a s' h
    cases r' with
    | fixed b' fi' j' =>
      right
      rw [hs] at h'
      exact h'
    | over oid' j' =>
      rw [hs] at h'
      simp only [ExecState.getSlot] at h' ⊢
      by_cases ho : oid' = oid
      · subst ho
        have hlen : oid' < s.overStore.length := by
          simp only [List.get?_eq_getElem?] at harr
          exact (List.getElem?_eq_some_iff.mp harr).1
        simp only [List.get?_eq_getElem?] at h' ⊢
        rw [List.getElem?_set_self hlen] at h'
        simp only at h'
        by_cases hj' : j' = j
        · subst hj'
          left
          rw [List.getElem?_set_self (by simpa using hj)] at h'
          exact (Option.some.inj h').symm
        · right
          rw [List.getElem?_set_ne (fun hc => hj' hc.symm)] at h'
          simp only [List.get?_eq_getElem?] at harr
          rw [harr]
          exact h'
      · right
        simp only [List.get?_eq_getElem?] at h' ⊢
        rw [List.getElem?_set_ne (fun hc => ho hc.symm)] at h'
        exact h'

theorem setSlot_getSlot_ne (s : ExecState) (r : SlotRef) (a : Action)
    (s' : ExecState) (h : s.setSlot r a = some s') (r' : SlotRef)
    (hne : r' ≠ r) : s'.getSlot r' = s.getSlot r' := by
  cases r with
  | fixed b fi j =>
    obtain ⟨st, hst⟩ := setSlot_fixed_shape s b fi j a s' h
    cases r' with
    | fixed b' fi' j' =>
      exact setSlot_fixed_getSlot_other s b fi j a s' h b' fi' j'
        (fun ⟨e1, e2, e3⟩ => hne (by rw [e1, e2, e3]))
    | over oid' j' =>
      rw [hst]
      rfl
  | over oid j =>
    obtain ⟨arr, harr, hj, hs⟩ := setSlot_over_eq s oid j a s' h
    cases r' with
    | fixed b' fi' j' =>
      rw [hs]
      rfl
    | over oid' j' =>
      rw [hs]
      simp only [ExecState.getSlot]
      by_cases ho : oid' = oid
      · subst ho
        have hlen : oid' < s.overStore.length := by
          simp only [List.get?_eq_getElem?] at harr
          exact (List.getElem?_eq_some_iff.mp harr).1
        have hj' : j' ≠ j := fun hc => hne (by rw [hc])
        simp only [List.get?_eq_getElem?]
        rw [List.getElem?_set_self hlen]
        simp only [List.get?_eq_getElem?] at harr
        rw [harr]
        simp only
        rw [List.getElem?_set_ne (fun hc => hj' hc.symm)]
      · simp only [List.get?_eq_getElem?]
        rw [List.getElem?_set_ne (fun hc => ho hc.symm)]

theorem cascadeEvents_only_posts (s : ExecState) :
    ∀ ev ∈ cascadeEvents s, ∃ t a, ev = .post t a := by
  intro ev hev
  unfold cascadeEvents at hev
  rw [List.mem_flatten] at hev
  obtain ⟨l', hl', hev⟩ := hev
  rw [List.mem_map] at hl'
  obtain ⟨l, _, hl⟩ := hl'
  subst hl
  unfold activePostEvent at hev
  split at hev
  · split at hev
    · split at hev
      · next tid heq1 heq2 =>
        rw [List.mem_singleton] at hev
        exact ⟨_, _, hev⟩
      · simp at hev
    · simp at hev
  · simp at hev


/-! ### Memory extension and reconstruction preconditions -/

/-- `m` extends `m0`: no cell of `m0` was dropped or changed (allocation
only appends, and reconstruction writes only target fresh cells). -/
def Mem.ext (m0 m : Mem) : Prop :=
  m0.size ≤ m.size ∧ ∀ b, b < m0.size → m.cells.get? b = m0.cells.get? b

theorem Mem.ext_refl (m : Mem) : Mem.ext m m :=
  ⟨le_refl _, fun _ _ => rfl⟩

theorem Mem.ext_trans {m0 m1 m2 : Mem} (h1 : Mem.ext m0 m1)
    (h2 : Mem.ext m1 m2) : Mem.ext m0 m2 :=
  ⟨le_trans h1.1 h2.1, fun b hb =>
    (h2.2 b (lt_of_lt_of_le hb h1.1)).trans (h1.2 b hb)⟩

theorem Mem.read_base_lt (m : Mem) (adr : Addr) (w : MemVal)
    (h : m.read adr = some w) : adr.base < m.size := by
  unfold Mem.read at h
  split at h
  · next hv =>
    simp only [List.get?_eq_getElem?] at hv
    exact (List.getElem?_eq_some_iff.mp hv).1
  · exact absurd h (by simp)

theorem Mem.ext_read (m0 m : Mem) (hx : Mem.ext m0 m) (adr : Addr)
    (w : MemVal) (h : m0.read adr = some w) : m.read adr = some w := by
  have hb := Mem.read_base_lt m0 adr w h
  unfold Mem.read at h ⊢
  rw [hx.2 adr.base hb]
  exact h

theorem Mem.alloc_get_last (m : Mem) (v : MemVal) :
    (m.alloc v).1.cells.get? (m.alloc v).2 = some v := by
  unfold Mem.alloc
  simp only [List.get?_eq_getElem?]
  rw [List.getElem?_append_right (le_refl _)]
  simp

theorem Mem.alloc_get_lt (m : Mem) (v : MemVal) (b : Nat)
    (hb : b < m.size) : (m.alloc v).1.cells.get? b = m.cells.get? b := by
  unfold Mem.alloc
  simp only [List.get?_eq_getElem?]
  rw [List.getElem?_append_left hb]

theorem Mem.alloc_read (m : Mem) (v : MemVal) (adr : Addr) (w : MemVal)
    (h : m.read adr = some w) : (m.alloc v).1.read adr = some w := by
  have hb := Mem.read_base_lt m adr w h
  have hc : (m.alloc v).1.cells.get? adr.base = m.cells.get? adr.base :=
    Mem.alloc_get_lt m v adr.base hb
  unfold Mem.read at h ⊢
  rw [hc]
  exact h

theorem Mem.read_root (m : Mem) (nb : Nat) (v : MemVal)
    (h : m.cells.get? nb = some v) : m.read ⟨nb, []⟩ = some v := by
  unfold Mem.read
  rw [show (⟨nb, []⟩ : Addr).base = nb from rfl, h]
  rfl

theorem Mem.write_root (m : Mem) (nb : Nat) (old v : MemVal)
    (h : m.cells.get? nb = some old) :
    m.write ⟨nb, []⟩ v = some ⟨m.cells.set nb v⟩ := by
  unfold Mem.write
  rw [show (⟨nb, []⟩ : Addr).base = nb from rfl, h]
  rfl

theorem Mem.write_field (m : Mem) (nb i : Nat) (fs : List MemVal)
    (v : MemVal) (h : m.cells.get? nb = some (.structV fs))
    (hi : i < fs.length) :
    m.write ⟨nb, [i]⟩ v = some ⟨m.cells.set nb (.structV (fs.set i v))⟩ := by
  unfold Mem.write
  rw [show (⟨nb, [i]⟩ : Addr).base = nb from rfl, h]
  simp only [MemVal.setSub, List.get?_eq_getElem?]
  rw [List.getElem?_eq_getElem hi]

theorem Mem.write_elem (m : Mem) (nb i : Nat) (es : List MemVal)
    (v : MemVal) (h : m.cells.get? nb = some (.arrV es))
    (hi : i < es.length) :
    m.write ⟨nb, [i]⟩ v = some ⟨m.cells.set nb (.arrV (es.set i v))⟩ := by
  unfold Mem.write
  rw [show (⟨nb, [i]⟩ : Addr).base = nb from rfl, h]
  simp only [MemVal.setSub, List.get?_eq_getElem?]
  rw [List.getElem?_eq_getElem hi]

/-- The slot holds a value that can be read back from the heap (what
`copyFieldsBack` / `copyElemsBack` dereference). -/
def slotReadable (s : ExecState) (p : SlotRef) : Prop :=
  ∃ sl, s.getSlot p = some sl ∧ ∃ v, sl.value = some v ∧
    ∃ w, s.mem.read v = some w

/-- Level `l` of the stack can be rebuilt if its active slot is (or
becomes) dirty: the descriptor resolves, and the kind-specific data the
`unwind` label reads — the slot's own heap value and the child frame at
`l + 1` whose slots are copied back — is present and readable. -/
def levelRecon (e : Engine) (s : ExecState) (l : Nat) : Prop :=
  ∀ p, s.activePtr (s.stackB, l) = some p → ∀ a, s.getSlot p = some a →
  ∀ tid, a.typeData = some tid →
  ∃ td, e.typeData tid = some td ∧
    match td.kind with
    | .struct =>
        (∃ v, a.value = some v ∧ ∃ fs, s.mem.read v = some (.structV fs) ∧
          td.fields.length ≤ fs.length) ∧
        (∀ i, i < td.fields.length →
          ∃ p2, s.slotPtr (s.stackB, l + 1) i = some p2 ∧ slotReadable s p2)
    | .pointer => ∃ z, s.getSlot (.fixed s.stackB (l + 1) 0) = some z
    | .slice => ∃ g, s.getFrame (s.stackB, l + 1) = some g ∧
        ∀ i, i < g.Count →
          ∃ p2, s.slotPtr (s.stackB, l + 1) i = some p2 ∧ slotReadable s p2
    | .interface => ∃ z, s.getSlot (.fixed s.stackB (l + 1) 0) = some z ∧
        ∃ zt, z.typeData = some zt ∧ td.intfCanWrap zt = true
    | .zero => False

theorem slotPtr_fixed_or_over (s : ExecState) (r : FrameRef) (j : Nat)
    (p : SlotRef) (h : s.slotPtr r j = some p) :
    (∃ jj, p = .fixed r.1 r.2 jj) ∨ ∃ oid jj, p = .over oid jj := by
  unfold ExecState.slotPtr at h
  split at h
  · exact Or.inl ⟨j, (Option.some.inj h).symm⟩
  · split at h
    · split at h
      · exact Or.inr ⟨_, _, (Option.some.inj h).symm⟩
      · exact absurd h (by simp)
    · exact absurd h (by simp)

theorem setSlot_slotPtr (s : ExecState) (r : SlotRef) (a : Action)
    (s' : ExecState) (h : s.setSlot r a = some s') (rr : FrameRef)
    (j : Nat) : s'.slotPtr rr j = s.slotPtr rr j := by
  unfold ExecState.slotPtr
  by_cases hj : j < fixedSlotCount
  · rw [if_pos hj, if_pos hj]
  · rw [if_neg hj, if_neg hj]
    cases r with
    | fixed b fi j0 =>
      by_cases hrr : rr = (b, fi)
      · subst hrr
        obtain ⟨f, hf, hff⟩ := setSlot_fixed_getFrame_self s b fi j0 a s' h
        rw [hf, hff]
      · rw [setSlot_fixed_getFrame_ne s b fi j0 a s' h rr hrr]
    | over oid j0 =>
      obtain ⟨arr, _, _, hs⟩ := setSlot_over_eq s oid j0 a s' h
      subst hs
      rfl

theorem getSlot_frame (s : ExecState) (b fi : Nat) (f : Frame)
    (h : s.getFrame (b, fi) = some f) (j : Nat) :
    s.getSlot (.fixed b fi j) = f.Slots.get? j := by
  simp only [ExecState.getSlot, h]

theorem activePtr_transfer (s s1 : ExecState) (r : FrameRef)
    (hfr : ∀ f0, s.getFrame r = some f0 →
      ∃ f1, s1.getFrame r = some f1 ∧ f1.Idx = f0.Idx)
    (hsp : ∀ jj p, s.slotPtr r jj = some p → s1.slotPtr r jj = some p)
    (p : SlotRef) (hp : s.activePtr r = some p) :
    s1.activePtr r = some p := by
  unfold ExecState.activePtr at hp ⊢
  split at hp
  · next f0 hf0 =>
    obtain ⟨f1, hf1, hidx⟩ := hfr f0 hf0
    rw [hf1]
    show s1.slotPtr r f1.Idx = some p
    rw [hidx]
    exact hsp f0.Idx p hp
  · exact absurd hp (by simp)

theorem slotPtr_transfer (s s1 : ExecState) (r : FrameRef)
    (hfr : ∀ f0, s.getFrame r = some f0 →
      ∃ f1, s1.getFrame r = some f1 ∧ f1.Overflow = f0.Overflow)
    (jj : Nat) (p : SlotRef) (hp : s.slotPtr r jj = some p) :
    s1.slotPtr r jj = some p := by
  unfold ExecState.slotPtr at hp ⊢
  by_cases hj : jj < fixedSlotCount
  · rw [if_pos hj] at hp ⊢
    exact hp
  · rw [if_neg hj] at hp ⊢
    split at hp
    · next f0 hf0 =>
      obtain ⟨f1, hf1, hov⟩ := hfr f0 hf0
      rw [hf1]
      show (match f1.Overflow with
        | some oid => some (SlotRef.over oid (jj - fixedSlotCount))
        | none => none) = some p
      rw [hov]
      exact hp
    · exact absurd hp (by simp)

/-- Transfer the reconstruction preconditions of level `l` across a
state change that keeps the active cursor, the active slot's descriptor
and value, the child frame's count and slot pointers, slot readability,
and only extends the memory. -/
theorem levelRecon_transfer (e : Engine) (s s1 : ExecState) (l : Nat)
    (hsb : s1.stackB = s.stackB)
    (hex : ∃ p0, s.activePtr (s.stackB, l) = some p0 ∧
      ∃ a0, s.getSlot p0 = some a0)
    (hap : ∀ p, s.activePtr (s.stackB, l) = some p →
      s1.activePtr (s.stackB, l) = some p)
    (hact : ∀ p a0, s.activePtr (s.stackB, l) = some p →
      s.getSlot p = some a0 → ∃ a1, s1.getSlot p = some a1 ∧
        a1.typeData = a0.typeData ∧ a1.value = a0.value)
    (hmx : Mem.ext s.mem s1.mem)
    (hsp : ∀ j p, s.slotPtr (s.stackB, l + 1) j = some p →
      s1.slotPtr (s.stackB, l + 1) j = some p)
    (hsr : ∀ p, slotReadable s p → slotReadable s1 p)
    (hz : ∀ z, s.getSlot (.fixed s.stackB (l + 1) 0) = some z →
      ∃ z1, s1.getSlot (.fixed s.stackB (l + 1) 0) = some z1 ∧
        z1.typeData = z.typeData)
    (hcnt : ∀ g, s.getFrame (s.stackB, l + 1) = some g →
      ∃ g1, s1.getFrame (s.stackB, l + 1) = some g1 ∧ g1.Count = g.Count)
    (h : levelRecon e s l) : levelRecon e s1 l := by
  intro p hp a1 ha1 tid htid
  rw [hsb] at hp
  rw [hsb]
  obtain ⟨p0, hp0, a0, ha0⟩ := hex
  obtain rfl : p = p0 := Option.some.inj (hp.symm.trans (hap p0 hp0))
  obtain ⟨a1', ha1', htd', hv'⟩ := hact p a0 hp0 ha0
  obtain rfl : a1 = a1' := Option.some.inj (ha1.symm.trans ha1')
  obtain ⟨td, htd, hk⟩ := h p hp0 a0 ha0 tid (htd'.symm.trans htid)
  refine ⟨td, htd, ?_⟩
  cases htk : td.kind
  case zero =>
    rw [htk] at hk
    exact hk.elim
  case struct =>
    rw [htk] at hk
    obtain ⟨⟨v, hv, fs, hread, hlen⟩, hslots⟩ := hk
    refine ⟨⟨v, hv'.trans hv, fs, Mem.ext_read _ _ hmx _ _ hread, hlen⟩, ?_⟩
    intro i hi
    obtain ⟨p2, hp2, hr2⟩ := hslots i hi
    exact ⟨p2, hsp i p2 hp2, hsr p2 hr2⟩
  case pointer =>
    rw [htk] at hk
    obtain ⟨z, hzg⟩ := hk
    obtain ⟨z1, hz1, _⟩ := hz z hzg
    exact ⟨z1, hz1⟩
  case slice =>
    rw [htk] at hk
    obtain ⟨g, hg, hslots⟩ := hk
    obtain ⟨g1, hg1, hgc⟩ := hcnt g hg
    refine ⟨g1, hg1, ?_⟩
    intro i hi
    rw [hgc] at hi
    obtain ⟨p2, hp2, hr2⟩ := hslots i hi
    exact ⟨p2, hsp i p2 hp2, hsr p2 hr2⟩
  case interface =>
    rw [htk] at hk
    obtain ⟨z, hzg, zt, hzt, hcw⟩ := hk
    obtain ⟨z1, hz1, hz1td⟩ := hz z hzg
    exact ⟨z1, hz1, zt, hz1td.trans hzt, hcw⟩

/-- `activePostEvent` only depends on the frame's index and the active
slot's post, descriptor and value. -/
theorem activePostEvent_eq (s s1 : ExecState) (l : Nat) (f0 f1 : Frame)
    (a0 a1 : Action) (hsb : s1.stackB = s.stackB)
    (hf0 : s.getFrame (s.stackB, l) = some f0)
    (hf1 : s1.getFrame (s.stackB, l) = some f1)
    (hidx : f1.Idx = f0.Idx)
    (ha0 : f0.Slots.get? f0.Idx = some a0)
    (ha1 : f1.Slots.get? f1.Idx = some a1)
    (htd : a1.typeData = a0.typeData) (hv : a1.value = a0.value)
    (hp : a1.post = a0.post) :
    activePostEvent s1 l = activePostEvent s l := by
  unfold activePostEvent
  rw [hsb]
  simp only [hf0, hf1, ha0, ha1, htd, hv, hp]

/-! ### The reconstruction loops -/

theorem copyFieldsBack_ok (m0 : Mem) (rref : FrameRef) (nb : Nat)
    (hnb : m0.size ≤ nb) :
    ∀ (fl : List FieldInfo) (i : Nat) (s : ExecState)
      (fs : List MemVal),
    s.mem.cells.get? nb = some (.structV fs) →
    i + fl.length ≤ fs.length →
    (∀ k, i ≤ k → k < i + fl.length →
      ∃ p, s.slotPtr rref k = some p ∧ ∃ sl, s.getSlot p = some sl ∧
        ∃ v, sl.value = some v ∧ ∃ w, m0.read v = some w) →
    (∀ b, b < m0.size → s.mem.cells.get? b = m0.cells.get? b) →
    ∃ m', copyFieldsBack s (some rref) nb i fl =
        .ok { s with mem := m' } ∧
      m'.size = s.mem.size ∧
      (∀ b, b ≠ nb → m'.cells.get? b = s.mem.cells.get? b) ∧
      ∃ fs', m'.cells.get? nb = some (.structV fs') ∧
        fs'.length = fs.length := by
  intro fl
  induction fl with
  | nil =>
    intro i s fs hnbc _ _ _
    exact ⟨s.mem, rfl, rfl, fun _ _ => rfl, fs, hnbc, rfl⟩
  | cons fhd ftl ih =>
    intro i s fs hnbc hlen hslots hag
    obtain ⟨p, hp, sl, hsl, v, hv, w, hw⟩ :=
      hslots i (le_refl i) (by simp only [List.length_cons]; omega)
    have hbase : v.base < m0.size := Mem.read_base_lt m0 v w hw
    have hreadS : s.mem.read v = some w := by
      unfold Mem.read at hw ⊢
      rw [hag v.base hbase]
      exact hw
    have hi : i < fs.length := by
      simp only [List.length_cons] at hlen
      omega
    have hwr := Mem.write_field s.mem nb i fs w hnbc hi
    have hnblen : nb < s.mem.cells.length := by
      simp only [List.get?_eq_getElem?] at hnbc
      exact (List.getElem?_eq_some_iff.mp hnbc).1
    obtain ⟨m', hrun, hsz, hne, fs', hnb', hlen'⟩ :=
      ih (i + 1)
        { s with mem := ⟨s.mem.cells.set nb (.structV (fs.set i w))⟩ }
        (fs.set i w)
        (by
          show (s.mem.cells.set nb _).get? nb = _
          simp only [List.get?_eq_getElem?]
          rw [List.getElem?_set_self hnblen])
        (by simp only [List.length_set, List.length_cons] at hlen ⊢; omega)
        (fun k hk1 hk2 =>
          hslots k (by omega)
            (by simp only [List.length_cons]; omega))
        (by
          intro b hb
          show (s.mem.cells.set nb _).get? b = _
          simp only [List.get?_eq_getElem?]
          have hbnb : b ≠ nb := by omega
          rw [List.getElem?_set_ne (Ne.symm hbnb)]
          simpa only [List.get?_eq_getElem?] using hag b hb)
    refine ⟨m', ?_, ?_, ?_, fs', hnb', by rw [hlen']; simp⟩
    · show copyFieldsBack s (some rref) nb i (fhd :: ftl) = _
      unfold copyFieldsBack
      simp only [bind, Except.bind, liftO_some, hp, hsl, hv, hreadS, hwr]
      exact hrun
    · rw [hsz]
      show (s.mem.cells.set nb _).length = s.mem.cells.length
      simp
    · intro b hb
      rw [hne b hb]
      show (s.mem.cells.set nb _).get? b = _
      simp only [List.get?_eq_getElem?]
      rw [List.getElem?_set_ne (Ne.symm hb)]

theorem copyElemsBack_ok (m0 : Mem) (rref : FrameRef) (db : Nat)
    (hdb : m0.size ≤ db) :
    ∀ (n i : Nat) (s : ExecState) (es : List MemVal),
    s.mem.cells.get? db = some (.arrV es) →
    i + n ≤ es.length →
    (∀ k, i ≤ k → k < i + n →
      ∃ p, s.slotPtr rref k = some p ∧ ∃ sl, s.getSlot p = some sl ∧
        ∃ v, sl.value = some v ∧ ∃ w, m0.read v = some w) →
    (∀ b, b < m0.size → s.mem.cells.get? b = m0.cells.get? b) →
    ∃ m', copyElemsBack s rref db i n = .ok { s with mem := m' } ∧
      m'.size = s.mem.size ∧
      (∀ b, b ≠ db → m'.cells.get? b = s.mem.cells.get? b) ∧
      ∃ es', m'.cells.get? db = some (.arrV es') ∧
        es'.length = es.length := by
  intro n
  induction n with
  | zero =>
    intro i s es hdbc _ _ _
    exact ⟨s.mem, rfl, rfl, fun _ _ => rfl, es, hdbc, rfl⟩
  | succ n ih =>
    intro i s es hdbc hlen hslots hag
    obtain ⟨p, hp, sl, hsl, v, hv, w, hw⟩ :=
      hslots i (le_refl i) (by omega)
    have hbase : v.base < m0.size := Mem.read_base_lt m0 v w hw
    have hreadS : s.mem.read v = some w := by
      unfold Mem.read at hw ⊢
      rw [hag v.base hbase]
      exact hw
    have hi : i < es.length := by omega
    have hwr := Mem.write_elem s.mem db i es w hdbc hi
    have hdblen : db < s.mem.cells.length := by
      simp only [List.get?_eq_getElem?] at hdbc
      exact (List.getElem?_eq_some_iff.mp hdbc).1
    obtain ⟨m', hrun, hsz, hne, es', hdb', hlen'⟩ :=
      ih (i + 1)
        { s with mem := ⟨s.mem.cells.set db (.arrV (es.set i w))⟩ }
        (es.set i w)
        (by
          show (s.mem.cells.set db _).get? db = _
          simp only [List.get?_eq_getElem?]
          rw [List.getElem?_set_self hdblen])
        (by simp only [List.length_set]; omega)
        (fun k hk1 hk2 => hslots k (by omega) (by omega))
        (by
          intro b hb
          show (s.mem.cells.set db _).get? b = _
          simp only [List.get?_eq_getElem?]
          have hbdb : b ≠ db := by omega
          rw [List.getElem?_set_ne (Ne.symm hbdb)]
          simpa only [List.get?_eq_getElem?] using hag b hb)
    refine ⟨m', ?_, ?_, ?_, es', hdb', by rw [hlen']; simp⟩
    · show copyElemsBack s rref db i (n + 1) = _
      unfold copyElemsBack
      simp only [bind, Except.bind, liftO_some, hp, hsl, hv, hreadS, hwr]
      exact hrun
    · rw [hsz]
      show (s.mem.cells.set db _).length = s.mem.cells.length
      simp
    · intro b hb
      rw [hne b hb]
      show (s.mem.cells.set db _).get? b = _
      simp only [List.get?_eq_getElem?]
      rw [List.getElem?_set_ne (Ne.symm hb)]
theorem setFrame_eq (s : ExecState) (r : FrameRef) (f : Frame)
    (s' : ExecState) (h : s.setFrame r f = some s') :
    ∃ backing, s.stackStore.get? r.1 = some backing ∧
      r.2 < backing.length ∧
      s' = { s with
        stackStore := s.stackStore.set r.1 (backing.set r.2 f) } := by
  unfold ExecState.setFrame at h
  split at h
  · next backing hb =>
    split at h
    · next hlt =>
      injection h with h
      exact ⟨backing, hb, hlt, h.symm⟩
    · exact absurd h (by simp)
  · exact absurd h (by simp)

/-- `setSlot` commutes with replacing the heap: it only reads and
writes the backing stores. -/
theorem setSlot_mem_comm (s : ExecState) (M : Mem) (r : SlotRef)
    (a : Action) (s' : ExecState) (h : s.setSlot r a = some s') :
    ExecState.setSlot { s with mem := M } r a =
      some { s' with mem := M } := by
  cases r with
  | fixed b fi j =>
    obtain ⟨f, hf, hj, hsf⟩ := setSlot_fixed_eq s b fi j a s' h
    obtain ⟨backing, hb, hlt, rfl⟩ := setFrame_eq s (b, fi) _ s' hsf
    have hf2 : backing.get? fi = some f := by
      unfold ExecState.getFrame at hf
      rw [hb] at hf
      exact hf
    simp only [ExecState.setSlot, ExecState.getFrame,
      ExecState.setFrame, hb, hf2, if_pos hj, if_pos hlt]
  | over oid j =>
    obtain ⟨arr, harr, hj, rfl⟩ := setSlot_over_eq s oid j a s' h
    simp only [ExecState.setSlot, harr, if_pos hj]

/-- What one benign `unwind` dirty-check-and-rebuild step guarantees
about the next state, relative to the state it started from. -/
structure UnwindPost (s s1 : ExecState) (n : Nat) : Prop where
  phase : s1.phase = .nextSlot
  halting : s1.halting = s.halting
  stackIdx : s1.stackIdx = s.stackIdx
  stackB : s1.stackB = s.stackB
  curFrame : s1.curFrame = s.curFrame
  curSlot : s1.curSlot = s.curSlot
  parentSlot : s1.parentSlot = s.parentSlot
  returning : s1.returning = s.returning
  overStore : s1.overStore = s.overStore
  trace : s1.trace = s.trace
  mem : Mem.ext s.mem s1.mem
  frames : ∀ r' : FrameRef, r' ≠ (s.stackB, n) →
    r' ≠ (s.stackB, n - 1) → s1.getFrame r' = s.getFrame r'
  ptrs : ∀ rr jj p, s.slotPtr rr jj = some p →
    s1.slotPtr rr jj = some p
  slots : ∀ r a0, s.getSlot r = some a0 →
    ∃ a1, s1.getSlot r = some a1 ∧ a1.typeData = a0.typeData ∧
      a1.post = a0.post ∧ (r ≠ s.curSlot → a1.value = a0.value) ∧
      (r ≠ s.curSlot → r ≠ s.parentSlot → a1.dirty = a0.dirty)
  reads : ∀ p, slotReadable s p → slotReadable s1 p
  shapes : ∀ fi' f0, s.getFrame (s.stackB, fi') = some f0 →
    ∃ f1, s1.getFrame (s.stackB, fi') = some f1 ∧ f1.Idx = f0.Idx ∧
      f1.Count = f0.Count ∧ f1.Overflow = f0.Overflow

/-- Assemble the `UnwindPost` facts for the reconstruction paths of
`unwindDirty`: one dirty-mark write through the parent slot, a heap
change that only adds cells, and the rebuilt value written into the
current slot.  `SX` is the intermediate state the write goes through;
it reads slots and frames like the parent-written state and carries the
new heap. -/
theorem unwindDirty_assemble (s SX : ExecState) (n : Nat) (h1n : 1 ≤ n)
    (jA pj : Nat) (a pa : Action) (stP : List (List Frame)) (m' : Mem)
    (X : Nat) (s1 : ExecState)
    (hcs : s.curSlot = SlotRef.fixed s.stackB n jA)
    (hps : s.parentSlot = SlotRef.fixed s.stackB (n - 1) pj)
    (hgsa : s.getSlot (SlotRef.fixed s.stackB n jA) = some a)
    (hpaS : s.getSlot (SlotRef.fixed s.stackB (n - 1) pj) = some pa)
    (hsetP : s.setSlot (SlotRef.fixed s.stackB (n - 1) pj)
      { pa with dirty := true } = some { s with stackStore := stP })
    (hXeq : ∀ r : SlotRef, SX.getSlot r =
      ExecState.getSlot { s with stackStore := stP } r)
    (hXfr : ∀ r : FrameRef, SX.getFrame r =
      ExecState.getFrame { s with stackStore := stP } r)
    (hXsp : ∀ rr jj, SX.slotPtr rr jj =
      ExecState.slotPtr { s with stackStore := stP } rr jj)
    (hXmem : SX.mem = m')
    (hXidx : SX.stackIdx = s.stackIdx) (hXsb : SX.stackB = s.stackB)
    (hXcf : SX.curFrame = s.curFrame) (hXcs : SX.curSlot = s.curSlot)
    (hXps : SX.parentSlot = s.parentSlot)
    (hXret : SX.returning = s.returning) (hXh : SX.halting = s.halting)
    (hXov : SX.overStore = s.overStore) (hXtr : SX.trace = s.trace)
    (hsz : s.mem.size ≤ m'.size)
    (hag : ∀ b, b < s.mem.size →
      m'.cells.get? b = s.mem.cells.get? b)
    (hXw : ∃ w, m'.read ⟨X, []⟩ = some w)
    (hset1 : SX.setSlot (SlotRef.fixed s.stackB n jA)
      { a with value := some ⟨X, []⟩ } = some s1) :
    UnwindPost s { s1 with phase := .nextSlot } n := by
  have hcurne : SlotRef.fixed s.stackB n jA ≠
      SlotRef.fixed s.stackB (n - 1) pj := by
    intro heq
    injection heq with h1 h2 h3
    omega
  have hnfr : ((s.stackB, n) : FrameRef) ≠ (s.stackB, n - 1) := by
    intro heq
    have := congrArg Prod.snd heq
    simp only at this
    omega
  obtain ⟨st1, hsh1⟩ := setSlot_fixed_shape SX s.stackB n jA _ s1 hset1
  have hmem1 : s1.mem = m' := by
    rw [hsh1]
    exact hXmem
  have hmx : Mem.ext s.mem m' := ⟨hsz, hag⟩
  refine ⟨rfl, ?_, ?_, ?_, ?_, ?_, ?_, ?_, ?_, ?_, ?_, ?_, ?_, ?_,
    ?_, ?_⟩
  · show s1.halting = s.halting
    rw [hsh1]
    exact hXh
  · show s1.stackIdx = s.stackIdx
    rw [hsh1]
    exact hXidx
  · show s1.stackB = s.stackB
    rw [hsh1]
    exact hXsb
  · show s1.curFrame = s.curFrame
    rw [hsh1]
    exact hXcf
  · show s1.curSlot = s.curSlot
    rw [hsh1]
    exact hXcs
  · show s1.parentSlot = s.parentSlot
    rw [hsh1]
    exact hXps
  · show s1.returning = s.returning
    rw [hsh1]
    exact hXret
  · show s1.overStore = s.overStore
    rw [hsh1]
    exact hXov
  · show s1.trace = s.trace
    rw [hsh1]
    exact hXtr
  · show Mem.ext s.mem s1.mem
    rw [hmem1]
    exact hmx
  · intro r' hn1 hn2
    show s1.getFrame r' = s.getFrame r'
    have e2 := setSlot_fixed_getFrame_ne SX s.stackB n jA _ _ hset1
      r' hn1
    have e4 := setSlot_fixed_getFrame_ne s s.stackB (n - 1) pj _ _
      hsetP r' hn2
    exact e2.trans ((hXfr r').trans e4)
  · intro rr jj p hp
    show s1.slotPtr rr jj = some p
    have e2 := setSlot_slotPtr SX _ _ _ hset1 rr jj
    have e4 := setSlot_slotPtr s _ _ _ hsetP rr jj
    exact (e2.trans ((hXsp rr jj).trans e4)).trans hp
  · intro r a0 h0
    show ∃ a1, s1.getSlot r = some a1 ∧ a1.typeData = a0.typeData ∧
      a1.post = a0.post ∧ (r ≠ s.curSlot → a1.value = a0.value) ∧
      (r ≠ s.curSlot → r ≠ s.parentSlot → a1.dirty = a0.dirty)
    by_cases hc1 : r = SlotRef.fixed s.stackB n jA
    · subst hc1
      obtain rfl : a0 = a := Option.some.inj (h0.symm.trans hgsa)
      have hx := setSlot_fixed_getSlot_self SX s.stackB n jA _ _ hset1
      exact ⟨_, hx, rfl, rfl, fun hne => absurd hcs.symm hne,
        fun hne _ => absurd hcs.symm hne⟩
    · by_cases hc2 : r = SlotRef.fixed s.stackB (n - 1) pj
      · subst hc2
        obtain rfl : a0 = pa := Option.some.inj (h0.symm.trans hpaS)
        have e2 := setSlot_getSlot_ne SX _ _ _ hset1
          (SlotRef.fixed s.stackB (n - 1) pj)
          (fun heq => hcurne heq.symm)
        have e3 := setSlot_fixed_getSlot_self s s.stackB (n - 1) pj _ _
          hsetP
        exact ⟨_, e2.trans ((hXeq _).trans e3), rfl, rfl, fun _ => rfl,
          fun _ hne2 => absurd hps.symm hne2⟩
      · have e2 := setSlot_getSlot_ne SX _ _ _ hset1 r hc1
        have e4 := setSlot_getSlot_ne s _ _ _ hsetP r hc2
        exact ⟨a0, (e2.trans ((hXeq r).trans e4)).trans h0, rfl, rfl,
          fun _ => rfl, fun _ _ => rfl⟩
  · intro p hrd
    obtain ⟨sl, hg, v, hv, w, hw⟩ := hrd
    show ∃ sl1, s1.getSlot p = some sl1 ∧ ∃ v1, sl1.value = some v1 ∧
      ∃ w1, s1.mem.read v1 = some w1
    rw [hmem1]
    by_cases hc1 : p = SlotRef.fixed s.stackB n jA
    · subst hc1
      obtain ⟨w1, hw1⟩ := hXw
      have hx := setSlot_fixed_getSlot_self SX s.stackB n jA _ _ hset1
      exact ⟨_, hx, ⟨X, []⟩, rfl, w1, hw1⟩
    · by_cases hc2 : p = SlotRef.fixed s.stackB (n - 1) pj
      · subst hc2
        obtain rfl : sl = pa := Option.some.inj (hg.symm.trans hpaS)
        have e2 := setSlot_getSlot_ne SX _ _ _ hset1
          (SlotRef.fixed s.stackB (n - 1) pj)
          (fun heq => hcurne heq.symm)
        have e3 := setSlot_fixed_getSlot_self s s.stackB (n - 1) pj _ _
          hsetP
        exact ⟨_, e2.trans ((hXeq _).trans e3), v, hv, w,
          Mem.ext_read _ _ hmx _ _ hw⟩
      · have e2 := setSlot_getSlot_ne SX _ _ _ hset1 p hc1
        have e4 := setSlot_getSlot_ne s _ _ _ hsetP p hc2
        exact ⟨sl, (e2.trans ((hXeq p).trans e4)).trans hg, v, hv, w,
          Mem.ext_read _ _ hmx _ _ hw⟩
  · intro fi' f0 h0
    show ∃ f1, s1.getFrame (s.stackB, fi') = some f1 ∧
      f1.Idx = f0.Idx ∧ f1.Count = f0.Count ∧ f1.Overflow = f0.Overflow
    by_cases hn1 : fi' = n
    · rw [hn1] at h0 ⊢
      have hfP : SX.getFrame (s.stackB, n) = some f0 :=
        (hXfr _).trans
          ((setSlot_fixed_getFrame_ne s s.stackB (n - 1) pj _ _ hsetP
            (s.stackB, n) hnfr).trans h0)
      obtain ⟨f', hf', hff'⟩ :=
        setSlot_fixed_getFrame_self SX s.stackB n jA _ _ hset1
      obtain rfl : f' = f0 := Option.some.inj (hf'.symm.trans hfP)
      exact ⟨_, hff', rfl, rfl, rfl⟩
    · by_cases hn2 : fi' = n - 1
      · rw [hn2] at h0 ⊢
        obtain ⟨f', hf', hff'⟩ :=
          setSlot_fixed_getFrame_self s s.stackB (n - 1) pj _ _ hsetP
        obtain rfl : f' = f0 := Option.some.inj (hf'.symm.trans h0)
        have e2 := setSlot_fixed_getFrame_ne SX s.stackB n jA _ _ hset1
          (s.stackB, n - 1) (fun heq => hn1 ?_)
        · exact ⟨_, e2.trans ((hXfr _).trans hff'), rfl, rfl, rfl⟩
        · have hx := congrArg Prod.snd heq
          simp only at hx
          rw [hn2]
          exact hx
      · have e2 := setSlot_fixed_getFrame_ne SX s.stackB n jA _ _ hset1
          (s.stackB, fi') (fun heq => hn1 (congrArg Prod.snd heq))
        have e4 := setSlot_fixed_getFrame_ne s s.stackB (n - 1) pj _ _
          hsetP (s.stackB, fi')
          (fun heq => hn2 (congrArg Prod.snd heq))
        exact ⟨f0, (e2.trans ((hXfr _).trans e4)).trans h0, rfl, rfl,
          rfl⟩
/-- The dirty-check-and-rebuild half of one `unwind` step succeeds and
satisfies `UnwindPost`, given the reconstruction preconditions when the
slot is dirty. -/
theorem unwindDirty_ok (e : Engine) (s : ExecState) (n : Nat)
    (h1n : 1 ≤ n) (f : Frame) (a : Action) (tidA : TypeID) (pj : Nat)
    (pa : Action)
    (hf : s.getFrame (s.stackB, n) = some f)
    (hidx : f.Idx < fixedSlotCount)
    (ha : f.Slots.get? f.Idx = some a)
    (hta : a.typeData = some tidA)
    (hcs : s.curSlot = SlotRef.fixed s.stackB n f.Idx)
    (hps : s.parentSlot = SlotRef.fixed s.stackB (n - 1) pj)
    (hpaS : s.getSlot (SlotRef.fixed s.stackB (n - 1) pj) = some pa)
    (hrec : a.dirty = true → s.returning = some (s.stackB, n + 1) ∧
      levelRecon e s n) :
    ∃ s1, unwindDirty e s = .ok (.next s1) ∧ UnwindPost s s1 n := by
  have hgsa : s.getSlot s.curSlot = some a := by
    rw [hcs, getSlot_frame s s.stackB n f hf f.Idx]
    exact ha
  have hgsa' : s.getSlot (SlotRef.fixed s.stackB n f.Idx) = some a := by
    rw [← hcs]
    exact hgsa
  cases hd : a.dirty with
  | false =>
    refine ⟨{ s with phase := .nextSlot }, ?_, ?_⟩
    · unfold unwindDirty
      simp only [hgsa, liftO_some, bind, Except.bind, hd,
        Bool.false_eq_true, if_false]
      rfl
    · exact ⟨rfl, rfl, rfl, rfl, rfl, rfl, rfl, rfl, rfl, rfl,
        Mem.ext_refl s.mem, fun _ _ _ => rfl, fun _ _ _ hp => hp,
        fun r a0 h0 => ⟨a0, h0, rfl, rfl, fun _ => rfl, fun _ _ => rfl⟩,
        fun _ hp => hp, fun _ f0 h0 => ⟨f0, h0, rfl, rfl, rfl⟩⟩
  | true =>
    obtain ⟨hret, hlr⟩ := hrec hd
    have hap : s.activePtr (s.stackB, n) =
        some (SlotRef.fixed s.stackB n f.Idx) := by
      unfold ExecState.activePtr ExecState.slotPtr
      rw [hf]
      simp [hidx]
    obtain ⟨td, htd, hk⟩ := hlr _ hap a hgsa' tidA hta
    have hpsl : s.getSlot s.parentSlot = some pa := by
      rw [hps]
      exact hpaS
    obtain ⟨sP, hsetP0⟩ := setSlot_fixed_some s s.stackB (n - 1) pj pa
      hpaS { pa with dirty := true }
    obtain ⟨stP, hshP⟩ := setSlot_fixed_shape s s.stackB (n - 1) pj _
      sP hsetP0
    subst hshP
    have hsetPr : s.setSlot s.parentSlot { pa with dirty := true } =
        some { s with stackStore := stP } := by
      conv_lhs => rw [hps]
      exact hsetP0
    have hcurne : SlotRef.fixed s.stackB n f.Idx ≠
        SlotRef.fixed s.stackB (n - 1) pj := by
      intro heq
      injection heq with h1 h2 h3
      omega
    have hcurneP : SlotRef.fixed s.stackB n f.Idx ≠ s.parentSlot := by
      rw [hps]
      exact hcurne
    cases htk : td.kind
    case zero =>
      rw [htk] at hk
      exact hk.elim
    case struct =>
      rw [htk] at hk
      obtain ⟨⟨av, hav, fs, hread, hflen⟩, hslots⟩ := hk
      have hread1 : (⟨s.mem.cells ++ [MemVal.structV []]⟩ : Mem).read av =
          some (.structV fs) :=
        Mem.alloc_read s.mem (.structV []) av _ hread
      have hm1nb : (⟨s.mem.cells ++ [MemVal.structV []]⟩ :
          Mem).cells.get? s.mem.cells.length = some (.structV []) :=
        Mem.alloc_get_last s.mem (.structV [])
      have hwr : (⟨s.mem.cells ++ [MemVal.structV []]⟩ : Mem).write
          ⟨s.mem.cells.length, []⟩ (.structV fs) =
          some ⟨(s.mem.cells ++ [MemVal.structV []]).set s.mem.cells.length (MemVal.structV fs)⟩ :=
        Mem.write_root _ _ _ _ hm1nb
      have hm2nb : ((s.mem.cells ++ [MemVal.structV []]).set
          s.mem.cells.length (MemVal.structV fs)).get? s.mem.cells.length =
          some (.structV fs) := by
        simp only [List.get?_eq_getElem?]
        rw [List.getElem?_set_self (by simp)]
      have hag2 : ∀ b, b < s.mem.size →
          ((s.mem.cells ++ [MemVal.structV []]).set s.mem.cells.length
            (MemVal.structV fs)).get? b = s.mem.cells.get? b := by
        intro b hb
        have hb' : b < s.mem.cells.length := hb
        simp only [List.get?_eq_getElem?]
        rw [List.getElem?_set_ne (by omega)]
        rw [List.getElem?_append_left hb']
      have hslots2 : ∀ k, 0 ≤ k → k < 0 + td.fields.length →
          ∃ p, ExecState.slotPtr { mem := (⟨(s.mem.cells ++ [MemVal.structV []]).set s.mem.cells.length (MemVal.structV fs)⟩ : Mem), stackStore := stP, overStore := s.overStore, stackB := s.stackB, stackIdx := s.stackIdx, curFrame := s.curFrame, curSlot := SlotRef.fixed s.stackB n f.Idx, parentSlot := s.parentSlot, returning := some (s.stackB, n + 1), halting := s.halting, trace := s.trace, phase := s.phase }
            (s.stackB, n + 1) k = some p ∧
          ∃ sl, ExecState.getSlot { mem := (⟨(s.mem.cells ++ [MemVal.structV []]).set s.mem.cells.length (MemVal.structV fs)⟩ : Mem), stackStore := stP, overStore := s.overStore, stackB := s.stackB, stackIdx := s.stackIdx, curFrame := s.curFrame, curSlot := SlotRef.fixed s.stackB n f.Idx, parentSlot := s.parentSlot, returning := some (s.stackB, n + 1), halting := s.halting, trace := s.trace, phase := s.phase }
            p = some sl ∧
          ∃ v, sl.value = some v ∧ ∃ w, s.mem.read v = some w := by
        intro k _ hk2
        obtain ⟨p2, hp2, sl, hgsl, v, hvv, w, hww⟩ :=
          hslots k (by omega)
        have hpne : p2 ≠ s.parentSlot := by
          rw [hps]
          rcases slotPtr_fixed_or_over s (s.stackB, n + 1) k p2 hp2 with
            ⟨jj, rfl⟩ | ⟨oid, jj, rfl⟩
          · intro heq
            injection heq with e1 e2 e3
            omega
          · intro heq
            exact SlotRef.noConfusion heq
        refine ⟨p2, ?_, sl, ?_, v, hvv, w, hww⟩
        · have e1 := setSlot_slotPtr s _ _ _ hsetPr (s.stackB, n + 1) k
          exact e1.trans hp2
        · have e1 := setSlot_getSlot_ne s _ _ _ hsetPr p2 hpne
          exact e1.trans hgsl
      obtain ⟨m', hcfb, hsz', hne', fs', hnb', hlen'⟩ :=
        copyFieldsBack_ok s.mem (s.stackB, n + 1) s.mem.cells.length
          (le_refl _) td.fields 0
          { mem := (⟨(s.mem.cells ++ [MemVal.structV []]).set s.mem.cells.length (MemVal.structV fs)⟩ : Mem), stackStore := stP, overStore := s.overStore, stackB := s.stackB, stackIdx := s.stackIdx, curFrame := s.curFrame, curSlot := SlotRef.fixed s.stackB n f.Idx, parentSlot := s.parentSlot, returning := some (s.stackB, n + 1), halting := s.halting, trace := s.trace, phase := s.phase }
          fs hm2nb (by omega) hslots2 hag2
      have hg4 : ExecState.getSlot { mem := m', stackStore := stP, overStore := s.overStore, stackB := s.stackB, stackIdx := s.stackIdx, curFrame := s.curFrame, curSlot := SlotRef.fixed s.stackB n f.Idx, parentSlot := s.parentSlot, returning := some (s.stackB, n + 1), halting := s.halting, trace := s.trace, phase := s.phase }
          (SlotRef.fixed s.stackB n f.Idx) = some a := by
        have e1 := setSlot_getSlot_ne s _ _ _ hsetPr _ hcurneP
        exact e1.trans hgsa'
      obtain ⟨s1, hset1⟩ := setSlot_fixed_some
        { mem := m', stackStore := stP, overStore := s.overStore, stackB := s.stackB, stackIdx := s.stackIdx, curFrame := s.curFrame, curSlot := SlotRef.fixed s.stackB n f.Idx, parentSlot := s.parentSlot, returning := some (s.stackB, n + 1), halting := s.halting, trace := s.trace, phase := s.phase } s.stackB n f.Idx a hg4
        { a with value := some ⟨s.mem.cells.length, []⟩ }
      have hpost := unwindDirty_assemble s
        { mem := m', stackStore := stP, overStore := s.overStore, stackB := s.stackB, stackIdx := s.stackIdx, curFrame := s.curFrame, curSlot := SlotRef.fixed s.stackB n f.Idx, parentSlot := s.parentSlot, returning := some (s.stackB, n + 1), halting := s.halting, trace := s.trace, phase := s.phase } n h1n f.Idx pj a pa stP m'
        s.mem.cells.length s1 hcs hps hgsa' hpaS hsetP0
        (fun _ => rfl) (fun _ => rfl) (fun _ _ => rfl) rfl rfl rfl rfl
        hcs.symm rfl hret.symm rfl rfl rfl
        (by
          rw [hsz']
          show s.mem.size ≤ ((s.mem.cells ++ [MemVal.structV []]).set
            s.mem.cells.length (MemVal.structV fs)).length
          rw [List.length_set, List.length_append]
          simp [Mem.size])
        (by
          intro b hb
          have hb' : b < s.mem.cells.length := hb
          exact (hne' b (by omega)).trans (hag2 b hb))
        ⟨.structV fs', Mem.read_root m' _ _ hnb'⟩
        hset1
      have hact2 : ({ call := a.call, dirty := true, post := a.post, typeData := some tidA, value := some ⟨s.mem.cells.length, []⟩, valueType := a.valueType } : Action) = { a with value := some ⟨s.mem.cells.length, []⟩ } := by
        rw [hd, hta]
      refine ⟨_, ?_, hpost⟩
      unfold unwindDirty
      simp only [hgsa', liftO_some, bind, Except.bind, hd,
        eq_self_iff_true, if_true, hpsl, hsetPr, hta, htd, htk,
        Mem.alloc, hav, hread1, hwr, hret, hcs, hcfb, hg4,
        pure, Except.pure]
      simp only [hact2, hset1, liftO_some, bind, Except.bind,
        pure, Except.pure]
    case pointer =>
      rw [htk] at hk
      obtain ⟨z, hz⟩ := hk
      have hzne : SlotRef.fixed s.stackB (n + 1) 0 ≠ s.parentSlot := by
        rw [hps]
        intro heq
        injection heq with e1 e2 e3
        omega
      have hzP : ExecState.getSlot { mem := s.mem, stackStore := stP, overStore := s.overStore, stackB := s.stackB, stackIdx := s.stackIdx, curFrame := s.curFrame, curSlot := SlotRef.fixed s.stackB n f.Idx, parentSlot := s.parentSlot, returning := some (s.stackB, n + 1), halting := s.halting, trace := s.trace, phase := s.phase }
          (SlotRef.fixed s.stackB (n + 1) 0) = some z :=
        (setSlot_getSlot_ne s _ _ _ hsetPr _ hzne).trans hz
      have hg4 : ExecState.getSlot { mem := s.mem, stackStore := stP, overStore := s.overStore, stackB := s.stackB, stackIdx := s.stackIdx, curFrame := s.curFrame, curSlot := SlotRef.fixed s.stackB n f.Idx, parentSlot := s.parentSlot, returning := some (s.stackB, n + 1), halting := s.halting, trace := s.trace, phase := s.phase }
          (SlotRef.fixed s.stackB n f.Idx) = some a :=
        (setSlot_getSlot_ne s _ _ _ hsetPr _ hcurneP).trans hgsa'
      obtain ⟨sC, hsetC⟩ := setSlot_fixed_some
        { mem := s.mem, stackStore := stP, overStore := s.overStore, stackB := s.stackB, stackIdx := s.stackIdx, curFrame := s.curFrame, curSlot := SlotRef.fixed s.stackB n f.Idx, parentSlot := s.parentSlot, returning := some (s.stackB, n + 1), halting := s.halting, trace := s.trace, phase := s.phase } s.stackB n f.Idx a hg4
        { a with value := some ⟨s.mem.cells.length, []⟩ }
      have hset1 := setSlot_mem_comm _
        (⟨s.mem.cells ++ [MemVal.ptrV z.value]⟩ : Mem) _ _ _ hsetC
      have hpost := unwindDirty_assemble s
        { mem := (⟨s.mem.cells ++ [MemVal.ptrV z.value]⟩ : Mem), stackStore := stP, overStore := s.overStore, stackB := s.stackB, stackIdx := s.stackIdx, curFrame := s.curFrame, curSlot := SlotRef.fixed s.stackB n f.Idx, parentSlot := s.parentSlot, returning := some (s.stackB, n + 1), halting := s.halting, trace := s.trace, phase := s.phase }
        n h1n f.Idx pj a pa stP
        (⟨s.mem.cells ++ [MemVal.ptrV z.value]⟩ : Mem)
        s.mem.cells.length _ hcs hps hgsa' hpaS hsetP0
        (fun _ => rfl) (fun _ => rfl) (fun _ _ => rfl) rfl rfl rfl rfl
        hcs.symm rfl hret.symm rfl rfl rfl
        (by
          show s.mem.size ≤ (s.mem.cells ++ [MemVal.ptrV z.value]).length
          rw [List.length_append]
          simp [Mem.size])
        (fun b hb => Mem.alloc_get_lt s.mem (.ptrV z.value) b hb)
        ⟨_, Mem.read_root _ _ _ (Mem.alloc_get_last s.mem
          (.ptrV z.value))⟩
        hset1
      have hact2 : ({ call := a.call, dirty := true, post := a.post, typeData := some tidA, value := some ⟨s.mem.cells.length, []⟩, valueType := a.valueType } : Action) = { a with value := some ⟨s.mem.cells.length, []⟩ } := by
        rw [hd, hta]
      refine ⟨_, ?_, hpost⟩
      unfold unwindDirty
      simp only [hgsa', liftO_some, bind, Except.bind, hd,
        eq_self_iff_true, if_true, hpsl, hsetPr, hta, htd, htk, hret,
        hcs, hzP, Mem.alloc, hg4, pure, Except.pure]
      simp only [hact2, hsetC, liftO_some, bind, Except.bind,
        pure, Except.pure]
    case slice =>
      rw [htk] at hk
      obtain ⟨g, hgf, hslots⟩ := hk
      have hgP : ExecState.getFrame { mem := s.mem, stackStore := stP, overStore := s.overStore, stackB := s.stackB, stackIdx := s.stackIdx, curFrame := s.curFrame, curSlot := SlotRef.fixed s.stackB n f.Idx, parentSlot := s.parentSlot, returning := some (s.stackB, n + 1), halting := s.halting, trace := s.trace, phase := s.phase }
          (s.stackB, n + 1) = some g := by
        have e1 := setSlot_fixed_getFrame_ne s s.stackB (n - 1) pj _ _
          hsetP0 (s.stackB, n + 1)
          (by
            intro heq
            have := congrArg Prod.snd heq
            simp only at this
            omega)
        exact e1.trans hgf
      have hm2db : ((s.mem.cells ++
          [MemVal.arrV (List.replicate g.Count (MemVal.structV []))]) ++
          [MemVal.sliceV s.mem.cells.length g.Count]).get?
          s.mem.cells.length =
          some (.arrV (List.replicate g.Count (.structV []))) := by
        simp only [List.get?_eq_getElem?]
        rw [List.getElem?_append_left
          (by rw [List.length_append]; simp)]
        rw [List.getElem?_append_right (le_refl _)]
        simp
      have hag2 : ∀ b, b < s.mem.size →
          ((s.mem.cells ++
            [MemVal.arrV (List.replicate g.Count (MemVal.structV []))]) ++
            [MemVal.sliceV s.mem.cells.length g.Count]).get? b =
          s.mem.cells.get? b := by
        intro b hb
        have hb' : b < s.mem.cells.length := hb
        simp only [List.get?_eq_getElem?]
        rw [List.getElem?_append_left (by rw [List.length_append]; omega)]
        rw [List.getElem?_append_left hb']
      have hslots2 : ∀ k, 0 ≤ k → k < 0 + g.Count →
          ∃ p, ExecState.slotPtr { mem := (⟨(s.mem.cells ++ [MemVal.arrV (List.replicate g.Count (MemVal.structV []))]) ++ [MemVal.sliceV s.mem.cells.length g.Count]⟩ : Mem), stackStore := stP, overStore := s.overStore, stackB := s.stackB, stackIdx := s.stackIdx, curFrame := s.curFrame, curSlot := SlotRef.fixed s.stackB n f.Idx, parentSlot := s.parentSlot, returning := some (s.stackB, n + 1), halting := s.halting, trace := s.trace, phase := s.phase }
            (s.stackB, n + 1) k = some p ∧
          ∃ sl, ExecState.getSlot { mem := (⟨(s.mem.cells ++ [MemVal.arrV (List.replicate g.Count (MemVal.structV []))]) ++ [MemVal.sliceV s.mem.cells.length g.Count]⟩ : Mem), stackStore := stP, overStore := s.overStore, stackB := s.stackB, stackIdx := s.stackIdx, curFrame := s.curFrame, curSlot := SlotRef.fixed s.stackB n f.Idx, parentSlot := s.parentSlot, returning := some (s.stackB, n + 1), halting := s.halting, trace := s.trace, phase := s.phase }
            p = some sl ∧
          ∃ v, sl.value = some v ∧ ∃ w, s.mem.read v = some w := by
        intro k _ hk2
        obtain ⟨p2, hp2, sl, hgsl, v, hvv, w, hww⟩ :=
          hslots k (by omega)
        have hpne : p2 ≠ s.parentSlot := by
          rw [hps]
          rcases slotPtr_fixed_or_over s (s.stackB, n + 1) k p2 hp2 with
            ⟨jj, rfl⟩ | ⟨oid, jj, rfl⟩
          · intro heq
            injection heq with e1 e2 e3
            omega
          · intro heq
            exact SlotRef.noConfusion heq
        refine ⟨p2, ?_, sl, ?_, v, hvv, w, hww⟩
        · have e1 := setSlot_slotPtr s _ _ _ hsetPr (s.stackB, n + 1) k
          exact e1.trans hp2
        · have e1 := setSlot_getSlot_ne s _ _ _ hsetPr p2 hpne
          exact e1.trans hgsl
      obtain ⟨m', hceb, hsz', hne', es', hdb', hlen'⟩ :=
        copyElemsBack_ok s.mem (s.stackB, n + 1) s.mem.cells.length
          (le_refl _) g.Count 0
          { mem := (⟨(s.mem.cells ++ [MemVal.arrV (List.replicate g.Count (MemVal.structV []))]) ++ [MemVal.sliceV s.mem.cells.length g.Count]⟩ : Mem), stackStore := stP, overStore := s.overStore, stackB := s.stackB, stackIdx := s.stackIdx, curFrame := s.curFrame, curSlot := SlotRef.fixed s.stackB n f.Idx, parentSlot := s.parentSlot, returning := some (s.stackB, n + 1), halting := s.halting, trace := s.trace, phase := s.phase }
          (List.replicate g.Count (.structV [])) hm2db
          (by simp) hslots2 hag2
      have hg4 : ExecState.getSlot { mem := m', stackStore := stP, overStore := s.overStore, stackB := s.stackB, stackIdx := s.stackIdx, curFrame := s.curFrame, curSlot := SlotRef.fixed s.stackB n f.Idx, parentSlot := s.parentSlot, returning := some (s.stackB, n + 1), halting := s.halting, trace := s.trace, phase := s.phase }
          (SlotRef.fixed s.stackB n f.Idx) = some a := by
        have e1 := setSlot_getSlot_ne s _ _ _ hsetPr _ hcurneP
        exact e1.trans hgsa'
      obtain ⟨s1, hset1⟩ := setSlot_fixed_some
        { mem := m', stackStore := stP, overStore := s.overStore, stackB := s.stackB, stackIdx := s.stackIdx, curFrame := s.curFrame, curSlot := SlotRef.fixed s.stackB n f.Idx, parentSlot := s.parentSlot, returning := some (s.stackB, n + 1), halting := s.halting, trace := s.trace, phase := s.phase } s.stackB n f.Idx a hg4
        { a with value := some ⟨(s.mem.cells ++
          [MemVal.arrV (List.replicate g.Count (MemVal.structV []))]).length,
          []⟩ }
      have hXr : m'.cells.get? (s.mem.cells ++
          [MemVal.arrV (List.replicate g.Count (MemVal.structV []))]).length =
          some (.sliceV s.mem.cells.length g.Count) := by
        rw [hne' _ (by rw [List.length_append]; simp)]
        show ((s.mem.cells ++
          [MemVal.arrV (List.replicate g.Count (MemVal.structV []))]) ++
          [MemVal.sliceV s.mem.cells.length g.Count]).get? _ = _
        simp only [List.get?_eq_getElem?]
        rw [List.getElem?_append_right (le_refl _)]
        simp
      have hpost := unwindDirty_assemble s
        { mem := m', stackStore := stP, overStore := s.overStore, stackB := s.stackB, stackIdx := s.stackIdx, curFrame := s.curFrame, curSlot := SlotRef.fixed s.stackB n f.Idx, parentSlot := s.parentSlot, returning := some (s.stackB, n + 1), halting := s.halting, trace := s.trace, phase := s.phase } n h1n f.Idx pj a pa stP m'
        (s.mem.cells ++
          [MemVal.arrV (List.replicate g.Count (MemVal.structV []))]).length
        s1 hcs hps hgsa' hpaS hsetP0
        (fun _ => rfl) (fun _ => rfl) (fun _ _ => rfl) rfl rfl rfl rfl
        hcs.symm rfl hret.symm rfl rfl rfl
        (by
          rw [hsz']
          show s.mem.size ≤ ((s.mem.cells ++
            [MemVal.arrV (List.replicate g.Count (MemVal.structV []))]) ++
            [MemVal.sliceV s.mem.cells.length g.Count]).length
          rw [List.length_append, List.length_append]
          simp [Mem.size]
          omega)
        (by
          intro b hb
          have hb' : b < s.mem.cells.length := hb
          exact (hne' b (by omega)).trans (hag2 b hb))
        ⟨_, Mem.read_root m' _ _ hXr⟩
        hset1
      have hact2 : ({ call := a.call, dirty := true, post := a.post, typeData := some tidA, value := some ⟨(s.mem.cells ++ [MemVal.arrV (List.replicate g.Count (MemVal.structV []))]).length, []⟩, valueType := a.valueType } : Action) = { a with value := some ⟨(s.mem.cells ++ [MemVal.arrV (List.replicate g.Count (MemVal.structV []))]).length, []⟩ } := by
        rw [hd, hta]
      refine ⟨_, ?_, hpost⟩
      unfold unwindDirty
      simp only [hgsa', liftO_some, bind, Except.bind, hd,
        eq_self_iff_true, if_true, hpsl, hsetPr, hta, htd, htk, hret,
        hcs, hgP, Mem.alloc, hceb, hg4, pure, Except.pure]
      simp only [hact2, hset1, liftO_some, bind, Except.bind,
        pure, Except.pure]
    case interface =>
      rw [htk] at hk
      obtain ⟨z, hzg, zt, hzt, hcw⟩ := hk
      have hzne : SlotRef.fixed s.stackB (n + 1) 0 ≠ s.parentSlot := by
        rw [hps]
        intro heq
        injection heq with e1 e2 e3
        omega
      have hzP : ExecState.getSlot { mem := s.mem, stackStore := stP, overStore := s.overStore, stackB := s.stackB, stackIdx := s.stackIdx, curFrame := s.curFrame, curSlot := SlotRef.fixed s.stackB n f.Idx, parentSlot := s.parentSlot, returning := some (s.stackB, n + 1), halting := s.halting, trace := s.trace, phase := s.phase }
          (SlotRef.fixed s.stackB (n + 1) 0) = some z :=
        (setSlot_getSlot_ne s _ _ _ hsetPr _ hzne).trans hzg
      have hg4 : ExecState.getSlot { mem := s.mem, stackStore := stP, overStore := s.overStore, stackB := s.stackB, stackIdx := s.stackIdx, curFrame := s.curFrame, curSlot := SlotRef.fixed s.stackB n f.Idx, parentSlot := s.parentSlot, returning := some (s.stackB, n + 1), halting := s.halting, trace := s.trace, phase := s.phase }
          (SlotRef.fixed s.stackB n f.Idx) = some a :=
        (setSlot_getSlot_ne s _ _ _ hsetPr _ hcurneP).trans hgsa'
      obtain ⟨sC, hsetC⟩ := setSlot_fixed_some
        { mem := s.mem, stackStore := stP, overStore := s.overStore, stackB := s.stackB, stackIdx := s.stackIdx, curFrame := s.curFrame, curSlot := SlotRef.fixed s.stackB n f.Idx, parentSlot := s.parentSlot, returning := some (s.stackB, n + 1), halting := s.halting, trace := s.trace, phase := s.phase } s.stackB n f.Idx a hg4
        { a with value := some ⟨s.mem.cells.length, []⟩ }
      have hset1 := setSlot_mem_comm _
        (⟨s.mem.cells ++ [MemVal.intfV zt z.value]⟩ : Mem) _ _ _ hsetC
      have hpost := unwindDirty_assemble s
        { mem := (⟨s.mem.cells ++ [MemVal.intfV zt z.value]⟩ : Mem), stackStore := stP, overStore := s.overStore, stackB := s.stackB, stackIdx := s.stackIdx, curFrame := s.curFrame, curSlot := SlotRef.fixed s.stackB n f.Idx, parentSlot := s.parentSlot, returning := some (s.stackB, n + 1), halting := s.halting, trace := s.trace, phase := s.phase }
        n h1n f.Idx pj a pa stP
        (⟨s.mem.cells ++ [MemVal.intfV zt z.value]⟩ : Mem)
        s.mem.cells.length _ hcs hps hgsa' hpaS hsetP0
        (fun _ => rfl) (fun _ => rfl) (fun _ _ => rfl) rfl rfl rfl rfl
        hcs.symm rfl hret.symm rfl rfl rfl
        (by
          show s.mem.size ≤
            (s.mem.cells ++ [MemVal.intfV zt z.value]).length
          rw [List.length_append]
          simp [Mem.size])
        (fun b hb => Mem.alloc_get_lt s.mem (.intfV zt z.value) b hb)
        ⟨_, Mem.read_root _ _ _ (Mem.alloc_get_last s.mem
          (.intfV zt z.value))⟩
        hset1
      have hact2 : ({ call := a.call, dirty := true, post := a.post, typeData := some tidA, value := some ⟨s.mem.cells.length, []⟩, valueType := a.valueType } : Action) = { a with value := some ⟨s.mem.cells.length, []⟩ } := by
        rw [hd, hta]
      refine ⟨_, ?_, hpost⟩
      unfold unwindDirty
      simp only [hgsa', liftO_some, bind, Except.bind, hd,
        eq_self_iff_true, if_true, hpsl, hsetPr, hta, htd, htk, hret,
        hcs, hzP, hzt, hcw, Mem.alloc, hg4, pure, Except.pure]
      simp only [hact2, hsetC, liftO_some, bind, Except.bind,
        pure, Except.pure]
/-- What one full halting `unwind` step (post callback plus rebuild)
guarantees, relative to the state it started from.  Unlike
`UnwindPost`, the active slot's post callback may change (the callback
can install another one). -/
structure StepPost (s s1 : ExecState) (n : Nat) : Prop where
  phase : s1.phase = .nextSlot
  stackIdx : s1.stackIdx = s.stackIdx
  stackB : s1.stackB = s.stackB
  curFrame : s1.curFrame = s.curFrame
  curSlot : s1.curSlot = s.curSlot
  parentSlot : s1.parentSlot = s.parentSlot
  returning : s1.returning = s.returning
  overStore : s1.overStore = s.overStore
  mem : Mem.ext s.mem s1.mem
  frames : ∀ r' : FrameRef, r' ≠ (s.stackB, n) →
    r' ≠ (s.stackB, n - 1) → s1.getFrame r' = s.getFrame r'
  ptrs : ∀ rr jj p, s.slotPtr rr jj = some p →
    s1.slotPtr rr jj = some p
  slots : ∀ r a0, s.getSlot r = some a0 →
    ∃ a1, s1.getSlot r = some a1 ∧ a1.typeData = a0.typeData ∧
      (r ≠ s.curSlot → a1.post = a0.post) ∧
      (r ≠ s.curSlot → a1.value = a0.value) ∧
      (r ≠ s.curSlot → r ≠ s.parentSlot → a1.dirty = a0.dirty)
  reads : ∀ p, slotReadable s p → slotReadable s1 p
  shapes : ∀ fi' f0, s.getFrame (s.stackB, fi') = some f0 →
    ∃ f1, s1.getFrame (s.stackB, fi') = some f1 ∧ f1.Idx = f0.Idx ∧
      f1.Count = f0.Count ∧ f1.Overflow = f0.Overflow

/-- Compose a benign pre-write (trace push plus at most a rewrite of
the current slot that keeps descriptor, value and dirty bit) with an
`UnwindPost` step. -/
theorem stepPost_compose (s sB s3 : ExecState) (n : Nat)
    (hBidx : sB.stackIdx = s.stackIdx) (hBsb : sB.stackB = s.stackB)
    (hBcf : sB.curFrame = s.curFrame) (hBcs : sB.curSlot = s.curSlot)
    (hBps : sB.parentSlot = s.parentSlot)
    (hBret : sB.returning = s.returning)
    (hBov : sB.overStore = s.overStore) (hBmem : sB.mem = s.mem)
    (hBfr : ∀ r' : FrameRef, r' ≠ (s.stackB, n) →
      sB.getFrame r' = s.getFrame r')
    (hBptr : ∀ rr jj, sB.slotPtr rr jj = s.slotPtr rr jj)
    (hBslots : ∀ r a0, s.getSlot r = some a0 →
      ∃ a1, sB.getSlot r = some a1 ∧ a1.typeData = a0.typeData ∧
        a1.value = a0.value ∧ a1.dirty = a0.dirty ∧
        (r ≠ s.curSlot → a1 = a0))
    (hBshapes : ∀ fi' f0, s.getFrame (s.stackB, fi') = some f0 →
      ∃ f1, sB.getFrame (s.stackB, fi') = some f1 ∧ f1.Idx = f0.Idx ∧
        f1.Count = f0.Count ∧ f1.Overflow = f0.Overflow)
    (hpost : UnwindPost sB s3 n) : StepPost s s3 n := by
  refine ⟨hpost.phase, hpost.stackIdx.trans hBidx,
    hpost.stackB.trans hBsb, hpost.curFrame.trans hBcf,
    hpost.curSlot.trans hBcs, hpost.parentSlot.trans hBps,
    hpost.returning.trans hBret, hpost.overStore.trans hBov,
    ?_, ?_, ?_, ?_, ?_, ?_⟩
  · rw [← hBmem]
    exact hpost.mem
  · intro r' h1 h2
    have e1 := hpost.frames r'
      (by rw [hBsb]; exact h1) (by rw [hBsb]; exact h2)
    exact e1.trans (hBfr r' h1)
  · intro rr jj p hp
    refine hpost.ptrs rr jj p ?_
    rw [hBptr]
    exact hp
  · intro r a0 h0
    obtain ⟨aB, hgB, hBtd, hBv, hBd, hBeq⟩ := hBslots r a0 h0
    obtain ⟨a1, hg1, h1td, h1p, h1v, h1d⟩ := hpost.slots r aB hgB
    refine ⟨a1, hg1, h1td.trans hBtd, ?_, ?_, ?_⟩
    · intro hne
      rw [(hBeq hne : aB = a0)] at h1p
      exact h1p
    · intro hne
      rw [h1v (by rw [hBcs]; exact hne)]
      exact hBv
    · intro hne hne2
      rw [h1d (by rw [hBcs]; exact hne)
        (by rw [hBps]; exact hne2)]
      exact hBd
  · intro p hrd
    obtain ⟨sl, hg, v, hv, w, hw⟩ := hrd
    obtain ⟨aB, hgB, _, hBv, _, _⟩ := hBslots p sl hg
    refine hpost.reads p ⟨aB, hgB, v, hBv.trans hv, w, ?_⟩
    rw [hBmem]
    exact hw
  · intro fi' f0 h0
    obtain ⟨fB, hfB, hBi, hBc, hBo⟩ := hBshapes fi' f0 h0
    obtain ⟨f1, hf1, h1i, h1c, h1o⟩ := hpost.shapes fi' fB
      (by rw [hBsb]; exact hfB)
    exact ⟨f1, by rw [hBsb] at hf1; exact hf1, h1i.trans hBi,
      h1c.trans hBc, h1o.trans hBo⟩

/-- A `StepPost` step preserves `levelOK` at every level. -/
theorem levelOK_stepPost (s s3 : ExecState) (n l : Nat)
    (hsp : StepPost s s3 n) (h : levelOK s l) : levelOK s3 l := by
  obtain ⟨f, hf, hidx, a, ha, htd⟩ := h
  obtain ⟨f1, hf1, hIdx, _, _⟩ := hsp.shapes l f hf
  obtain ⟨a1, hga1, h1td, _, _, _⟩ := hsp.slots _ a
    (by rw [getSlot_frame s s.stackB l f hf]; exact ha)
  refine ⟨f1, by rw [hsp.stackB]; exact hf1,
    by rw [hIdx]; exact hidx, a1, ?_, by rw [h1td]; exact htd⟩
  rw [hIdx, ← getSlot_frame s3 s.stackB l f1 hf1 f.Idx]
  exact hga1

/-- The slot clause of a `StepPost` keeps a slot's `slotReadable`
status; convenience restatement for already-identified slots. -/
theorem stepPost_activePtr (s s3 : ExecState) (n l : Nat)
    (hsp : StepPost s s3 n) (p : SlotRef)
    (hp : s.activePtr (s.stackB, l) = some p)
    (hok : levelOK s l) :
    s3.activePtr (s.stackB, l) = some p := by
  obtain ⟨f, hf, hidx, a, ha, htd⟩ := hok
  refine activePtr_transfer s s3 (s.stackB, l) ?_ ?_ p hp
  · intro f0 hf0
    obtain ⟨f1, hf1, h1i, _, _⟩ := hsp.shapes l f0 hf0
    exact ⟨f1, hf1, h1i⟩
  · intro jj pp hpp
    exact hsp.ptrs (s.stackB, l) jj pp hpp

/-- One `unwind` step of a halting cascade: the active slot's pending
post (if any) runs benignly and is traced, any dirty value is rebuilt,
and the machine moves to `nextSlot` with the cursor registers intact. -/
theorem halting_unwind_step (e : Engine) (vt : VisTable)
    (ct : CallTable) (fn : Nat) (s : ExecState) (n : Nat) (h1n : 1 ≤ n)
    (hph : s.phase = .unwind) (hh : s.halting = true)
    (hOKn : levelOK s n)
    (hcur : s.activePtr (s.stackB, n) = some s.curSlot)
    (hpar : ∃ pj pa, s.parentSlot = SlotRef.fixed s.stackB (n - 1) pj ∧
      s.getSlot (SlotRef.fixed s.stackB (n - 1) pj) = some pa)
    (hbp : ∀ a, s.getSlot s.curSlot = some a → ∀ pi, a.post = some pi →
      BenignEntry vt pi)
    (hdt : ∀ a, s.getSlot s.curSlot = some a → a.dirty = true →
      s.returning = some (s.stackB, n + 1) ∧ levelRecon e s n) :
    ∃ s1, step e vt ct fn s = .ok (.next s1) ∧ s1.halting = true ∧
      s1.trace = s.trace ++ activePostEvent s n ∧ levelOK s1 n ∧
      StepPost s s1 n := by
  obtain ⟨f, hf, hidx, a, ha, htd⟩ := hOKn
  have hap0 : s.activePtr (s.stackB, n) =
      some (SlotRef.fixed s.stackB n f.Idx) := by
    unfold ExecState.activePtr ExecState.slotPtr
    rw [hf]
    simp [hidx]
  have hcs : s.curSlot = SlotRef.fixed s.stackB n f.Idx :=
    Option.some.inj (hcur.symm.trans hap0)
  have hgsa : s.getSlot s.curSlot = some a := by
    rw [hcs, getSlot_frame s s.stackB n f hf f.Idx]
    exact ha
  have hgsa' : s.getSlot (SlotRef.fixed s.stackB n f.Idx) = some a := by
    rw [← hcs]
    exact hgsa
  obtain ⟨pj, pa, hps, hpaS⟩ := hpar
  cases hta : a.typeData with
  | none => exact absurd hta htd
  | some tidA =>
  have hape : activePostEvent s n = (match a.post with
      | some _ => [Event.post tidA a.value]
      | none => []) := by
    unfold activePostEvent
    simp only [hf, ha, hta]
    cases a.post <;> rfl
  cases hp : a.post with
  | none =>
    obtain ⟨s1, huw, hpost⟩ := unwindDirty_ok e s n h1n f a tidA pj pa
      hf hidx ha hta hcs hps hpaS
      (fun hdirt => hdt a hgsa hdirt)
    have hstep : step e vt ct fn s = .ok (.next s1) := by
      unfold step
      rw [hph]
      simp only [stepUnwind, hgsa, liftO_some, bind, Except.bind, hp,
        huw]
    have hsp : StepPost s s1 n :=
      stepPost_compose s s s1 n rfl rfl rfl rfl rfl rfl rfl rfl
        (fun _ _ => rfl) (fun _ _ => rfl)
        (fun r a0 h0 => ⟨a0, h0, rfl, rfl, rfl, fun _ => rfl⟩)
        (fun _ f0 h0 => ⟨f0, h0, rfl, rfl, rfl⟩) hpost
    refine ⟨s1, hstep, hpost.halting.trans hh, ?_,
      levelOK_stepPost s s1 n n hsp ⟨f, hf, hidx, a, ha, htd⟩, hsp⟩
    rw [hpost.trace, hape, hp]
    simp
  | some pi =>
    have hbe := hbp a hgsa pi hp
    have hberr := (hbe tidA a.value s.mem).1
    have hbrep := (hbe tidA a.value s.mem).2
    have key : ∃ a2, a.apply e (vt pi tidA a.value s.mem) pa.typeData =
        .ok a2 ∧ a2.typeData = a.typeData ∧ a2.value = a.value ∧
        a2.dirty = a.dirty := by
      rw [apply_benign e a _ pa.typeData hberr hbrep]
      cases hdp : (vt pi tidA a.value s.mem).post
      · exact ⟨a, rfl, rfl, rfl, rfl⟩
      · exact ⟨_, rfl, rfl, rfl, rfl⟩
    obtain ⟨a2, happ, h2td, h2v, h2d⟩ := key
    have hgsaP : (s.push (.post tidA a.value)).getSlot s.curSlot =
        some a := hgsa
    obtain ⟨s2, hset2⟩ := setSlot_fixed_some (s.push (.post tidA a.value))
      s.stackB n f.Idx a (by rw [← hcs]; exact hgsaP) a2
    obtain ⟨st2, hsh2⟩ :=
      setSlot_fixed_shape _ s.stackB n f.Idx a2 s2 hset2
    have h2h : s2.halting = true := by
      rw [hsh2]
      exact hh
    have h2sb : s2.stackB = s.stackB := by rw [hsh2]; rfl
    have h2idx : s2.stackIdx = s.stackIdx := by rw [hsh2]; rfl
    have h2cf : s2.curFrame = s.curFrame := by rw [hsh2]; rfl
    have h2cs : s2.curSlot = s.curSlot := by rw [hsh2]; rfl
    have h2ps : s2.parentSlot = s.parentSlot := by rw [hsh2]; rfl
    have h2ret : s2.returning = s.returning := by rw [hsh2]; rfl
    have h2ov : s2.overStore = s.overStore := by rw [hsh2]; rfl
    have h2mem : s2.mem = s.mem := by rw [hsh2]; rfl
    have h2tr : s2.trace = s.trace ++ [Event.post tidA a.value] := by
      rw [hsh2]
      rfl
    have hg2 : s2.getSlot (SlotRef.fixed s.stackB n f.Idx) = some a2 :=
      setSlot_fixed_getSlot_self _ s.stackB n f.Idx a2 s2 hset2
    have h2fr : ∀ r' : FrameRef, r' ≠ (s.stackB, n) →
        s2.getFrame r' = s.getFrame r' := fun r' hne =>
      setSlot_fixed_getFrame_ne _ s.stackB n f.Idx a2 s2 hset2 r' hne
    have h2ptr : ∀ rr jj, s2.slotPtr rr jj = s.slotPtr rr jj :=
      fun rr jj => setSlot_slotPtr _ _ _ s2 hset2 rr jj
    have h2slots : ∀ r a0, s.getSlot r = some a0 →
        ∃ a1, s2.getSlot r = some a1 ∧ a1.typeData = a0.typeData ∧
          a1.value = a0.value ∧ a1.dirty = a0.dirty ∧
          (r ≠ s.curSlot → a1 = a0) := by
      intro r a0 h0
      by_cases hc : r = SlotRef.fixed s.stackB n f.Idx
      · subst hc
        obtain rfl : a0 = a := Option.some.inj (h0.symm.trans hgsa')
        exact ⟨a2, hg2, h2td, h2v, h2d,
          fun hne => absurd hcs.symm hne⟩
      · have e1 := setSlot_getSlot_ne _ _ _ s2 hset2 r hc
        exact ⟨a0, e1.trans h0, rfl, rfl, rfl, fun _ => rfl⟩
    have hff2 : ∃ f2, s2.getFrame (s.stackB, n) = some f2 ∧
        f2.Idx = f.Idx ∧ f2.Count = f.Count ∧
        f2.Overflow = f.Overflow ∧
        f2.Slots.get? f.Idx = some a2 := by
      obtain ⟨f0, hf0, hff⟩ :=
        setSlot_fixed_getFrame_self _ s.stackB n f.Idx a2 s2 hset2
      obtain rfl : f0 = f := Option.some.inj (hf0.symm.trans hf)
      refine ⟨_, hff, rfl, rfl, rfl, ?_⟩
      have hlen : f0.Idx < f0.Slots.length := by
        simp only [List.get?_eq_getElem?] at ha
        exact (List.getElem?_eq_some_iff.mp ha).1
      simp only [List.get?_eq_getElem?]
      rw [List.getElem?_set_self (by simpa using hlen)]
    obtain ⟨f2, hf2, h2fi, h2fc, h2fo, ha2f⟩ := hff2
    have h2shapes : ∀ fi' f0, s.getFrame (s.stackB, fi') = some f0 →
        ∃ f1, s2.getFrame (s.stackB, fi') = some f1 ∧ f1.Idx = f0.Idx ∧
          f1.Count = f0.Count ∧ f1.Overflow = f0.Overflow := by
      intro fi' f0 h0
      by_cases hc : fi' = n
      · subst hc
        obtain rfl : f0 = f := Option.some.inj (h0.symm.trans hf)
        exact ⟨f2, hf2, h2fi, h2fc, h2fo⟩
      · refine ⟨f0, ?_, rfl, rfl, rfl⟩
        rw [h2fr (s.stackB, fi')
          (fun heq => hc (congrArg Prod.snd heq))]
        exact h0
    have hrec2 : a2.dirty = true →
        s2.returning = some (s2.stackB, n + 1) ∧ levelRecon e s2 n := by
      intro h2dirty
      have had : a.dirty = true := by rw [← h2d]; exact h2dirty
      obtain ⟨hret, hlr⟩ := hdt a hgsa had
      constructor
      · rw [h2ret, h2sb]
        exact hret
      · refine levelRecon_transfer e s s2 n h2sb
          ⟨_, hap0, a, hgsa'⟩ ?_ ?_ (by rw [h2mem]; exact Mem.ext_refl _)
          ?_ ?_ ?_ ?_ hlr
        · intro p hp2
          refine activePtr_transfer s s2 (s.stackB, n) ?_ ?_ p hp2
          · intro f0 hf0
            obtain rfl : f0 = f := Option.some.inj (hf0.symm.trans hf)
            exact ⟨f2, hf2, h2fi⟩
          · intro jj pp hpp
            rw [h2ptr]
            exact hpp
        · intro p a0 hp2 hga0
          obtain rfl : p = SlotRef.fixed s.stackB n f.Idx :=
            Option.some.inj (hp2.symm.trans hap0)
          obtain rfl : a0 = a := Option.some.inj (hga0.symm.trans hgsa')
          exact ⟨a2, hg2, h2td, h2v⟩
        · intro jj p hp2
          rw [h2ptr]
          exact hp2
        · intro p hrd
          obtain ⟨sl, hg, v, hv, w, hw⟩ := hrd
          obtain ⟨a1, hg1, _, h1v, _, _⟩ := h2slots p sl hg
          exact ⟨a1, hg1, v, h1v.trans hv, w, by rw [h2mem]; exact hw⟩
        · intro z hz
          have hzne : SlotRef.fixed s.stackB (n + 1) 0 ≠
              SlotRef.fixed s.stackB n f.Idx := by
            intro heq
            injection heq with e1 e2 e3
            omega
          have e1 := setSlot_getSlot_ne _ _ _ s2 hset2 _ hzne
          exact ⟨z, e1.trans hz, rfl⟩
        · intro g hg
          refine ⟨g, ?_, rfl⟩
          rw [h2fr (s.stackB, n + 1)
            (by
              intro heq
              have := congrArg Prod.snd heq
              simp only at this
              omega)]
          exact hg
    obtain ⟨s3, huw3, hpost3⟩ := unwindDirty_ok e s2 n h1n f2 a2 tidA
      pj pa (by rw [h2sb]; exact hf2) (by rw [h2fi]; exact hidx)
      (by rw [h2fi]; exact ha2f) (h2td.trans hta)
      (by rw [h2cs, h2sb, h2fi]; exact hcs)
      (by rw [h2ps, h2sb]; exact hps)
      (by
        rw [h2sb]
        have hpne : SlotRef.fixed s.stackB (n - 1) pj ≠
            SlotRef.fixed s.stackB n f.Idx := by
          intro heq
          injection heq with e1 e2 e3
          omega
        exact (setSlot_getSlot_ne _ _ _ s2 hset2 _ hpne).trans hpaS)
      hrec2
    have hpaP : (s.push (.post tidA a.value)).getSlot
        (s.push (.post tidA a.value)).parentSlot = some pa := by
      show s.getSlot s.parentSlot = some pa
      rw [hps]
      exact hpaS
    have hsetP2 : (s.push (.post tidA a.value)).setSlot
        (s.push (.post tidA a.value)).curSlot a2 = some s2 := by
      show (s.push (.post tidA a.value)).setSlot s.curSlot a2 = some s2
      rw [hcs]
      exact hset2
    have hs3 : (if (vt pi tidA a.value s.mem).halt then
        { s2 with halting := true } else s2) = s2 := by
      split
      · cases s2
        simp only at h2h
        rw [h2h]
      · rfl
    have hstep : step e vt ct fn s = .ok (.next s3) := by
      unfold step
      rw [hph]
      simp only [stepUnwind, hgsa, liftO_some, bind, Except.bind, hp,
        hta, hpaP, happ, hsetP2, hs3, huw3]
    have hsp : StepPost s s3 n :=
      stepPost_compose s s2 s3 n h2idx h2sb h2cf h2cs h2ps h2ret h2ov
        h2mem h2fr h2ptr h2slots h2shapes hpost3
    refine ⟨s3, hstep, hpost3.halting.trans h2h, ?_,
      levelOK_stepPost s s3 n n hsp ⟨f, hf, hidx, a, ha, htd⟩, hsp⟩
    rw [hpost3.trace, h2tr, hape, hp]
/-- A `StepPost` step preserves the active slot of any level other than
the current one: frame shape, and the slot's descriptor, post and
value. -/
theorem stepPost_activeSlot (s s3 : ExecState) (n l : Nat)
    (hsp : StepPost s s3 n) (f : Frame) (a : Action)
    (hf : s.getFrame (s.stackB, l) = some f)
    (ha : f.Slots.get? f.Idx = some a)
    (hne : SlotRef.fixed s.stackB l f.Idx ≠ s.curSlot) :
    ∃ f1, s3.getFrame (s.stackB, l) = some f1 ∧ f1.Idx = f.Idx ∧
      f1.Count = f.Count ∧ f1.Overflow = f.Overflow ∧
      ∃ a1, f1.Slots.get? f1.Idx = some a1 ∧
        a1.typeData = a.typeData ∧ a1.post = a.post ∧
        a1.value = a.value := by
  obtain ⟨f1, hf1, h1i, h1c, h1o⟩ := hsp.shapes l f hf
  have hga : s.getSlot (.fixed s.stackB l f.Idx) = some a := by
    rw [getSlot_frame s s.stackB l f hf]
    exact ha
  obtain ⟨a1, hga1, h1td, h1p, h1v, _⟩ := hsp.slots _ a hga
  refine ⟨f1, hf1, h1i, h1c, h1o, a1, ?_, h1td, h1p hne, h1v hne⟩
  rw [h1i, ← getSlot_frame s3 s.stackB l f1 hf1 f.Idx]
  exact hga1

/-- A `StepPost` step leaves the pending-post event of every other
level unchanged. -/
theorem activePostEvent_stepPost (s s3 : ExecState) (n l : Nat)
    (hsp : StepPost s s3 n) (hok : levelOK s l)
    (hne : ∀ j, SlotRef.fixed s.stackB l j ≠ s.curSlot) :
    activePostEvent s3 l = activePostEvent s l := by
  obtain ⟨f, hf, hidx, a, ha, htd⟩ := hok
  obtain ⟨f1, hf1, h1i, _, _, a1, ha1, h1td, h1p, h1v⟩ :=
    stepPost_activeSlot s s3 n l hsp f a hf ha (hne f.Idx)
  exact activePostEvent_eq s s3 l f f1 a a1 hsp.stackB hf hf1 h1i
    ha ha1 h1td h1v h1p

/-- A `StepPost` step preserves the reconstruction preconditions of
every level other than the current one. -/
theorem levelRecon_stepPost (e : Engine) (s s3 : ExecState) (n l : Nat)
    (hsp : StepPost s s3 n) (hok : levelOK s l) (hln : l ≠ n)
    (hcs : ∃ jN, s.curSlot = SlotRef.fixed s.stackB n jN)
    (h : levelRecon e s l) : levelRecon e s3 l := by
  obtain ⟨jN, hcsN⟩ := hcs
  obtain ⟨f, hf, hap, a, hga, _⟩ := levelOK_activePtr s l hok
  have hne : SlotRef.fixed s.stackB l f.Idx ≠ s.curSlot := by
    rw [hcsN]
    intro hj
    injection hj with h1 h2 h3
    exact hln h2
  refine levelRecon_transfer e s s3 l hsp.stackB
    ⟨_, hap, a, hga⟩ (fun p hp => stepPost_activePtr s s3 n l hsp p hp hok)
    ?_ hsp.mem (fun j p hp => hsp.ptrs (s.stackB, l + 1) j p hp)
    hsp.reads ?_ ?_ h
  · intro p a0 hp ha0
    obtain rfl : p = SlotRef.fixed s.stackB l f.Idx :=
      Option.some.inj (hp.symm.trans hap)
    obtain ⟨a1, hga1, h1td, _, h1v, _⟩ := hsp.slots _ a0 ha0
    exact ⟨a1, hga1, h1td, h1v hne⟩
  · intro zc hzc
    obtain ⟨z1, hz1, h1td, _, _, _⟩ := hsp.slots _ zc hzc
    exact ⟨z1, hz1, h1td⟩
  · intro g hg
    obtain ⟨g1, hg1, _, h1c, _⟩ := hsp.shapes (l + 1) g hg
    exact ⟨g1, hg1, h1c⟩

/-- The reconstruction preconditions of a level survive a state change
that keeps the memory and every slot, and every frame except one whose
count and overflow handle are still preserved. -/
theorem levelRecon_keep (e : Engine) (s s4 : ExecState) (l bad : Nat)
    (hlbad : l ≠ bad) (hsb : s4.stackB = s.stackB)
    (hmem : s4.mem = s.mem)
    (hslots : ∀ r : SlotRef, s4.getSlot r = s.getSlot r)
    (hfr : ∀ fi' : Nat, fi' ≠ bad →
      s4.getFrame (s.stackB, fi') = s.getFrame (s.stackB, fi'))
    (hshape : ∀ f0, s.getFrame (s.stackB, bad) = some f0 →
      ∃ f1, s4.getFrame (s.stackB, bad) = some f1 ∧
        f1.Count = f0.Count ∧ f1.Overflow = f0.Overflow)
    (hok : levelOK s l) (h : levelRecon e s l) : levelRecon e s4 l := by
  obtain ⟨f, hf, hap, a, hga, _⟩ := levelOK_activePtr s l hok
  have hfrS : ∀ fi', fi' ≠ bad → ∀ f0,
      s.getFrame (s.stackB, fi') = some f0 →
      ∃ f1, s4.getFrame (s.stackB, fi') = some f1 ∧ f1.Idx = f0.Idx ∧
        f1.Count = f0.Count ∧ f1.Overflow = f0.Overflow := by
    intro fi' hne f0 h0
    refine ⟨f0, ?_, rfl, rfl, rfl⟩
    rw [hfr fi' hne]
    exact h0
  refine levelRecon_transfer e s s4 l hsb ⟨_, hap, a, hga⟩ ?_ ?_
    (by rw [hmem]; exact Mem.ext_refl _) ?_ ?_ ?_ ?_ h
  · intro p hp
    refine activePtr_transfer s s4 (s.stackB, l) ?_ ?_ p hp
    · intro f0 h0
      obtain ⟨f1, hf1, h1i, _, _⟩ := hfrS l hlbad f0 h0
      exact ⟨f1, hf1, h1i⟩
    · intro jj pp hpp
      refine slotPtr_transfer s s4 (s.stackB, l) ?_ jj pp hpp
      intro f0 h0
      obtain ⟨f1, hf1, _, _, h1o⟩ := hfrS l hlbad f0 h0
      exact ⟨f1, hf1, h1o⟩
  · intro p a0 hp ha0
    exact ⟨a0, by rw [hslots]; exact ha0, rfl, rfl⟩
  · intro j p hp
    refine slotPtr_transfer s s4 (s.stackB, l + 1) ?_ j p hp
    intro f0 h0
    by_cases hc : l + 1 = bad
    · subst hc
      obtain ⟨f1, hf1, _, h1o⟩ := hshape f0 h0
      exact ⟨f1, hf1, h1o⟩
    · obtain ⟨f1, hf1, _, _, h1o⟩ := hfrS (l + 1) hc f0 h0
      exact ⟨f1, hf1, h1o⟩
  · intro p hr
    obtain ⟨sl, hg, v, hv, w, hw⟩ := hr
    exact ⟨sl, by rw [hslots]; exact hg, v, hv, w,
      by rw [hmem]; exact hw⟩
  · intro zc hzc
    exact ⟨zc, by rw [hslots]; exact hzc, rfl⟩
  · intro g hg
    by_cases hc : l + 1 = bad
    · subst hc
      obtain ⟨g1, hg1, h1c, _⟩ := hshape g hg
      exact ⟨g1, hg1, h1c⟩
    · obtain ⟨g1, hg1, _, h1c, _⟩ := hfrS (l + 1) hc g hg
      exact ⟨g1, hg1, h1c⟩

/-- The `nextSlot` step of a halting cascade at the top frame
(`stackIdx = 1`): the machine returns the root slot's descriptor, value
and dirty flag with no error, leaving the trace and the root slot
unchanged. -/
theorem halting_next_return (e : Engine) (vt : VisTable)
    (ct : CallTable) (fn : Nat) (s : ExecState) (z : Action)
    (tid0 : TypeID) (hph : s.phase = .nextSlot) (hh : s.halting = true)
    (hn : s.stackIdx = 1) (hcf : s.curFrame = (s.stackB, 1))
    (hOK1 : levelOK s 1)
    (hz : s.getSlot (.fixed s.stackB 1 0) = some z)
    (hztd : z.typeData = some tid0) :
    ∃ s', step e vt ct fn s =
        .ok (.ret ⟨tid0, z.value, z.dirty, none⟩ s') ∧
      s'.trace = s.trace ∧
      s'.getSlot (.fixed s.stackB 1 0) = some z := by
  obtain ⟨f1, hf1, hidx1, a1, ha1, _⟩ := hOK1
  have hf1' : s.getFrame s.curFrame = some f1 := by rw [hcf]; exact hf1
  obtain ⟨s2, hset2⟩ :=
    setFrame_some s s.curFrame f1 { f1 with Idx := f1.Idx + 1 } hf1'
  obtain ⟨st, hshape⟩ := setFrame_shape s s.curFrame _ s2 hset2
  have hh2 : s2.halting = true := by rw [hshape]; exact hh
  have hsi2 : s2.stackIdx = s.stackIdx := by rw [hshape]
  have hgsall : ∀ r' : SlotRef, s2.getSlot r' = s.getSlot r' :=
    setFrame_getSlot_slots_eq s s.curFrame f1
      { f1 with Idx := f1.Idx + 1 } s2 hf1' hset2 rfl
  have hz2 : s2.getSlot (.fixed s.stackB 1 0) = some z := by
    rw [hgsall]
    exact hz
  refine ⟨s2, ?_, by rw [hshape], hz2⟩
  unfold step
  rw [hph]
  simp only [stepNext, hf1', liftO_some, bind, Except.bind, hset2]
  rw [if_pos (Or.inr hh2)]
  rw [if_pos (hsi2.trans hn)]
  have hz2' : s2.getSlot (.fixed s2.curFrame.1 s2.curFrame.2 0) =
      some z := by
    rw [show s2.curFrame = s.curFrame from by rw [hshape], hcf]
    exact hz2
  simp only [hz2', liftO_some, bind, Except.bind, hztd]
  rfl

/-- The `nextSlot` step of a halting cascade below the top
(`stackIdx ≥ 2`): the frame pops — the machine re-enters `unwind` one
level down with coherent cursor registers and the `returning` pointer
set to the popped frame, and every slot of every frame is left
untouched. -/
theorem halting_next_pop (e : Engine) (vt : VisTable) (ct : CallTable)
    (fn : Nat) (s : ExecState) (hph : s.phase = .nextSlot)
    (hh : s.halting = true) (h2n : 2 ≤ s.stackIdx)
    (hcf : s.curFrame = (s.stackB, s.stackIdx))
    (hOKn : levelOK s s.stackIdx) (hOKm : levelOK s (s.stackIdx - 1))
    (hOKp : levelOK s (s.stackIdx - 2)) :
    ∃ s4, step e vt ct fn s = .ok (.next s4) ∧
      s4.phase = .unwind ∧ s4.halting = true ∧
      s4.stackIdx = s.stackIdx - 1 ∧ s4.stackB = s.stackB ∧
      s4.curFrame = (s.stackB, s.stackIdx - 1) ∧
      s4.activePtr (s.stackB, s.stackIdx - 1) = some s4.curSlot ∧
      (∃ pj pa,
        s4.parentSlot = SlotRef.fixed s.stackB (s.stackIdx - 2) pj ∧
        s4.getSlot (SlotRef.fixed s.stackB (s.stackIdx - 2) pj) =
          some pa) ∧
      s4.returning = some (s.stackB, s.stackIdx) ∧
      s4.trace = s.trace ∧ s4.mem = s.mem ∧
      (∀ r' : FrameRef, r' ≠ (s.stackB, s.stackIdx) →
        s4.getFrame r' = s.getFrame r') ∧
      (∀ f0, s.getFrame (s.stackB, s.stackIdx) = some f0 →
        ∃ f1, s4.getFrame (s.stackB, s.stackIdx) = some f1 ∧
          f1.Count = f0.Count ∧ f1.Overflow = f0.Overflow) ∧
      (∀ r' : SlotRef, s4.getSlot r' = s.getSlot r') := by
  obtain ⟨f1, hf1, hidx1, a1, ha1, _⟩ := hOKn
  have hf1' : s.getFrame s.curFrame = some f1 := by rw [hcf]; exact hf1
  obtain ⟨s2, hset2⟩ :=
    setFrame_some s s.curFrame f1 { f1 with Idx := f1.Idx + 1 } hf1'
  obtain ⟨st, hshape⟩ := setFrame_shape s s.curFrame _ s2 hset2
  have hh2 : s2.halting = true := by rw [hshape]; exact hh
  have hsi2 : s2.stackIdx = s.stackIdx := by rw [hshape]
  have hsb2 : s2.stackB = s.stackB := by rw [hshape]
  have hgsall : ∀ r' : SlotRef, s2.getSlot r' = s.getSlot r' :=
    setFrame_getSlot_slots_eq s s.curFrame f1
      { f1 with Idx := f1.Idx + 1 } s2 hf1' hset2 rfl
  have hgfne : ∀ r' : FrameRef, r' ≠ (s.stackB, s.stackIdx) →
      s2.getFrame r' = s.getFrame r' := by
    intro r' hne
    refine setFrame_getFrame_ne s s.curFrame _ s2 hset2 r' ?_
    rw [hcf]
    exact hne
  have hOKm2 : levelOK s2 (s.stackIdx - 1) :=
    levelOK_transfer s s2 _ hsb2
      (hgfne (s.stackB, s.stackIdx - 1)
        (fun hc => by
          have := congrArg Prod.snd hc
          simp only at this
          omega)) hOKm
  have hOKp2 : levelOK s2 (s.stackIdx - 2) :=
    levelOK_transfer s s2 _ hsb2
      (hgfne (s.stackB, s.stackIdx - 2)
        (fun hc => by
          have := congrArg Prod.snd hc
          simp only at this
          omega)) hOKp
  obtain ⟨fm, hfm, hapm, am, ham, hamtd⟩ :=
    levelOK_activePtr s2 (s.stackIdx - 1) hOKm2
  obtain ⟨fp, hfp, happ2, ap, hap2, _⟩ :=
    levelOK_activePtr s2 (s.stackIdx - 2) hOKp2
  have hself := setFrame_getFrame_self s s.curFrame
    { f1 with Idx := f1.Idx + 1 } s2 hset2
  rw [hcf] at hself
  refine ⟨{ s2 with
      returning := some s2.curFrame
      stackIdx := s2.stackIdx - 1
      curFrame := (s2.stackB, s2.stackIdx - 1)
      curSlot := SlotRef.fixed s2.stackB (s.stackIdx - 1) fm.Idx
      parentSlot := SlotRef.fixed s2.stackB (s.stackIdx - 2) fp.Idx
      phase := .unwind }, ?_, rfl, hh2, ?_, ?_, ?_, ?_, ?_, ?_, ?_,
    ?_, ?_, ?_, ?_⟩
  · unfold step
    rw [hph]
    simp only [stepNext, hf1', liftO_some, bind, Except.bind, hset2]
    rw [if_pos (Or.inr hh2)]
    rw [if_neg (fun hc => by rw [hsi2] at hc; omega)]
    have hapm' : ({ s2 with
        returning := some s2.curFrame
        stackIdx := s2.stackIdx - 1 } : ExecState).activePtr
        (s2.stackB, s2.stackIdx - 1) =
        some (SlotRef.fixed s2.stackB (s.stackIdx - 1) fm.Idx) := by
      rw [hsi2]
      exact hapm
    have happ2' : ({ s2 with
        returning := some s2.curFrame
        stackIdx := s2.stackIdx - 1 } : ExecState).activePtr
        (s2.stackB, s2.stackIdx - 1 - 1) =
        some (SlotRef.fixed s2.stackB (s.stackIdx - 2) fp.Idx) := by
      rw [hsi2]
      show s2.activePtr (s2.stackB, s.stackIdx - 1 - 1) = _
      rw [show s.stackIdx - 1 - 1 = s.stackIdx - 2 from by omega]
      exact happ2
    simp only [hapm', happ2', liftO_some, bind, Except.bind]
    rw [hsi2]
    rfl
  · show s2.stackIdx - 1 = s.stackIdx - 1
    rw [hsi2]
  · exact hsb2
  · show (s2.stackB, s2.stackIdx - 1) = (s.stackB, s.stackIdx - 1)
    rw [hsb2, hsi2]
  · show s2.activePtr (s.stackB, s.stackIdx - 1) = _
    rw [← hsb2]
    exact hapm
  · refine ⟨fp.Idx, ap, ?_, ?_⟩
    · show SlotRef.fixed s2.stackB (s.stackIdx - 2) fp.Idx =
        SlotRef.fixed s.stackB (s.stackIdx - 2) fp.Idx
      rw [hsb2]
    · show s2.getSlot
        (SlotRef.fixed s.stackB (s.stackIdx - 2) fp.Idx) = some ap
      rw [← hsb2]
      exact hap2
  · show some s2.curFrame = some (s.stackB, s.stackIdx)
    rw [show s2.curFrame = s.curFrame from by rw [hshape], hcf]
  · show s2.trace = s.trace
    rw [hshape]
  · show s2.mem = s.mem
    rw [hshape]
  · intro r' hne
    show s2.getFrame r' = s.getFrame r'
    exact hgfne r' hne
  · intro f0 h0
    have hfe : f0 = f1 := Option.some.inj (h0.symm.trans hf1)
    refine ⟨{ f1 with Idx := f1.Idx + 1 }, hself, by rw [hfe],
      by rw [hfe]⟩
  · intro r'
    show s2.getSlot r' = s.getSlot r'
    exact hgsall r'

/-- The halting cascade, in general: from any halting `unwind` state
whose levels are well-formed — the registered posts of the active slots
are benign, and any dirty active slot satisfies the reconstruction
preconditions — the run emits exactly the pending posts of the active
slots from the top of the stack down to the root, rebuilds any dirty
levels, and returns the final root slot's value and dirty flag with no
error. -/
theorem halting_cascade_general (e : Engine) (vt : VisTable)
    (ct : CallTable) (fn : Nat) :
    ∀ (n : Nat) (s : ExecState) (z : Action) (tid0 : TypeID),
      s.stackIdx = n → 1 ≤ n → s.phase = .unwind → s.halting = true →
      (∀ l, l ≤ n → levelOK s l) →
      (∀ l, 1 ≤ l → l ≤ n → ∀ f a, s.getFrame (s.stackB, l) = some f →
        f.Slots.get? f.Idx = some a → ∀ pi, a.post = some pi →
        BenignEntry vt pi) →
      (∀ l, 1 ≤ l → l < n → levelRecon e s l) →
      s.curFrame = (s.stackB, n) →
      s.activePtr (s.stackB, n) = some s.curSlot →
      (∃ pj pa, s.parentSlot = SlotRef.fixed s.stackB (n - 1) pj ∧
        s.getSlot (SlotRef.fixed s.stackB (n - 1) pj) = some pa) →
      (∀ a, s.getSlot s.curSlot = some a → a.dirty = true →
        s.returning = some (s.stackB, n + 1) ∧ levelRecon e s n) →
      s.getSlot (.fixed s.stackB 1 0) = some z →
      z.typeData = some tid0 →
      ∃ (k : Nat) (s' : ExecState) (zf : Action),
        run e vt ct fn k s = .done ⟨tid0, zf.value, zf.dirty, none⟩ s' ∧
        zf.typeData = some tid0 ∧
        s'.getSlot (.fixed s.stackB 1 0) = some zf ∧
        s'.trace = s.trace ++ cascadeEvents s ∧
        (∀ ev ∈ cascadeEvents s, ∃ t a, ev = Event.post t a) := by
  intro n
  induction n using Nat.strong_induction_on with
  | _ n ih =>
  intro s z tid0 hn h1n hph hh hOK hbpost hrecs hcf hcur hpar hdt hz
    hztd
  obtain ⟨fN, hfN, hapN, aN, hgaN, _⟩ :=
    levelOK_activePtr s n (hOK n (le_refl n))
  have hcsN : s.curSlot = SlotRef.fixed s.stackB n fN.Idx :=
    Option.some.inj (hcur.symm.trans hapN)
  have hcne : ∀ l, l ≠ n →
      ∀ j, SlotRef.fixed s.stackB l j ≠ s.curSlot := by
    intro l hl j hj
    rw [hcsN] at hj
    injection hj with h1 h2 h3
    exact hl h2
  have hbp : ∀ a, s.getSlot s.curSlot = some a →
      ∀ pi, a.post = some pi → BenignEntry vt pi := by
    intro a hga pi hpi
    have hga' : fN.Slots.get? fN.Idx = some a := by
      rw [hcsN, getSlot_frame s s.stackB n fN hfN] at hga
      exact hga
    exact hbpost n h1n (le_refl n) fN a hfN hga' pi hpi
  obtain ⟨s1, hstep1, h1h, h1tr, h1OKn, hsp⟩ :=
    halting_unwind_step e vt ct fn s n h1n hph hh (hOK n (le_refl n))
      hcur hpar hbp hdt
  have h1sb : s1.stackB = s.stackB := hsp.stackB
  have h1si : s1.stackIdx = n := hsp.stackIdx.trans hn
  have hOK1all : ∀ l, l ≤ n → levelOK s1 l := fun l hl =>
    levelOK_stepPost s s1 n l hsp (hOK l hl)
  obtain ⟨z1, hz1g, hz1td, _, _, _⟩ := hsp.slots _ z hz
  have hz1g' : s1.getSlot (.fixed s1.stackB 1 0) = some z1 := by
    rw [h1sb]
    exact hz1g
  by_cases hne1 : n = 1
  · subst hne1
    obtain ⟨s', hstep2, htr2, hzg2⟩ :=
      halting_next_return e vt ct fn s1 z1 tid0 hsp.phase h1h h1si
        (by rw [hsp.curFrame, hcf, h1sb]) (hOK1all 1 (le_refl 1))
        hz1g' (hz1td.trans hztd)
    refine ⟨2, s', z1, ?_, hz1td.trans hztd, ?_, ?_,
      fun ev hev => cascadeEvents_only_posts s ev hev⟩
    · rw [show (2 : Nat) = 1 + 1 from rfl,
        run_step_next e vt ct fn s s1 1 hstep1,
        run_step_ret e vt ct fn s1 s' _ 0 hstep2]
    · rw [h1sb] at hzg2
      exact hzg2
    · rw [htr2, h1tr, cascadeEvents_succ s 0 (by omega)]
      simp
  · have h2n : 2 ≤ n := by omega
    obtain ⟨s4, hstep2, h4ph, h4h, h4si, h4sb, h4cf, h4cur, h4par,
      h4ret, h4tr, h4mem, h4fr, h4shape, h4gs⟩ :=
      halting_next_pop e vt ct fn s1 hsp.phase h1h
        (by rw [h1si]; omega)
        (by rw [hsp.curFrame, hcf, h1sb, h1si])
        (by rw [h1si]; exact h1OKn)
        (by rw [h1si]; exact hOK1all (n - 1) (by omega))
        (by rw [h1si]; exact hOK1all (n - 2) (by omega))
    have h4si' : s4.stackIdx = n - 1 := by rw [h4si, h1si]
    have h4sb' : s4.stackB = s.stackB := h4sb.trans h1sb
    have h4fr' : ∀ r' : FrameRef, r' ≠ (s.stackB, n) →
        s4.getFrame r' = s1.getFrame r' := by
      intro r' hne
      refine h4fr r' ?_
      rw [h1sb, h1si]
      exact hne
    have h4shape' : ∀ f0, s1.getFrame (s.stackB, n) = some f0 →
        ∃ f1, s4.getFrame (s.stackB, n) = some f1 ∧
          f1.Count = f0.Count ∧ f1.Overflow = f0.Overflow := by
      intro f0 h0
      have hres := h4shape f0 (by rw [h1sb, h1si]; exact h0)
      rw [h1sb, h1si] at hres
      exact hres
    have hOK4 : ∀ l, l ≤ n - 1 → levelOK s4 l := by
      intro l hl
      refine levelOK_transfer s1 s4 l h4sb ?_ (hOK1all l (by omega))
      refine h4fr (s1.stackB, l) ?_
      intro hc
      have hcl : l = s1.stackIdx := congrArg Prod.snd hc
      rw [h1si] at hcl
      omega
    have hbpost4 : ∀ l, 1 ≤ l → l ≤ n - 1 → ∀ f a,
        s4.getFrame (s4.stackB, l) = some f →
        f.Slots.get? f.Idx = some a → ∀ pi, a.post = some pi →
        BenignEntry vt pi := by
      intro l h1l hl f a hf ha pi hpi
      rw [h4sb'] at hf
      rw [h4fr' (s.stackB, l)
        (fun hc => by
          have hcl : l = n := congrArg Prod.snd hc
          omega)] at hf
      obtain ⟨f0, hf0, hidx0, a0, ha0, _⟩ := hOK l (by omega)
      obtain ⟨f1, hf1', h1i, _, _, a1, ha1, _, h1p, _⟩ :=
        stepPost_activeSlot s s1 n l hsp f0 a0 hf0 ha0
          (hcne l (by omega) f0.Idx)
      have hfe : f = f1 := Option.some.inj (hf.symm.trans hf1')
      have ha' : a1 = a := by
        refine Option.some.inj (ha1.symm.trans ?_)
        rw [← hfe]
        exact ha
      refine hbpost l h1l (by omega) f0 a0 hf0 ha0 pi ?_
      rw [← h1p, ha', hpi]
    have hrec4 : ∀ l, 1 ≤ l → l ≤ n - 1 → levelRecon e s4 l := by
      intro l h1l hl
      have hrec1 : levelRecon e s1 l :=
        levelRecon_stepPost e s s1 n l hsp (hOK l (by omega))
          (by omega) ⟨fN.Idx, hcsN⟩ (hrecs l h1l (by omega))
      refine levelRecon_keep e s1 s4 l n (by omega) h4sb h4mem h4gs
        ?_ ?_ (hOK1all l (by omega)) hrec1
      · intro fi' hne
        refine h4fr (s1.stackB, fi') ?_
        intro hc
        have hcl : fi' = s1.stackIdx := congrArg Prod.snd hc
        rw [h1si] at hcl
        exact hne hcl
      · intro f0 h0
        have hres := h4shape f0 (by rw [h1si]; exact h0)
        rw [h1si] at hres
        exact hres
    have hz4 : s4.getSlot (.fixed s4.stackB 1 0) = some z1 := by
      rw [h4sb', h4gs (.fixed s.stackB 1 0)]
      exact hz1g
    obtain ⟨k4, s', zf, hrun4, hzftd, hzfg, htr4, _⟩ :=
      ih (n - 1) (by omega) s4 z1 tid0 h4si' (by omega) h4ph h4h hOK4
        hbpost4 (fun l h1l hl => hrec4 l h1l (by omega))
        (by rw [h4cf, h1sb, h1si, h4sb'])
        (by rw [h4sb']
            have hres := h4cur
            rw [h1sb, h1si] at hres
            exact hres)
        (by obtain ⟨pj, pa, hps, hpa⟩ := h4par
            rw [h1sb, h1si] at hps hpa
            refine ⟨pj, pa, ?_, ?_⟩
            · rw [h4sb', show n - 1 - 1 = n - 2 from by omega]
              exact hps
            · rw [h4sb', show n - 1 - 1 = n - 2 from by omega]
              exact hpa)
        (by intro a _ _
            refine ⟨?_, hrec4 (n - 1) (by omega) (le_refl _)⟩
            rw [h4ret, h1sb, h1si, h4sb',
              show n - 1 + 1 = n from by omega])
        hz4 (hz1td.trans hztd)
    have hc4 : cascadeEvents s4 =
        ((List.range (n - 1)).reverse.map
          fun l => activePostEvent s (l + 1)).flatten := by
      unfold cascadeEvents
      rw [h4si']
      refine congrArg List.flatten (List.map_congr_left ?_)
      intro l hl
      have hlt : l < n - 1 := by
        rw [List.mem_reverse, List.mem_range] at hl
        exact hl
      have e1 : activePostEvent s4 (l + 1) =
          activePostEvent s1 (l + 1) := by
        refine activePostEvent_transfer s1 s4 (l + 1) h4sb
          (h4fr (s1.stackB, l + 1) ?_)
        intro hc
        have hcl : l + 1 = s1.stackIdx := congrArg Prod.snd hc
        rw [h1si] at hcl
        omega
      have e2 : activePostEvent s1 (l + 1) =
          activePostEvent s (l + 1) :=
        activePostEvent_stepPost s s1 n (l + 1) hsp
          (hOK (l + 1) (by omega)) (hcne (l + 1) (by omega))
      exact e1.trans e2
    refine ⟨k4 + 2, s', zf, ?_, hzftd, ?_, ?_,
      fun ev hev => cascadeEvents_only_posts s ev hev⟩
    · rw [show k4 + 2 = k4 + 1 + 1 from rfl,
        run_step_next e vt ct fn s s1 (k4 + 1) hstep1,
        run_step_next e vt ct fn s1 s4 k4 hstep2, hrun4]
    · rw [← h4sb']
      exact hzfg
    · rw [htr4, h4tr, h1tr, hc4,
        cascadeEvents_succ s (n - 1) (by omega)]
      rw [List.append_assoc, show n - 1 + 1 = n from by omega]
/-- Visitor table for the spec's halt scenario: the main visitor
(index 0) registers a post on the root record and halts on the first
leaf; the post callback (index 1) continues. -/
def hVisOk : VisTable := fun i tid _ _ =>
  if i = 1 then Context.Continue
  else if tid = 1 then Context.Continue.Post 1
  else Context.Halt

/-- Same scenario, but the root's post callback reports an error. -/
def hVisErr : VisTable := fun i tid _ _ =>
  if i = 1 then Context.Error "boom"
  else if tid = 1 then Context.Continue.Post 1
  else Context.Halt

/-- A visitor that replaces the root (a record with fields) and halts
in the same decision. -/
def hVisRep : VisTable := fun _i tid _ _ =>
  if tid = 1 then Context.Halt.Replace 1 ⟨1, []⟩ else Context.Continue

/-- Two three-field records: the root at base 0 and a replacement at
base 1. -/
def hMem2 : Mem :=
  ⟨[.structV [.structV [], .structV [], .structV []],
    .structV [.structV [], .structV [], .structV []]]⟩

/-- A benign visitor table for the cascade witness: every entry
continues. -/
def contVis : VisTable := fun _ _ _ _ => Context.Continue

/-- An `R3` root at base 0 and a replacement leaf at base 1. -/
def mem3 : Mem :=
  ⟨[.structV [.structV [], .structV [], .structV []], .structV []]⟩

/-- Halt after an earlier replacement: the main visitor replaces the
first leaf, halts on the second, and registers a post on the root; the
post callback (index 1) continues. -/
def s1Vis : VisTable := fun i tid a _ =>
  if i = 1 then Context.Continue
  else if a = some ⟨0, [0]⟩ then Context.Continue.Replace 2 ⟨1, []⟩
  else if a = some ⟨0, [1]⟩ then Context.Halt
  else if tid = 1 then Context.Continue.Post 1
  else Context.Continue

/-- An `R3` root at base 0, a spare cell, and a replacement `R3` at
base 2. -/
def mem4 : Mem :=
  ⟨[.structV [.structV [], .structV [], .structV []], .structV [],
    .structV [.structV [], .structV [], .structV []]]⟩

/-- Replacement from a post during the halting unwind: the root's post
callback (index 1) replaces the root with the same record type; the
main visitor registers the post and halts on the first leaf. -/
def s2Vis : VisTable := fun i tid a _ =>
  if i = 1 then Context.Continue.Replace 1 ⟨2, []⟩
  else if tid = 1 then Context.Continue.Post 1
  else if a = some ⟨0, [0]⟩ then Context.Halt
  else Context.Continue

/-- A three-level nesting `R → S → L` for the stale-pointer crash. -/
def nMap : TypeMap := [{},
  { fields := [⟨"S", 2⟩], kind := .struct, name := "R", typeID := 1 },
  { fields := [⟨"L", 3⟩], kind := .struct, name := "S", typeID := 2 },
  { kind := .struct, name := "L", typeID := 3 }]

/-- Engine over `nMap`. -/
def nEng : Engine := ⟨nMap⟩

/-- An `R` at base 0 holding an `S`, and a replacement `S` at base 1. -/
def nMem : Mem := ⟨[.structV [.structV [.structV []]], .structV [.structV []]]⟩

/-- The halted node's own post replaces it while the node has children:
visiting the middle record `S` the main visitor halts and registers a
post, and that post (index 1) replaces the `S`. -/
def s3Vis : VisTable := fun i tid _ _ =>
  if i = 1 then Context.Continue.Replace 2 ⟨1, []⟩
  else if tid = 2 then Context.Halt.Post 1
  else Context.Continue

/-- An ill-typed replacement from a post during the halting unwind:
the root's post callback replaces the `R3` root with a `Leaf`. -/
def s4Vis : VisTable := fun i tid a _ =>
  if i = 1 then Context.Continue.Replace 2 ⟨1, []⟩
  else if tid = 1 then Context.Continue.Post 1
  else if a = some ⟨0, [0]⟩ then Context.Halt
  else Context.Continue

/-- The root slot of `haltStateD`: descriptor and value of the `R3`
root, a pending post, and the dirty bit set by the child replacement
that happened before the halt. -/
def haltRootA : Action :=
  { typeData := some 1, value := some ⟨0, []⟩, valueType := 1,
    post := some 1, dirty := true }

/-- A mid-traversal halting `unwind` state over `eEng`/`mem3`: the
first leaf of the root `R3` was replaced (its slot and the root slot
are dirty), the halt latched while visiting the second leaf, and a post
is pending on the root. -/
def haltStateD : ExecState := {
  mem := mem3
  stackStore := [[
    { Count := 1, Idx := 0,
      Slots := (List.replicate fixedSlotCount ({} : Action)).set 0
        { typeData := some 1, valueType := 1 } },
    { Count := 1, Idx := 0,
      Slots := (List.replicate fixedSlotCount ({} : Action)).set 0
        haltRootA },
    { Count := 3, Idx := 1,
      Slots := (((List.replicate fixedSlotCount ({} : Action)).set 0
        { typeData := some 2, value := some ⟨1, []⟩, valueType := 2,
          dirty := true }).set 1
        { typeData := some 2, value := some ⟨0, [1]⟩,
          valueType := 2 }).set 2
        { typeData := some 2, value := some ⟨0, [2]⟩,
          valueType := 2 } } ]]
  overStore := []
  stackB := 0
  stackIdx := 2
  curFrame := (0, 2)
  curSlot := .fixed 0 2 1
  parentSlot := .fixed 0 1 0
  returning := none
  halting := true
  trace := []
  phase := .unwind }

/-- The dirty root of `haltStateD` satisfies the reconstruction
preconditions of level 1: its own heap value is a record with enough
fields, and the three child slots of frame 2 are present and
readable. -/
theorem haltStateD_recon : levelRecon eEng haltStateD 1 := by
  intro p hp a ha tid htid
  obtain rfl : SlotRef.fixed 0 1 0 = p := Option.some.inj hp
  obtain rfl : haltRootA = a := Option.some.inj ha
  obtain rfl : (1 : TypeID) = tid := Option.some.inj htid
  refine ⟨t3, rfl, ⟨⟨0, []⟩, rfl,
    [.structV [], .structV [], .structV []], rfl, by decide⟩, ?_⟩
  intro i hi
  have hi3 : i < 3 := hi
  interval_cases i
  · exact ⟨.fixed 0 2 0, rfl, _, rfl, ⟨1, []⟩, rfl, .structV [], rfl⟩
  · exact ⟨.fixed 0 2 1, rfl, _, rfl, ⟨0, [1]⟩, rfl, .structV [], rfl⟩
  · exact ⟨.fixed 0 2 2, rfl, _, rfl, ⟨0, [2]⟩, rfl, .structV [], rfl⟩

/-- C6 (amended): when a visitor returns Halt while visiting a node,
the post-visit callbacks pending on that node and on every
already-entered ancestor still run, innermost to outermost, no deeper
or later sibling node is visited, and `Execute` returns the (possibly
reconstructed) root normally with no error — PROVIDED none of those
post callbacks itself reports an error or registers a replacement, and
the halted node itself carries no pending replacement when it has
children (see the counterexample for both provisos).  First conjunct:
the general cascade over the machine — from any halting `unwind` state
whose levels are well-formed, whose registered posts are benign (they
may themselves register further posts, but never error or replace), and
whose dirty active slots satisfy the reconstruction preconditions, the
run appends exactly `cascadeEvents` (the pending posts of the active
slots, innermost to outermost, all of them post events) to the trace,
rebuilds the dirty levels, and returns the final root slot's value and
dirty flag with no error — this covers halts after an earlier
replacement, where the root is reconstructed and returned with
`changed = true`.  Second and third conjuncts: the spec's concrete
scenario — halting on the first leaf of a three-leaf record still runs
the root's post and returns the root unchanged with no error, and the
trace shows the two visits followed by the root post only: the later
siblings at paths `[1]` and `[2]` are never visited.  Fourth and fifth
conjuncts: replacing the first leaf and then halting on the second
still runs the root's post and returns a reconstructed root
(`changed = true`, no error) without visiting the third leaf.  Sixth
and seventh conjuncts: a well-typed replacement of the root by its own
post during the halting unwind is honoured — the run returns the
reconstructed replacement normally. -/
theorem halt_unwind_runs_posts :
    (∀ (e : Engine) (vt : VisTable) (ct : CallTable) (fn : Nat),
      ∀ (n : Nat) (s : ExecState) (z : Action) (tid0 : TypeID),
      s.stackIdx = n → 1 ≤ n → s.phase = .unwind → s.halting = true →
      (∀ l, l ≤ n → levelOK s l) →
      (∀ l, 1 ≤ l → l ≤ n → ∀ f a, s.getFrame (s.stackB, l) = some f →
        f.Slots.get? f.Idx = some a → ∀ pi, a.post = some pi →
        BenignEntry vt pi) →
      (∀ l, 1 ≤ l → l < n → levelRecon e s l) →
      s.curFrame = (s.stackB, n) →
      s.activePtr (s.stackB, n) = some s.curSlot →
      (∃ pj pa, s.parentSlot = SlotRef.fixed s.stackB (n - 1) pj ∧
        s.getSlot (SlotRef.fixed s.stackB (n - 1) pj) = some pa) →
      (∀ a, s.getSlot s.curSlot = some a → a.dirty = true →
        s.returning = some (s.stackB, n + 1) ∧ levelRecon e s n) →
      s.getSlot (.fixed s.stackB 1 0) = some z →
      z.typeData = some tid0 →
      ∃ (k : Nat) (s' : ExecState) (zf : Action),
        run e vt ct fn k s = .done ⟨tid0, zf.value, zf.dirty, none⟩ s' ∧
        zf.typeData = some tid0 ∧
        s'.getSlot (.fixed s.stackB 1 0) = some zf ∧
        s'.trace = s.trace ++ cascadeEvents s ∧
        (∀ ev ∈ cascadeEvents s, ∃ t a, ev = Event.post t a)) ∧
    ((Engine.Execute eEng hVisOk noCalls 0 1 (some ⟨0, []⟩) 1 eMem
        1000).result = some ⟨1, some ⟨0, []⟩, false, none⟩) ∧
    ((Engine.Execute eEng hVisOk noCalls 0 1 (some ⟨0, []⟩) 1 eMem
        1000).events =
      [.visit 1 (some ⟨0, []⟩), .visit 2 (some ⟨0, [0]⟩),
        .post 1 (some ⟨0, []⟩)]) ∧
    ((Engine.Execute eEng s1Vis noCalls 0 1 (some ⟨0, []⟩) 1 mem3
        1000).result = some ⟨1, some ⟨3, []⟩, true, none⟩) ∧
    ((Engine.Execute eEng s1Vis noCalls 0 1 (some ⟨0, []⟩) 1 mem3
        1000).events =
      [.visit 1 (some ⟨0, []⟩), .visit 2 (some ⟨0, [0]⟩),
        .visit 2 (some ⟨0, [1]⟩), .post 1 (some ⟨0, []⟩)]) ∧
    ((Engine.Execute eEng s2Vis noCalls 0 1 (some ⟨0, []⟩) 1 mem4
        1000).result = some ⟨1, some ⟨3, []⟩, true, none⟩) ∧
    ((Engine.Execute eEng s2Vis noCalls 0 1 (some ⟨0, []⟩) 1 mem4
        1000).events =
      [.visit 1 (some ⟨0, []⟩), .visit 2 (some ⟨0, [0]⟩),
        .post 1 (some ⟨0, []⟩)]) :=
  ⟨fun e vt ct fn => halting_cascade_general e vt ct fn,
    by decide, by decide, by decide, by decide, by decide, by decide⟩

/-- Witness for C6's general conjunct: a concrete two-level halting
state in which an earlier replacement left the first child slot and the
root slot dirty and a post pending on the root — the cascade runs the
post, rebuilds the root and returns it. -/
theorem halt_unwind_runs_posts_witness :
    haltStateD.halting = true ∧
    ∃ (k : Nat) (s' : ExecState) (zf : Action),
      run eEng contVis noCalls 0 k haltStateD =
        .done ⟨1, zf.value, zf.dirty, none⟩ s' ∧
      zf.typeData = some 1 ∧
      s'.getSlot (.fixed haltStateD.stackB 1 0) = some zf ∧
      s'.trace = haltStateD.trace ++ cascadeEvents haltStateD ∧
      (∀ ev ∈ cascadeEvents haltStateD, ∃ t a, ev = Event.post t a) :=
  ⟨rfl, halt_unwind_runs_posts.1 eEng contVis noCalls 0 2 haltStateD
    haltRootA 1 rfl (by decide) rfl rfl
    (by intro l hl
        interval_cases l
        · exact ⟨_, rfl, by decide, _, rfl, by decide⟩
        · exact ⟨_, rfl, by decide, _, rfl, by decide⟩
        · exact ⟨_, rfl, by decide, _, rfl, by decide⟩)
    (fun _ _ _ _ _ _ _ _ _ _ _ _ => ⟨rfl, rfl⟩)
    (by intro l h1l hl2
        have hl1 : l = 1 := by omega
        subst hl1
        exact haltStateD_recon)
    rfl rfl ⟨0, haltRootA, rfl, rfl⟩
    (by intro a ha hd
        rw [← Option.some.inj ha] at hd
        exact absurd hd (by decide))
    rfl rfl⟩

/-- C6 (counterexample): the claim's "Execute then returns the
(possibly reconstructed) root normally, with no error" fails without
the provisos.  (1) If a post callback that runs during the halting
unwind reports an error, `Execute` returns that error — the run halts
on the first leaf, the root's post runs (it appears in the trace) and
its error `"boom"` becomes the return value.  (2) If the halting
decision also registers a replacement on a node with fields, the
unwind dereferences the nil `returning` frame pointer and the program
crashes (engine.go dereferences `returning` while rebuilding a dirty
struct slot, but no child frame ever returned: a Go nil-pointer
panic).  (3) The same crash when the replacement comes from the halted
node's own post: the post replaces the middle record `S` while the
halt is latched, its slot turns dirty, and the rebuild dereferences a
`returning` pointer left over from the already-popped child frame —
reading a stale slot with no descriptor, a nil dereference.  (4) If a
post's replacement during the halting unwind changes the node's type,
the rebuild rejects it and `Execute` returns the type error instead of
the root. -/
theorem halt_post_error_aborts_run :
    ((Engine.Execute eEng hVisErr noCalls 0 1 (some ⟨0, []⟩) 1 eMem
        1000).result = some ⟨0, none, false, some "boom"⟩) ∧
    ((Engine.Execute eEng hVisErr noCalls 0 1 (some ⟨0, []⟩) 1 eMem
        1000).events =
      [.visit 1 (some ⟨0, []⟩), .visit 2 (some ⟨0, [0]⟩),
        .post 1 (some ⟨0, []⟩)]) ∧
    ((Engine.Execute eEng hVisRep noCalls 0 1 (some ⟨0, []⟩) 1 hMem2
        1000).isPanic = true) ∧
    ((Engine.Execute nEng s3Vis noCalls 0 1 (some ⟨0, []⟩) 1 nMem
        1000).isPanic = true) ∧
    ((Engine.Execute eEng s4Vis noCalls 0 1 (some ⟨0, []⟩) 1 mem3
        1000).result =
      some ⟨0, none, false, some "cannot change type of R3 to Leaf"⟩) ∧
    ((Engine.Execute eEng s4Vis noCalls 0 1 (some ⟨0, []⟩) 1 mem3
        1000).events =
      [.visit 1 (some ⟨0, []⟩), .visit 2 (some ⟨0, [0]⟩),
        .post 1 (some ⟨0, []⟩)]) :=
  ⟨by decide, by decide, by decide, by decide, by decide, by decide⟩

/-! ## The Continue-only invariant -/

/-- A visitor table all of whose entries return the zero decision. -/
def ContinueTable (vt : VisTable) : Prop :=
  ∀ i t a m, vt i t a m = Context.Continue

/-- A clean action: not dirty, no pending post, not an injected call. -/
def cleanA (a : Action) : Prop :=
  a.dirty = false ∧ a.post = none ∧ a.call = none

/-- Every readable slot of the state is clean. -/
def CleanSlots (s : ExecState) : Prop :=
  ∀ r a, s.getSlot r = some a → cleanA a

theorem apply_continue (e : Engine) (a : Action) (at0 : Option TypeID) :
    a.apply e Context.Continue at0 = .ok a :=
  apply_benign e a Context.Continue at0 rfl rfl

/-- The Continue-run invariant: the memory is the input memory, no halt
is latched, the stack pointer is live, every readable slot is clean,
the root slot still carries the input's descriptor and value, and the
current-frame register is coherent at the top frame. -/
structure NoopInv (m0 : Mem) (z0 : Action) (s : ExecState) : Prop where
  mem : s.mem = m0
  halt : s.halting = false
  idx1 : 1 ≤ s.stackIdx
  clean : CleanSlots s
  root : ∃ z, s.getSlot (.fixed s.stackB 1 0) = some z ∧
    z.typeData = z0.typeData ∧ z.value = z0.value
  cur1 : s.stackIdx = 1 → s.curFrame = (s.stackB, 1)

theorem noopInv_push (m0 : Mem) (z0 : Action) (s : ExecState)
    (ev : Event) (hinv : NoopInv m0 z0 s) :
    NoopInv m0 z0 (s.push ev) :=
  ⟨hinv.mem, hinv.halt, hinv.idx1, hinv.clean, hinv.root, hinv.cur1⟩

theorem noopInv_setSlot (m0 : Mem) (z0 : Action) (s : ExecState)
    (r : SlotRef) (aOld a2 : Action) (s' : ExecState)
    (hold : s.getSlot r = some aOld) (hset : s.setSlot r a2 = some s')
    (htd : a2.typeData = aOld.typeData) (hv : a2.value = aOld.value)
    (hcl : cleanA a2) (hinv : NoopInv m0 z0 s) : NoopInv m0 z0 s' := by
  obtain ⟨st, ov, hsh⟩ := setSlot_shape s r a2 s' hset
  have hsb : s'.stackB = s.stackB := by rw [hsh]
  refine ⟨by rw [hsh]; exact hinv.mem, by rw [hsh]; exact hinv.halt,
    by rw [hsh]; exact hinv.idx1, ?_, ?_, ?_⟩
  · intro r' a' h'
    rcases setSlot_getSlot_cases s r a2 s' hset r' a' h' with he | hold'
    · subst he
      exact hcl
    · exact hinv.clean r' a' hold'
  · obtain ⟨z, hz, hztd, hzv⟩ := hinv.root
    rw [hsb]
    by_cases hr : (SlotRef.fixed s.stackB 1 0) = r
    · subst hr
      have hze : aOld = z := Option.some.inj (hold.symm.trans hz)
      subst hze
      exact ⟨a2, setSlot_fixed_getSlot_self s s.stackB 1 0 a2 s' hset,
        htd.trans hztd, hv.trans hzv⟩
    · rw [setSlot_getSlot_ne s r a2 s' hset _ hr]
      exact ⟨z, hz, hztd, hzv⟩
  · intro h1
    have h1' : s.stackIdx = 1 := by rw [hsh] at h1; exact h1
    have := hinv.cur1 h1'
    rw [hsh]
    show s.curFrame = (s.stackB, 1)
    exact this

theorem noopInv_setFrame (m0 : Mem) (z0 : Action) (s : ExecState)
    (r : FrameRef) (f0 f : Frame) (s' : ExecState)
    (hget : s.getFrame r = some f0) (hset : s.setFrame r f = some s')
    (hslots : f.Slots = f0.Slots) (hinv : NoopInv m0 z0 s) :
    NoopInv m0 z0 s' := by
  obtain ⟨st, hsh⟩ := setFrame_shape s r f s' hset
  have hsb : s'.stackB = s.stackB := by rw [hsh]
  have hgs := setFrame_getSlot_slots_eq s r f0 f s' hget hset hslots
  refine ⟨by rw [hsh]; exact hinv.mem, by rw [hsh]; exact hinv.halt,
    by rw [hsh]; exact hinv.idx1, ?_, ?_, ?_⟩
  · intro r' a' h'
    rw [hgs r'] at h'
    exact hinv.clean r' a' h'
  · rw [hsb, hgs]
    exact hinv.root
  · intro h1
    have h1' : s.stackIdx = 1 := by rw [hsh] at h1; exact h1
    have := hinv.cur1 h1'
    rw [hsh]
    show s.curFrame = (s.stackB, 1)
    exact this

theorem liftO_ok {α : Type} (msg : String) (o : Option α) (v : α)
    (h : liftO msg o = .ok v) : o = some v := by
  cases o
  · exact Except.noConfusion h
  · rw [liftO_some] at h
    injection h with h
    rw [h]

theorem noopInv_setSlotResolved (m0 : Mem) (z0 : Action) (e : Engine)
    (s : ExecState) (rf : FrameRef) (j : Nat) (a : Action)
    (s' : ExecState) (h : s.setSlotResolved e rf j a = .ok s')
    (hcl : cleanA a) (hne2 : rf.2 ≠ 1) (hinv : NoopInv m0 z0 s) :
    NoopInv m0 z0 s' := by
  unfold ExecState.setSlotResolved at h
  simp only [bind, Except.bind] at h
  split at h
  · exact Except.noConfusion h
  · next ptr hptr =>
    have hsp : s.slotPtr rf j = some ptr := liftO_ok _ _ _ hptr
    have hptr' : ptr ≠ SlotRef.fixed s.stackB 1 0 := by
      intro hc
      subst hc
      unfold ExecState.slotPtr at hsp
      split at hsp
      · injection hsp with hsp
        simp only [SlotRef.fixed.injEq] at hsp
        exact hne2 hsp.2.1
      · split at hsp
        · split at hsp
          · injection hsp with hsp
            exact SlotRef.noConfusion hsp
          · exact Option.noConfusion hsp
        · exact Option.noConfusion hsp
    have key : ∀ a' : Action, a'.dirty = a.dirty → a'.post = a.post →
        a'.call = a.call →
        liftO "runtime error: index out of range" (s.setSlot ptr a') =
          .ok s' →
        NoopInv m0 z0 s' := by
      intro a' h1 h2 h3 hm
      have hs2 : s.setSlot ptr a' = some s' := liftO_ok _ _ _ hm
      have hcl' : cleanA a' := ⟨h1.trans hcl.1, h2.trans hcl.2.1,
        h3.trans hcl.2.2⟩
      obtain ⟨st, ov, hsh⟩ := setSlot_shape s ptr a' s' hs2
      have hsb : s'.stackB = s.stackB := by rw [hsh]
      refine ⟨by rw [hsh]; exact hinv.mem, by rw [hsh]; exact hinv.halt,
        by rw [hsh]; exact hinv.idx1, ?_, ?_, ?_⟩
      · intro r' a'' h''
        rcases setSlot_getSlot_cases s ptr a' s' hs2 r' a'' h''
          with he | hold'
        · subst he
          exact hcl'
        · exact hinv.clean r' a'' hold'
      · rw [hsb, setSlot_getSlot_ne s ptr a' s' hs2 _ (Ne.symm hptr')]
        exact hinv.root
      · intro h1'
        have h1'' : s.stackIdx = 1 := by rw [hsh] at h1'; exact h1'
        have hcf := hinv.cur1 h1''
        rw [hsh]
        show s.curFrame = (s.stackB, 1)
        exact hcf
    split at h
    all_goals try simp only [pure, Except.pure] at h
    all_goals try (split at h)
    all_goals try simp only [pure, Except.pure] at h
    all_goals first
      | exact Except.noConfusion h
      | (refine key _ ?_ ?_ ?_ h <;> rfl)

theorem noopInv_setEnterSlots (m0 : Mem) (z0 : Action) (e : Engine) :
    ∀ (acts : List Action) (i : Nat) (s s' : ExecState),
      s.setEnterSlots e i acts = .ok s' →
      (∀ a ∈ acts, cleanA a) → NoopInv m0 z0 s → NoopInv m0 z0 s' := by
  intro acts
  induction acts with
  | nil =>
    intro i s s' h hcl hinv
    unfold ExecState.setEnterSlots at h
    injection h with h
    rw [← h]
    exact hinv
  | cons a rest ih =>
    intro i s s' h hcl hinv
    unfold ExecState.setEnterSlots at h
    simp only [bind, Except.bind] at h
    split at h
    · exact Except.noConfusion h
    · next s1 hs1 =>
      have hne2 : ((s.stackB, s.stackIdx + 1) : FrameRef).2 ≠ 1 := by
        show s.stackIdx + 1 ≠ 1
        have := hinv.idx1
        omega
      have hinv1 := noopInv_setSlotResolved m0 z0 e s
        (s.stackB, s.stackIdx + 1) i a s1 hs1
        (hcl a (by simp)) hne2 hinv
      exact ih (i + 1) s1 s' h (fun a' ha' => hcl a' (by simp [ha'])) hinv1

theorem cleanA_empty : cleanA ({} : Action) := ⟨rfl, rfl, rfl⟩

theorem noopInv_enterConfig (m0 : Mem) (z0 : Action) (s : ExecState)
    (ic : Option Nat) (cnt : Nat) (s' : ExecState)
    (h : s.enterConfig ic cnt = .ok s') (hinv : NoopInv m0 z0 s) :
    NoopInv m0 z0 s' := by
  unfold ExecState.enterConfig at h
  simp only [bind, Except.bind] at h
  split at h
  · exact Except.noConfusion h
  · next f hf =>
    have hf' : s.getFrame (s.stackB, s.stackIdx + 1) = some f :=
      liftO_ok _ _ _ hf
    split at h
    · -- overflow branch
      next hcnt =>
      have hsf := liftO_ok _ _ _ h
      have hinv2 : NoopInv m0 z0 { s with overStore := s.overStore ++
          [List.replicate (cnt - fixedSlotCount) ({} : Action)] } := by
        refine ⟨hinv.mem, hinv.halt, hinv.idx1, ?_, hinv.root,
          hinv.cur1⟩
        intro r' a' h'
        cases r' with
        | fixed b' fi' j' => exact hinv.clean (.fixed b' fi' j') a' h'
        | over oid' j' =>
          simp only [ExecState.getSlot] at h'
          simp only [List.get?_eq_getElem?] at h'
          by_cases hlt : oid' < s.overStore.length
          · rw [List.getElem?_append_left hlt] at h'
            refine hinv.clean (.over oid' j') a' ?_
            simp only [ExecState.getSlot, List.get?_eq_getElem?]
            exact h'
          · rw [List.getElem?_append_right (by omega)] at h'
            rcases hx : oid' - s.overStore.length with _ | k
            · rw [hx] at h'
              simp only [List.getElem?_cons_zero] at h'
              rw [List.getElem?_replicate] at h'
              split at h'
              · injection h' with h'
                rw [← h']
                exact cleanA_empty
              · exact Option.noConfusion h'
            · rw [hx] at h'
              simp only [List.getElem?_cons_succ,
                List.getElem?_nil] at h'
              exact Option.noConfusion h'
      refine noopInv_setFrame m0 z0 _ (s.stackB, s.stackIdx + 1) f _ s'
        ?_ hsf rfl hinv2
      exact hf'
    · -- inline branch
      have hsf := liftO_ok _ _ _ h
      exact noopInv_setFrame m0 z0 s (s.stackB, s.stackIdx + 1) f _ s'
        hf' hsf rfl hinv

theorem noopInv_pushTail (m0 : Mem) (z0 : Action) (s s' : ExecState)
    (h : s.pushTail = .ok s') (hinv : NoopInv m0 z0 s) :
    NoopInv m0 z0 s' := by
  unfold ExecState.pushTail at h
  simp only [bind, Except.bind] at h
  split at h
  · exact Except.noConfusion h
  · next backing hbk =>
    have hbk' : s.stackStore.get? s.stackB = some backing :=
      liftO_ok _ _ _ hbk
    split at h
    · next hgrow =>
      simp only [pure, Except.pure] at h
      injection h with h
      subst h
      refine ⟨hinv.mem, hinv.halt, by show 1 ≤ s.stackIdx + 1; omega,
        ?_, ?_, ?_⟩
      · intro r' a' h'
        cases r' with
        | over oid' j' => exact hinv.clean (.over oid' j') a' h'
        | fixed b' fi' j' =>
          simp only [ExecState.getSlot, ExecState.getFrame,
            List.get?_eq_getElem?] at h'
          by_cases hb : b' < s.stackStore.length
          · rw [List.getElem?_append_left hb] at h'
            refine hinv.clean (.fixed b' fi' j') a' ?_
            simp only [ExecState.getSlot, ExecState.getFrame,
              List.get?_eq_getElem?]
            exact h'
          · rw [List.getElem?_append_right (by omega)] at h'
            rcases hx : b' - s.stackStore.length with _ | k
            · rw [hx] at h'
              simp only [List.getElem?_cons_zero] at h'
              by_cases hfi : fi' < backing.length
              · rw [List.getElem?_append_left hfi] at h'
                refine hinv.clean (.fixed s.stackB fi' j') a' ?_
                simp only [ExecState.getSlot, ExecState.getFrame,
                  List.get?_eq_getElem?]
                simp only [List.get?_eq_getElem?] at hbk'
                rw [hbk']
                exact h'
              · rw [List.getElem?_append_right (by omega),
                  List.getElem?_replicate] at h'
                split at h'
                · next f hin =>
                  split at hin
                  · injection hin with hin
                    subst hin
                    rw [show (({} : Frame)).Slots =
                      List.replicate fixedSlotCount ({} : Action)
                      from rfl, List.getElem?_replicate] at h'
                    split at h'
                    · injection h' with h'
                      rw [← h']
                      exact cleanA_empty
                    · exact Option.noConfusion h'
                  · exact Option.noConfusion hin
                · exact Option.noConfusion h'
            · rw [hx] at h'
              simp only [List.getElem?_cons_succ,
                List.getElem?_nil] at h'
              exact Option.noConfusion h'
      · obtain ⟨z, hz, h1, h2⟩ := hinv.root
        simp only [ExecState.getSlot, ExecState.getFrame,
          List.get?_eq_getElem?] at hz
        simp only [List.get?_eq_getElem?] at hbk'
        rw [hbk'] at hz
        simp only at hz
        cases hf1 : backing[1]? with
        | none =>
          rw [hf1] at hz
          exact Option.noConfusion hz
        | some f1 =>
          rw [hf1] at hz
          simp only at hz
          have hlen1 : 1 < backing.length :=
            (List.getElem?_eq_some_iff.mp hf1).1
          refine ⟨z, ?_, h1, h2⟩
          show ExecState.getSlot _ (.fixed s.stackStore.length 1 0) =
            some z
          simp only [ExecState.getSlot, ExecState.getFrame,
            List.get?_eq_getElem?]
          rw [List.getElem?_append_right (le_refl _)]
          simp only [Nat.sub_self, List.getElem?_cons_zero]
          rw [List.getElem?_append_left hlen1, hf1]
          exact hz
      · intro hc
        have h0 : s.stackIdx + 1 = 1 := hc
        exact absurd hinv.idx1 (by omega)
    · next hng =>
      simp only [pure, Except.pure] at h
      injection h with h
      subst h
      refine ⟨hinv.mem, hinv.halt, by show 1 ≤ s.stackIdx + 1; omega,
        fun r' a' h' => hinv.clean r' a' h', hinv.root, ?_⟩
      intro hc
      have h0 : s.stackIdx + 1 = 1 := hc
      exact absurd hinv.idx1 (by omega)

theorem noop_stepUnwind (m0 : Mem) (z0 : Action) (e : Engine)
    (vt : VisTable) (s : ExecState) (fl : Flow)
    (h : stepUnwind e vt s = .ok fl) (hinv : NoopInv m0 z0 s) :
    ∃ s1, fl = .next s1 ∧ NoopInv m0 z0 s1 := by
  unfold stepUnwind at h
  simp only [bind, Except.bind] at h
  split at h
  · exact Except.noConfusion h
  · next a ha =>
    have ha' : s.getSlot s.curSlot = some a := liftO_ok _ _ _ ha
    have hcl := hinv.clean _ _ ha'
    simp only [hcl.2.1] at h
    unfold unwindDirty at h
    simp only [bind, Except.bind, ha', liftO_some, hcl.1,
      Bool.false_eq_true, if_false, pure, Except.pure] at h
    injection h with h
    refine ⟨{ s with phase := .nextSlot }, h.symm, ?_⟩
    exact ⟨hinv.mem, hinv.halt, hinv.idx1, hinv.clean, hinv.root,
      hinv.cur1⟩

theorem noop_stepNext (m0 : Mem) (z0 : Action) (s : ExecState)
    (fl : Flow) (h : stepNext s = .ok fl) (hinv : NoopInv m0 z0 s) :
    (∃ s1, fl = .next s1 ∧ NoopInv m0 z0 s1) ∨
    (∃ s1 tid, fl = .ret ⟨tid, z0.value, false, none⟩ s1 ∧
      z0.typeData = some tid ∧ NoopInv m0 z0 s1) := by
  unfold stepNext at h
  simp only [bind, Except.bind] at h
  split at h
  · exact Except.noConfusion h
  · next cf hcf =>
    have hcf' : s.getFrame s.curFrame = some cf := liftO_ok _ _ _ hcf
    split at h
    · exact Except.noConfusion h
    · next s2 hs2 =>
      have hs2' : s.setFrame s.curFrame { cf with Idx := cf.Idx + 1 } =
          some s2 := liftO_ok _ _ _ hs2
      obtain ⟨st2, hsh2⟩ := setFrame_shape s s.curFrame _ s2 hs2'
      have hinv2 : NoopInv m0 z0 s2 :=
        noopInv_setFrame m0 z0 s s.curFrame cf _ s2 hcf' hs2' rfl hinv
      have hgs2 := setFrame_getSlot_slots_eq s s.curFrame cf
        { cf with Idx := cf.Idx + 1 } s2 hcf' hs2' rfl
      split at h
      · -- frame exhausted or halting
        split at h
        · -- stackIdx = 1 : return from the top frame
          next hsi1 =>
          split at h
          · exact Except.noConfusion h
          · next z hz =>
            have hz' : s2.getSlot
                (.fixed s2.curFrame.1 s2.curFrame.2 0) = some z :=
              liftO_ok _ _ _ hz
            have hsi1' : s.stackIdx = 1 := by
              rw [hsh2] at hsi1
              exact hsi1
            have hcfr : s.curFrame = (s.stackB, 1) := hinv.cur1 hsi1'
            have hcf2 : s2.curFrame = s.curFrame := by rw [hsh2]
            obtain ⟨zr, hzr, hzrtd, hzrv⟩ := hinv.root
            have hze : z = zr := by
              rw [hcf2, hcfr] at hz'
              rw [hgs2 (.fixed s.stackB 1 0)] at hz'
              exact Option.some.inj (hz'.symm.trans hzr)
            subst hze
            have hzc := hinv.clean _ _ hzr
            split at h
            · exact Except.noConfusion h
            · next tid htid =>
              have htid' : z.typeData = some tid := liftO_ok _ _ _ htid
              simp only [pure, Except.pure] at h
              injection h with h
              right
              refine ⟨s2, tid, ?_, by rw [← hzrtd]; exact htid',
                hinv2⟩
              rw [← h, hzrv.symm, hzc.1]
        · -- pop one frame
          next hsin1 =>
          split at h
          · exact Except.noConfusion h
          · next cs hcs =>
            split at h
            · exact Except.noConfusion h
            · next ps hps =>
              simp only [pure, Except.pure] at h
              injection h with h
              left
              refine ⟨_, h.symm, ?_⟩
              have hidx2 : s2.stackIdx = s.stackIdx := by rw [hsh2]
              have hge2 : 2 ≤ s2.stackIdx := by
                rw [hidx2]
                rcases Nat.lt_or_ge s.stackIdx 2 with hl | hg
                · exfalso
                  have h1 := hinv.idx1
                  have : s.stackIdx = 1 := by omega
                  exact hsin1 (by rw [hidx2]; exact this)
                · exact hg
              refine ⟨hinv2.mem, hinv2.halt, ?_, ?_, ?_, ?_⟩
              · show 1 ≤ s2.stackIdx - 1
                omega
              · exact fun r' a' h' => hinv2.clean r' a' h'
              · exact hinv2.root
              · intro hc
                have hc' : s2.stackIdx - 1 = 1 := hc
                show (_, _) = (_, 1)
                rw [hc']
      · -- advance to the next slot of the same frame
        split at h
        · exact Except.noConfusion h
        · next cs hcs =>
          simp only [pure, Except.pure] at h
          injection h with h
          left
          refine ⟨_, h.symm, ?_⟩
          exact ⟨hinv2.mem, hinv2.halt, hinv2.idx1, hinv2.clean,
            hinv2.root, hinv2.cur1⟩

theorem cleanA_actionVisit (td : TypeData) (v : Option Addr) :
    cleanA (Context.ActionVisit td v) := ⟨rfl, rfl, rfl⟩

theorem fieldActions_clean (e : Engine) (v : Addr) :
    ∀ (fl : List FieldInfo) (i : Nat) (acts : List Action),
      fieldActions e v i fl = .ok acts → ∀ a ∈ acts, cleanA a := by
  intro fl
  induction fl with
  | nil =>
    intro i acts h a ha
    unfold fieldActions at h
    injection h with h
    rw [← h] at ha
    exact absurd ha (by simp)
  | cons f rest ih =>
    intro i acts h a ha
    unfold fieldActions at h
    simp only [bind, Except.bind] at h
    split at h
    · exact Except.noConfusion h
    · next ftd hftd =>
      split at h
      · exact Except.noConfusion h
      · next acts2 hacts2 =>
        simp only [pure, Except.pure] at h
        injection h with h
        rw [← h] at ha
        rcases List.mem_cons.mp ha with he | hm
        · subst he
          exact cleanA_actionVisit _ _
        · exact ih (i + 1) acts2 hacts2 a hm

theorem elemActions_clean (td : TypeData) (dat : Nat) :
    ∀ (n i : Nat) (a : Action), a ∈ elemActions td dat i n →
      cleanA a := by
  intro n
  induction n with
  | zero =>
    intro i a ha
    exact absurd ha (by simp [elemActions])
  | succ n ih =>
    intro i a ha
    unfold elemActions at ha
    rcases List.mem_cons.mp ha with he | hm
    · subst he
      exact cleanA_actionVisit _ _
    · exact ih (i + 1) a hm

theorem noop_structVisit (m0 : Mem) (z0 : Action) (e : Engine)
    (vt : VisTable) (fn : Nat) (s : ExecState) (fl : Flow)
    (hvt : ContinueTable vt) (h : structVisit e vt fn s = .ok fl)
    (hinv : NoopInv m0 z0 s) :
    ∃ s1, fl = .next s1 ∧ NoopInv m0 z0 s1 := by
  unfold structVisit at h
  simp only [bind, Except.bind] at h
  split at h
  · exact Except.noConfusion h
  · next a ha =>
    have ha' : s.getSlot s.curSlot = some a := liftO_ok _ _ _ ha
    split at h
    · exact Except.noConfusion h
    · next tid htid =>
      simp only [hvt fn tid a.value s.mem, Context.Continue] at h
      split at h
      · exact Except.noConfusion h
      · next psl hpsl =>
        rw [show a.apply e
            ({} : Decision) psl.typeData = .ok a from
          apply_continue e a psl.typeData] at h
        simp only [bind, Except.bind] at h
        split at h
        · exact Except.noConfusion h
        · next s3 hs3 =>
          have hs3' := liftO_ok _ _ _ hs3
          have hinvp := noopInv_push m0 z0 s (.visit tid a.value) hinv
          have hinv3 : NoopInv m0 z0 s3 :=
            noopInv_setSlot m0 z0 (s.push (.visit tid a.value))
              (s.push (.visit tid a.value)).curSlot a a s3 ha' hs3'
              rfl rfl (hinv.clean _ _ ha') hinvp
          simp only [Bool.false_eq_true, if_false] at h
          split at h
          · exact Except.noConfusion h
          · next a3 ha3 =>
            split at h
            · exact Except.noConfusion h
            · next tid3 htid3 =>
              split at h
              · exact Except.noConfusion h
              · next td3 htd3 =>
                simp only [hinv3.halt, Bool.false_eq_true, or_self,
                  if_false] at h
                split at h
                · -- no fields: straight to unwind
                  simp only [pure, Except.pure] at h
                  injection h with h
                  refine ⟨_, h.symm, ?_⟩
                  exact ⟨hinv3.mem, rfl, hinv3.idx1,
                    hinv3.clean, hinv3.root, hinv3.cur1⟩
                · -- field descent
                  split at h
                  · exact Except.noConfusion h
                  · next av hav =>
                    split at h
                    · exact Except.noConfusion h
                    · next acts hacts =>
                      split at h
                      · exact Except.noConfusion h
                      · next s4 hs4 =>
                        have hinv4 : NoopInv m0 z0 s4 :=
                          noopInv_enterConfig m0 z0 s3 none
                            td3.fields.length s4 hs4 hinv3
                        split at h
                        · exact Except.noConfusion h
                        · next s5 hs5 =>
                          have hinv5 : NoopInv m0 z0 s5 :=
                            noopInv_setEnterSlots m0 z0 e acts 0 s4 s5
                              hs5 (fieldActions_clean e av td3.fields 0
                                acts hacts) hinv4
                          split at h
                          · exact Except.noConfusion h
                          · next s6 hs6 =>
                            have hinv6 : NoopInv m0 z0 s6 :=
                              noopInv_pushTail m0 z0 s5 s6 hs6 hinv5
                            simp only [pure, Except.pure] at h
                            injection h with h
                            refine ⟨_, h.symm, ?_⟩
                            exact ⟨hinv6.mem, hinv6.halt, hinv6.idx1,
                              hinv6.clean, hinv6.root, hinv6.cur1⟩

theorem noop_stepEnter (m0 : Mem) (z0 : Action) (e : Engine)
    (vt : VisTable) (ct : CallTable) (fn : Nat) (s : ExecState)
    (fl : Flow) (hvt : ContinueTable vt)
    (h : stepEnter e vt ct fn s = .ok fl) (hinv : NoopInv m0 z0 s) :
    ∃ s1, fl = .next s1 ∧ NoopInv m0 z0 s1 := by
  unfold stepEnter at h
  simp only [bind, Except.bind] at h
  split at h
  · exact Except.noConfusion h
  · next a ha =>
    have ha' : s.getSlot s.curSlot = some a := liftO_ok _ _ _ ha
    simp only [(hinv.clean _ _ ha').2.2] at h
    split at h
    · exact Except.noConfusion h
    · next curTid htid =>
      split at h
      · exact Except.noConfusion h
      · next hit hscan =>
        split at h
        · -- cycle hit: skip
          simp only [pure, Except.pure] at h
          injection h with h
          refine ⟨_, h.symm, ?_⟩
          exact ⟨hinv.mem, hinv.halt, hinv.idx1, hinv.clean,
            hinv.root, hinv.cur1⟩
        · split at h
          · exact Except.noConfusion h
          · next td htd =>
            split at h
            · -- pointer
              split at h
              · exact Except.noConfusion h
              · next av hav =>
                split at h
                · -- a pointer cell: case on the target
                  next t hread =>
                  split at h
                  · -- nil pointer: unwind
                    simp only [pure, Except.pure] at h
                    injection h with h
                    refine ⟨_, h.symm, ?_⟩
                    exact ⟨hinv.mem, hinv.halt, hinv.idx1, hinv.clean,
                      hinv.root, hinv.cur1⟩
                  · -- live pointer: descend
                    next p =>
                    split at h
                    · exact Except.noConfusion h
                    · next cf hcf =>
                      split at h
                      · exact Except.noConfusion h
                      · next eltTd helt =>
                        split at h
                        · exact Except.noConfusion h
                        · next s4 hs4 =>
                          have hinv4 := noopInv_enterConfig m0 z0 s
                            cf.Intercept 1 s4 hs4 hinv
                          split at h
                          · exact Except.noConfusion h
                          · next s5 hs5 =>
                            have hinv5 := noopInv_setEnterSlots m0 z0 e
                              [Context.ActionVisit eltTd (some p)] 0 s4
                              s5 hs5
                              (by intro a' ha'2
                                  rw [List.mem_singleton] at ha'2
                                  subst ha'2
                                  exact cleanA_actionVisit _ _) hinv4
                            split at h
                            · exact Except.noConfusion h
                            · next s6 hs6 =>
                              have hinv6 := noopInv_pushTail m0 z0 s5 s6
                                hs6 hinv5
                              simp only [pure, Except.pure] at h
                              injection h with h
                              refine ⟨_, h.symm, ?_⟩
                              exact ⟨hinv6.mem, hinv6.halt, hinv6.idx1,
                                hinv6.clean, hinv6.root, hinv6.cur1⟩
                · -- not a pointer cell: machine panic
                  simp only [throw, throwThe, MonadExceptOf.throw] at h
                  exact Except.noConfusion h
            · -- slice
              split at h
              · exact Except.noConfusion h
              · next av hav =>
                split at h
                · next dat len hread =>
                  split at h
                  · -- empty slice: unwind
                    simp only [pure, Except.pure] at h
                    injection h with h
                    refine ⟨_, h.symm, ?_⟩
                    exact ⟨hinv.mem, hinv.halt, hinv.idx1, hinv.clean,
                      hinv.root, hinv.cur1⟩
                  · split at h
                    · exact Except.noConfusion h
                    · next cf hcf =>
                      split at h
                      · exact Except.noConfusion h
                      · next eltTd helt =>
                        split at h
                        · exact Except.noConfusion h
                        · next s4 hs4 =>
                          have hinv4 := noopInv_enterConfig m0 z0 s
                            cf.Intercept len s4 hs4 hinv
                          split at h
                          · exact Except.noConfusion h
                          · next s5 hs5 =>
                            have hinv5 := noopInv_setEnterSlots m0 z0
                              e (elemActions eltTd dat 0 len) 0 s4 s5
                              hs5
                              (fun a' ha'2 =>
                                elemActions_clean eltTd dat len 0 a'
                                  ha'2) hinv4
                            split at h
                            · exact Except.noConfusion h
                            · next s6 hs6 =>
                              have hinv6 := noopInv_pushTail m0 z0 s5
                                s6 hs6 hinv5
                              simp only [pure, Except.pure] at h
                              injection h with h
                              refine ⟨_, h.symm, ?_⟩
                              exact ⟨hinv6.mem, hinv6.halt,
                                hinv6.idx1, hinv6.clean, hinv6.root,
                                hinv6.cur1⟩
                · simp only [throw, throwThe, MonadExceptOf.throw] at h
                  exact Except.noConfusion h
            · -- interface
              split at h
              · exact Except.noConfusion h
              · next av hav =>
                split at h
                · next tag payload hread =>
                  split at h
                  · -- registered member
                    split at h
                    · -- zero id or nil payload: unwind
                      simp only [pure, Except.pure] at h
                      injection h with h
                      refine ⟨_, h.symm, ?_⟩
                      exact ⟨hinv.mem, hinv.halt, hinv.idx1,
                        hinv.clean, hinv.root, hinv.cur1⟩
                    · split at h
                      · exact Except.noConfusion h
                      · next p hp =>
                        split at h
                        · exact Except.noConfusion h
                        · next cf hcf =>
                          split at h
                          · exact Except.noConfusion h
                          · next etd hetd =>
                            split at h
                            · exact Except.noConfusion h
                            · next s4 hs4 =>
                              have hinv4 := noopInv_enterConfig m0 z0
                                s cf.Intercept 1 s4 hs4 hinv
                              split at h
                              · exact Except.noConfusion h
                              · next s5 hs5 =>
                                have hinv5 := noopInv_setEnterSlots m0
                                  z0 e
                                  [Context.ActionVisit etd (some p)]
                                  0 s4 s5 hs5
                                  (by intro a' ha'2
                                      rw [List.mem_singleton] at ha'2
                                      subst ha'2
                                      exact cleanA_actionVisit _ _)
                                  hinv4
                                split at h
                                · exact Except.noConfusion h
                                · next s6 hs6 =>
                                  have hinv6 := noopInv_pushTail m0 z0
                                    s5 s6 hs6 hinv5
                                  simp only [pure, Except.pure] at h
                                  injection h with h
                                  refine ⟨_, h.symm, ?_⟩
                                  exact ⟨hinv6.mem, hinv6.halt,
                                    hinv6.idx1, hinv6.clean,
                                    hinv6.root, hinv6.cur1⟩
                  · -- foreign member: tag coerced to zero
                    split at h
                    · simp only [pure, Except.pure] at h
                      injection h with h
                      refine ⟨_, h.symm, ?_⟩
                      exact ⟨hinv.mem, hinv.halt, hinv.idx1,
                        hinv.clean, hinv.root, hinv.cur1⟩
                    · next hcond =>
                      exact absurd (Or.inl rfl) hcond
                · simp only [throw, throwThe, MonadExceptOf.throw] at h
                  exact Except.noConfusion h
            · -- struct
              split at h
              · exact Except.noConfusion h
              · next cf hcf =>
                split at h
                · -- intercept installed on the frame
                  next iv hiv =>
                  simp only [hvt iv curTid a.value s.mem,
                    Context.Continue] at h
                  split at h
                  · exact Except.noConfusion h
                  · next psl hpsl =>
                    rw [show a.apply e ({} : Decision) psl.typeData =
                      .ok a from apply_continue e a psl.typeData] at h
                    simp only [bind, Except.bind] at h
                    split at h
                    · exact Except.noConfusion h
                    · next s3 hs3 =>
                      have hs3' := liftO_ok _ _ _ hs3
                      have hinvp := noopInv_push m0 z0 s
                        (.intercept curTid a.value) hinv
                      have hinv3 : NoopInv m0 z0 s3 :=
                        noopInv_setSlot m0 z0
                          (s.push (.intercept curTid a.value))
                          (s.push (.intercept curTid a.value)).curSlot
                          a a s3 ha' hs3' rfl rfl
                          (hinv.clean _ _ ha') hinvp
                      simp only [Bool.false_eq_true, if_false] at h
                      exact noop_structVisit m0 z0 e vt fn s3 fl hvt h
                        hinv3
                · -- no intercept: plain struct visit
                  exact noop_structVisit m0 z0 e vt fn s fl hvt h hinv
            · -- kind zero: machine panic
              simp only [throw, throwThe, MonadExceptOf.throw] at h
              exact Except.noConfusion h

/-- The frame array as `Execute`'s bootstrap leaves it: the sentinel
frame holding the assignability descriptor at index 0, the one-slot
root frame at index 1. -/
def initFrames (atd ttd : TypeData) (x : Option Addr) : List Frame :=
  ((List.replicate defaultStackDepth ({} : Frame)).set 0
    { Slots := (List.replicate fixedSlotCount ({} : Action)).set 0
        { typeData := some atd.typeID, valueType := atd.typeID } }).set 1
    { Count := 1
      Slots := (List.replicate fixedSlotCount ({} : Action)).set 0
        { typeData := some ttd.typeID, value := x,
          valueType := ttd.typeID } }

theorem initState_shape (e : Engine) (t : TypeID) (x : Option Addr)
    (at0 : TypeID) (m : Mem) (atd ttd : TypeData)
    (h1 : e.typeData at0 = some atd) (h2 : e.typeData t = some ttd) :
    initState e t x at0 m = .ok {
      mem := m
      stackStore := [initFrames atd ttd x]
      overStore := []
      stackB := 0
      stackIdx := 1
      curFrame := (0, 1)
      curSlot := .fixed 0 1 0
      parentSlot := .fixed 0 0 0
      returning := none
      halting := false
      trace := []
      phase := .enter } := by
  unfold initState
  simp only [bind, Except.bind, h1, h2, liftO_some]
  rfl

theorem noop_initState (e : Engine) (t : TypeID) (x : Option Addr)
    (at0 : TypeID) (m : Mem) (s0 : ExecState)
    (h : initState e t x at0 m = .ok s0) :
    ∃ atd ttd, e.typeData at0 = some atd ∧ e.typeData t = some ttd ∧
      NoopInv m (Context.ActionVisit ttd x) s0 := by
  cases h1 : e.typeData at0 with
  | none =>
    rw [show initState e t x at0 m = .error
        "runtime error: index out of range" from by
      unfold initState
      simp only [bind, Except.bind, h1, liftO]] at h
    exact Except.noConfusion h
  | some atd =>
    cases h2 : e.typeData t with
    | none =>
      rw [show initState e t x at0 m = .error
          "runtime error: index out of range" from by
        unfold initState
        simp only [bind, Except.bind, h1, h2, liftO_some, liftO]
        rfl] at h
      exact Except.noConfusion h
    | some ttd =>
      rw [initState_shape e t x at0 m atd ttd h1 h2] at h
      injection h with h
      refine ⟨atd, ttd, rfl, rfl, ?_⟩
      rw [← h]
      refine ⟨rfl, rfl, le_refl 1, ?_, ?_, fun _ => rfl⟩
      · intro r a ha
        cases r with
        | over oid j =>
          simp only [ExecState.getSlot] at ha
          rcases oid with _ | oid <;> exact Option.noConfusion ha
        | fixed b fi j =>
          simp only [ExecState.getSlot, ExecState.getFrame] at ha
          rcases b with _ | b
          · simp only [List.get?_eq_getElem?] at ha
            simp only [List.getElem?_cons_zero] at ha
            split at ha
            · next f hf =>
              have hfm : f ∈ initFrames atd ttd x :=
                List.getElem?_mem hf
              unfold initFrames at hfm
              rcases List.mem_or_eq_of_mem_set hfm with hfm | hfe
              · rcases List.mem_or_eq_of_mem_set hfm with hfm | hfe
                · have hfr := List.eq_of_mem_replicate hfm
                  subst hfr
                  have ham : a ∈ (List.replicate fixedSlotCount
                      ({} : Action)) := by
                    have := List.getElem?_mem
                      (by simpa using ha)
                    exact this
                  have har := List.eq_of_mem_replicate ham
                  subst har
                  exact cleanA_empty
                · subst hfe
                  have ham := List.getElem?_mem (by simpa using ha)
                  rcases List.mem_or_eq_of_mem_set ham with ham | hae
                  · have har := List.eq_of_mem_replicate ham
                    subst har
                    exact cleanA_empty
                  · subst hae
                    exact ⟨rfl, rfl, rfl⟩
              · subst hfe
                have ham := List.getElem?_mem (by simpa using ha)
                rcases List.mem_or_eq_of_mem_set ham with ham | hae
                · have har := List.eq_of_mem_replicate ham
                  subst har
                  exact cleanA_empty
                · subst hae
                  exact ⟨rfl, rfl, rfl⟩
            · exact Option.noConfusion ha
          · simp only [List.get?_eq_getElem?,
              List.getElem?_cons_succ, List.getElem?_nil] at ha
            exact Option.noConfusion ha
      · exact ⟨Context.ActionVisit ttd x, rfl, rfl, rfl⟩

theorem noop_step (m0 : Mem) (z0 : Action) (e : Engine)
    (vt : VisTable) (ct : CallTable) (fn : Nat) (s : ExecState)
    (fl : Flow) (hvt : ContinueTable vt)
    (h : step e vt ct fn s = .ok fl) (hinv : NoopInv m0 z0 s) :
    (∃ s1, fl = .next s1 ∧ NoopInv m0 z0 s1) ∨
    (∃ s1 tid, fl = .ret ⟨tid, z0.value, false, none⟩ s1 ∧
      z0.typeData = some tid ∧ NoopInv m0 z0 s1) := by
  unfold step at h
  split at h
  · exact Or.inl (noop_stepEnter m0 z0 e vt ct fn s fl hvt h hinv)
  · exact Or.inl (noop_stepUnwind m0 z0 e vt s fl h hinv)
  · exact noop_stepNext m0 z0 s fl h hinv

theorem noop_run (m0 : Mem) (z0 : Action) (e : Engine) (vt : VisTable)
    (ct : CallTable) (fn : Nat) (hvt : ContinueTable vt) :
    ∀ (fuel : Nat) (s : ExecState) (r : ExecResult) (s' : ExecState),
      NoopInv m0 z0 s → run e vt ct fn fuel s = .done r s' →
      (∃ tid, z0.typeData = some tid ∧
        r = ⟨tid, z0.value, false, none⟩) ∧ s'.mem = m0 := by
  intro fuel
  induction fuel with
  | zero =>
    intro s r s' hinv h
    exact absurd h (by simp [run])
  | succ fuel ih =>
    intro s r s' hinv h
    unfold run at h
    split at h
    · exact RunRes.noConfusion h
    · next r2 s2 hstep =>
      injection h with h1 h2
      subst h1
      subst h2
      rcases noop_step m0 z0 e vt ct fn s _ hvt hstep hinv with
        ⟨s1, he, _⟩ | ⟨s1, tid, he, htid, hinv1⟩
      · exact Flow.noConfusion he
      · injection he with he1 he2
        subst he1
        subst he2
        exact ⟨⟨tid, htid, rfl⟩, hinv1.mem⟩
    · next s2 hstep =>
      rcases noop_step m0 z0 e vt ct fn s _ hvt hstep hinv with
        ⟨s1, he, hinv1⟩ | ⟨s1, tid, he, _, _⟩
      · injection he with he
        subst he
        exact ih s2 r s' hinv1 h
      · exact Flow.noConfusion he

/-- The Continue-only partial-correctness theorem: whenever a run of
`Execute` under an always-Continue visitor table finishes, it returns
the root slot's original descriptor and the original root reference,
`changed = false` and no error, and the memory of the final state is
the input memory — the input value was never modified. -/
theorem noop_execute (e : Engine) (vt : VisTable) (ct : CallTable)
    (fn : Nat) (t : TypeID) (x : Option Addr) (at0 : TypeID) (m : Mem)
    (fuel : Nat) (r : ExecResult) (hvt : ContinueTable vt)
    (hdone : (Engine.Execute e vt ct fn t x at0 m fuel).result =
      some r) :
    ∃ ttd, e.typeData t = some ttd ∧
      r = ⟨ttd.typeID, x, false, none⟩ ∧
      (Engine.Execute e vt ct fn t x at0 m fuel).finalMem = m := by
  unfold Engine.Execute at hdone ⊢
  split at hdone
  · exact absurd hdone (by simp [RunRes.result])
  · next s0 hinit =>
    obtain ⟨atd, ttd, h1, h2, hinv⟩ :=
      noop_initState e t x at0 m s0 hinit
    unfold RunRes.result at hdone
    split at hdone
    · next r2 s' hrun =>
      injection hdone with hdone
      subst hdone
      obtain ⟨⟨tid, htid, hr⟩, hmem⟩ :=
        noop_run m (Context.ActionVisit ttd x) e vt ct fn hvt fuel s0
          r2 s' hinv hrun
      have htid' : tid = ttd.typeID :=
        (Option.some.inj (htid : some ttd.typeID = some tid)).symm
      subst htid'
      refine ⟨ttd, h2, hr, ?_⟩
      rw [hrun]
      exact hmem
    all_goals exact absurd hdone (by simp)

/-- C2: running `Execute` with a visitor that always returns the
Continue decision returns `changed = false` and a result value
identical, by deep equality, to the input — the returned reference IS
the input reference and the memory is left untouched, so deep equality
is immediate — with no error; the input value is never modified.  The
first conjunct states this for every engine, every input value, every
memory and every fuel bound: whenever such a run finishes, it returns
the input's descriptor and the unmodified input reference with
`changed = false` and no error, and the final memory is the input
memory.  The remaining conjuncts run the spec's three-leaf record
concretely: the run finishes with the identity result and the memory
is bit-for-bit the input memory. -/
theorem noop_idempotent :
    (∀ (e : Engine) (vt : VisTable) (ct : CallTable) (fn : Nat)
      (t : TypeID) (x : Option Addr) (at0 : TypeID) (m : Mem)
      (fuel : Nat) (r : ExecResult), ContinueTable vt →
      (Engine.Execute e vt ct fn t x at0 m fuel).result = some r →
      ∃ ttd, e.typeData t = some ttd ∧
        r = ⟨ttd.typeID, x, false, none⟩ ∧
        (Engine.Execute e vt ct fn t x at0 m fuel).finalMem = m) ∧
    ((Engine.Execute eEng contVis noCalls 0 1 (some ⟨0, []⟩) 1 eMem
        1000).result = some ⟨1, some ⟨0, []⟩, false, none⟩) ∧
    ((Engine.Execute eEng contVis noCalls 0 1 (some ⟨0, []⟩) 1 eMem
        1000).finalMem = eMem) := by
  refine ⟨fun e vt ct fn t x at0 m fuel r hvt h =>
    noop_execute e vt ct fn t x at0 m fuel r hvt h, by decide, ?_⟩
  obtain ⟨ttd, h1, h2, h3⟩ :=
    noop_execute eEng contVis noCalls 0 1 (some ⟨0, []⟩) 1 eMem 1000
      ⟨1, some ⟨0, []⟩, false, none⟩ (fun _ _ _ _ => rfl) (by decide)
  exact h3

/-- Witness for C2's general conjunct: the three-leaf record run. -/
theorem noop_idempotent_witness :
    ContinueTable contVis ∧
    (∃ ttd, eEng.typeData 1 = some ttd ∧
      (⟨1, some ⟨0, []⟩, false, none⟩ : ExecResult) =
        ⟨ttd.typeID, some ⟨0, []⟩, false, none⟩ ∧
      (Engine.Execute eEng contVis noCalls 0 1 (some ⟨0, []⟩) 1 eMem
        1000).finalMem = eMem) :=
  ⟨fun _ _ _ _ => rfl,
    noop_idempotent.1 eEng contVis noCalls 0 1 (some ⟨0, []⟩) 1 eMem
      1000 ⟨1, some ⟨0, []⟩, false, none⟩ (fun _ _ _ _ => rfl)
      (by decide)⟩

/-- Registry for the cycle-check probe: a chain of single-field records
`S1 ⊃ S2 ⊃ … ⊃ S6`, where `S6` has two fields — a `Leaf` and an `S7` —
and `S7`'s only field is a pointer back to the `S7` value itself. -/
def cycMap : TypeMap := [{},
  { fields := [⟨"F", 2⟩], kind := .struct, name := "S1", typeID := 1 },
  { fields := [⟨"F", 3⟩], kind := .struct, name := "S2", typeID := 2 },
  { fields := [⟨"F", 4⟩], kind := .struct, name := "S3", typeID := 3 },
  { fields := [⟨"F", 5⟩], kind := .struct, name := "S4", typeID := 4 },
  { fields := [⟨"F", 6⟩], kind := .struct, name := "S5", typeID := 5 },
  { fields := [⟨"A", 9⟩, ⟨"B", 7⟩], kind := .struct, name := "S6",
    typeID := 6 },
  { fields := [⟨"P", 8⟩], kind := .struct, name := "S7", typeID := 7 },
  { elem := 7, kind := .pointer, typeID := 8 },
  { kind := .struct, name := "Leaf", typeID := 9 }]

/-- Engine over `cycMap`. -/
def cycEng : Engine := ⟨cycMap⟩

/-- A deeply nested value of `cycMap`: the `S7` at path
`[0,0,0,0,0,1]` points back to itself. -/
def cycMemDeep : Mem :=
  ⟨[.structV [.structV [.structV [.structV [.structV [.structV
    [.structV [], .structV [.ptrV (some ⟨0, [0, 0, 0, 0, 0, 1]⟩)]]]]]]]]⟩

/-- The same cyclic tail, rooted directly at `S6`. -/
def cycMemShallow : Mem :=
  ⟨[.structV [.structV [], .structV [.ptrV (some ⟨0, [1]⟩)]]]⟩

/-- C5 (counterexample): the claim's "a slot whose (raw data
reference, concrete typeID) pair matches a slot currently on the stack
is skipped without being visited a second time" fails when the frame
array grows mid-traversal.  Rooted at `S6` (first conjunct), the
self-referential `S7` is visited exactly once: its pointer's target
matches the on-stack `S7` slot and is skipped.  Rooted at `S1` — which
places `S6`'s frame at index `7 = len(stack)-1`, forcing the geometric
growth of engine.go:296-310 — the SAME node `S7` is visited three
times (second conjunct).  After the growth, `curFrame` still points
into the old backing array, so `S6`'s slot-index advance (Leaf → S7)
lands only in the stale old copy.  Second visit: the cycle scan of
engine.go:186-191 iterates the NEW array, whose frozen copy of `S6`'s
frame still names the Leaf slot as active, so the on-stack `S7` match
is missed.  Third visit: when that subtree pops back, `curFrame` is
re-read from the new array, whose never-advanced index re-enters the
`S7` slot from scratch.  The run does still terminate with no error
and an unchanged root (third conjunct): only the no-double-visit
guarantee is broken, not termination. -/
theorem cycle_scan_misses_after_growth :
    ((cycEng.Execute contVis noCalls 0 6 (some ⟨0, []⟩) 6
        cycMemShallow 1000).events =
      [.visit 6 (some ⟨0, []⟩), .visit 9 (some ⟨0, [0]⟩),
        .visit 7 (some ⟨0, [1]⟩)]) ∧
    ((cycEng.Execute contVis noCalls 0 1 (some ⟨0, []⟩) 1 cycMemDeep
        3000).events =
      [.visit 1 (some ⟨0, []⟩), .visit 2 (some ⟨0, [0]⟩),
        .visit 3 (some ⟨0, [0, 0]⟩), .visit 4 (some ⟨0, [0, 0, 0]⟩),
        .visit 5 (some ⟨0, [0, 0, 0, 0]⟩),
        .visit 6 (some ⟨0, [0, 0, 0, 0, 0]⟩),
        .visit 9 (some ⟨0, [0, 0, 0, 0, 0, 0]⟩),
        .visit 7 (some ⟨0, [0, 0, 0, 0, 0, 1]⟩),
        .visit 7 (some ⟨0, [0, 0, 0, 0, 0, 1]⟩),
        .visit 7 (some ⟨0, [0, 0, 0, 0, 0, 1]⟩)]) ∧
    ((cycEng.Execute contVis noCalls 0 1 (some ⟨0, []⟩) 1 cycMemDeep
        3000).result = some ⟨1, some ⟨0, []⟩, false, none⟩) :=
  ⟨by decide, by decide, by decide⟩

end Walkabout
